import Mathlib

/-!
# The Halide runtime profiler (`src/runtime/profiler.cpp`)

A shallow embedding of the profiler's registry, billing engine, sampling
thread, memory instrumentation, lookup, reporter, reset and shutdown, followed
by theorems about them.

Conventions of the embedding.

* A C pointer to a pipeline record is the position of that record in the
  chain `pipelines`, counted from the head; `none` is `NULL`.  Pushing a new
  head moves every older record one position down, so a stored pointer
  (`mru_pipeline`) is shifted with it.
* Name pointers (`const char *`) are natural numbers and are compared as the
  source compares them: by address.
* `uint64_t` values are naturals reduced modulo `2 ^ 64`.  The memory
  counters are C `int`s updated by `__sync_add_and_fetch` and
  `__sync_sub_and_fetch`, which wrap in two's complement: `wrap32`.  Plain
  signed arithmetic (`runs++`, `samples++`, `first_free_id += num_funcs`,
  `first_func_id + num_funcs`, the quotient `memory_total / num_allocs`) is
  left exact, since its overflow is undefined in C.
* `malloc` is an input: each call that may allocate is told whether the two
  allocations succeed.
* A run of the report is the list of lines handed to `halide_print` together
  with a flag telling whether the run reached its end.  A division by zero in
  the percentage of a function line ends the run there: the line is not
  printed and no later record is visited.
-/

namespace Halide.Runtime

/-! # Definitions -/

/-- Two's complement reduction of an integer to the range of a 32-bit C `int`. -/
def wrap32 (x : Int) : Int := (x + 2147483648) % 4294967296 - 2147483648

/-- The value is one a C `int` holds. -/
def is_int32 (x : Int) : Prop := -2147483648 ≤ x ∧ x < 2147483648

instance (x : Int) : Decidable (is_int32 x) := by
  unfold is_int32
  exact inferInstance

/-- Reduction of a natural number to the range of `uint64_t`. -/
def wrap64 (x : Nat) : Nat := x % 18446744073709551616

/-- Modelled from the spec: the declaration of `halide_profiler_func_stats`
(HalideRuntime.h) is not part of the sources at hand.  The fields are the ones
profiler.cpp reads and writes; the memory counters are C `int`s, like the
locals (`int f_mem_current`, `int alloc_avg`) and the `int incr`, `int decr`
parameters the source combines them with. -/
structure halide_profiler_func_stats where
  time : Nat
  name : Nat
  memory_current : Int
  memory_peak : Int
  memory_total : Int
  num_allocs : Int
deriving DecidableEq, Repr

/-- Modelled from the spec: the declaration of `halide_profiler_pipeline_stats`
(HalideRuntime.h) is not part of the sources at hand.  The fields are the ones
profiler.cpp reads and writes; `funcs` is the heap array of the record and
`next` is the tail of the list the record sits in. -/
structure halide_profiler_pipeline_stats where
  time : Nat
  name : Nat
  funcs : List halide_profiler_func_stats
  num_funcs : Int
  first_func_id : Int
  runs : Int
  samples : Int
  memory_current : Int
  memory_peak : Int
  memory_total : Int
  num_allocs : Int
deriving DecidableEq, Repr

/-- Modelled from the spec: the declaration of `halide_profiler_state`
(HalideRuntime.h) is not part of the sources at hand.  The lock is left out;
`pipelines` is the chain from its head, `mru_pipeline` a position in it. -/
structure halide_profiler_state where
  pipelines : List halide_profiler_pipeline_stats
  sleep_time : Int
  first_free_id : Int
  current_func : Int
  started : Bool
  mru_pipeline : Option Nat
deriving DecidableEq, Repr

/-- The static state of `halide_profiler_get_state`:
`{{{0}}, NULL, 1, 0, 0, false, NULL}`. -/
def halide_profiler_get_state : halide_profiler_state :=
  { pipelines := [], sleep_time := 1, first_free_id := 0, current_func := 0,
    started := false, mru_pipeline := none }

/-! ## Registry -/

/-- The search loop of `find_or_create_pipeline`: the first record of the chain
with this name pointer and this `num_funcs`, with its position. -/
def find_or_create_scan (pipeline_name : Nat) (num_funcs : Int) :
    List halide_profiler_pipeline_stats → Option (Nat × halide_profiler_pipeline_stats)
  | [] => none
  | p :: rest =>
    if p.name = pipeline_name ∧ p.num_funcs = num_funcs then some (0, p)
    else (find_or_create_scan pipeline_name num_funcs rest).map fun r => (r.1 + 1, r.2)

/-- The initialisation loop of `find_or_create_pipeline`: slot `i` gets the
name `func_names[i]` and zero counters, for `0 ≤ i < num_funcs`. -/
def init_funcs (num_funcs : Int) (func_names : Nat → Nat) :
    List halide_profiler_func_stats :=
  (List.range num_funcs.toNat).map fun i =>
    { time := 0, name := func_names i, memory_current := 0, memory_peak := 0,
      memory_total := 0, num_allocs := 0 }

/-- The record `find_or_create_pipeline` builds when the search fails. -/
def new_pipeline (s : halide_profiler_state) (pipeline_name : Nat) (num_funcs : Int)
    (func_names : Nat → Nat) : halide_profiler_pipeline_stats :=
  { time := 0, name := pipeline_name, funcs := init_funcs num_funcs func_names,
    num_funcs := num_funcs, first_func_id := s.first_free_id, runs := 0, samples := 0,
    memory_current := 0, memory_peak := 0, memory_total := 0, num_allocs := 0 }

/-- The function `find_or_create_pipeline`.  `malloc_stats` and `malloc_funcs`
say whether the allocation of the record and of its function array succeed.
The result is the returned pointer (`none` for `NULL`), the record it points
to, and the state after the call. -/
def find_or_create_pipeline (s : halide_profiler_state) (pipeline_name : Nat)
    (num_funcs : Int) (func_names : Nat → Nat) (malloc_stats malloc_funcs : Bool) :
    Option (Nat × halide_profiler_pipeline_stats) × halide_profiler_state :=
  match find_or_create_scan pipeline_name num_funcs s.pipelines with
  | some r => (some r, s)
  | none =>
    if ¬ malloc_stats then (none, s)
    else if ¬ malloc_funcs then (none, s)
    else
      let p := new_pipeline s pipeline_name num_funcs func_names
      (some (0, p),
        { s with first_free_id := s.first_free_id + num_funcs,
                 pipelines := p :: s.pipelines,
                 mru_pipeline := s.mru_pipeline.map (· + 1) })

/-- The function `halide_profiler_pipeline_start`.  The token is `none` when
the call returns `halide_error_out_of_memory(user_context)`. -/
def halide_profiler_pipeline_start (s : halide_profiler_state) (pipeline_name : Nat)
    (num_funcs : Int) (func_names : Nat → Nat) (malloc_stats malloc_funcs : Bool) :
    Option Int × halide_profiler_state :=
  let s1 : halide_profiler_state := if ¬ s.started then { s with started := true } else s
  match find_or_create_pipeline s1 pipeline_name num_funcs func_names malloc_stats malloc_funcs with
  | (none, s2) => (none, s2)
  | (some (i, p), s2) =>
    (some p.first_func_id,
      { s2 with pipelines := s2.pipelines.set i { p with runs := p.runs + 1 } })

/-! ## Billing -/

/-- The range test of `bill_func`:
`func_id >= p->first_func_id && func_id < p->first_func_id + p->num_funcs`. -/
def owns (p : halide_profiler_pipeline_stats) (func_id : Int) : Prop :=
  p.first_func_id ≤ func_id ∧ func_id < p.first_func_id + p.num_funcs

instance (p : halide_profiler_pipeline_stats) (func_id : Int) : Decidable (owns p func_id) := by
  unfold owns
  exact inferInstance

/-- The three updates `bill_func` makes to the record that owns `func_id`:
`p->funcs[func_id - p->first_func_id].time += time; p->time += time;
p->samples++`. -/
def bill_record (p : halide_profiler_pipeline_stats) (func_id : Int) (time : Nat) :
    halide_profiler_pipeline_stats :=
  { p with
    funcs := p.funcs.modify (fun f => { f with time := wrap64 (f.time + time) })
      (func_id - p.first_func_id).toNat
    time := wrap64 (p.time + time)
    samples := p.samples + 1 }

/-- The search loop of `bill_func`: the position of the first record of the
chain whose range holds `func_id`. -/
def bill_scan (func_id : Int) : List halide_profiler_pipeline_stats → Option Nat
  | [] => none
  | p :: rest =>
    if owns p func_id then some 0 else (bill_scan func_id rest).map (· + 1)

/-- The record `mru_pipeline` points to, when it is not `NULL`.  A position
past the end of the chain is no record of the chain and is read as `NULL`. -/
def mru_record (s : halide_profiler_state) : Option (Nat × halide_profiler_pipeline_stats) :=
  match s.mru_pipeline with
  | none => none
  | some i =>
    match s.pipelines[i]? with
    | none => none
    | some p => some (i, p)

/-- The search loop of `bill_func` with the update of the record it finds and
of `mru_pipeline`; nothing happens when no record owns `func_id`. -/
def bill_func_scan (s : halide_profiler_state) (func_id : Int) (time : Nat) :
    halide_profiler_state :=
  match bill_scan func_id s.pipelines with
  | some i =>
    { s with mru_pipeline := some i
             pipelines := s.pipelines.modify (fun p => bill_record p func_id time) i }
  | none => s

/-- The function `bill_func`. -/
def bill_func (s : halide_profiler_state) (func_id : Int) (time : Nat) :
    halide_profiler_state :=
  match mru_record s with
  | some (i, mru_p) =>
    if owns mru_p func_id then
      { s with pipelines := s.pipelines.set i (bill_record mru_p func_id time) }
    else bill_func_scan s func_id time
  | none => bill_func_scan s func_id time

/-! ## Memory instrumentation -/

/-- The memory updates of `halide_profiler_memory_allocate` on the counters of
a function record. -/
def func_allocate (f : halide_profiler_func_stats) (incr : Int) : halide_profiler_func_stats :=
  let f_mem_current := wrap32 (f.memory_current + incr)
  { f with
    num_allocs := wrap32 (f.num_allocs + 1)
    memory_total := wrap32 (f.memory_total + incr)
    memory_current := f_mem_current
    memory_peak := if f_mem_current > f.memory_peak then f_mem_current else f.memory_peak }

/-- The function `halide_profiler_memory_allocate`.  `pipeline_state` is the
record the handle points to (`none` for `NULL`); the result is that record
after the call, or `none` when one of the three `halide_assert`s fails. -/
def halide_profiler_memory_allocate (pipeline_state : Option halide_profiler_pipeline_stats)
    (token func_id incr : Int) : Option halide_profiler_pipeline_stats :=
  let func_id := func_id + token
  match pipeline_state with
  | none => none
  | some p_stats =>
    if ¬ (func_id - p_stats.first_func_id ≥ 0) then none
    else if ¬ (func_id - p_stats.first_func_id < p_stats.num_funcs) then none
    else
      let p_mem_current := wrap32 (p_stats.memory_current + incr)
      some { p_stats with
        num_allocs := wrap32 (p_stats.num_allocs + 1)
        memory_total := wrap32 (p_stats.memory_total + incr)
        memory_current := p_mem_current
        memory_peak :=
          if p_mem_current > p_stats.memory_peak then p_mem_current else p_stats.memory_peak
        funcs := p_stats.funcs.modify (fun f => func_allocate f incr)
          (func_id - p_stats.first_func_id).toNat }

/-- The function `halide_profiler_memory_free`, with the conventions of
`halide_profiler_memory_allocate`. -/
def halide_profiler_memory_free (pipeline_state : Option halide_profiler_pipeline_stats)
    (token func_id decr : Int) : Option halide_profiler_pipeline_stats :=
  let func_id := func_id + token
  match pipeline_state with
  | none => none
  | some p_stats =>
    if ¬ (func_id - p_stats.first_func_id ≥ 0) then none
    else if ¬ (func_id - p_stats.first_func_id < p_stats.num_funcs) then none
    else
      some { p_stats with
        memory_current := wrap32 (p_stats.memory_current - decr)
        funcs := p_stats.funcs.modify
          (fun f => { f with memory_current := wrap32 (f.memory_current - decr) })
          (func_id - p_stats.first_func_id).toNat }

/-- One call of the memory instrumentation: the local function index and the
byte amount passed as `incr` or `decr`. -/
inductive mem_call where
  | allocate (func_id : Int) (incr : Int)
  | free (func_id : Int) (decr : Int)
deriving DecidableEq, Repr

/-- The function index of a call. -/
def mem_call.func_id : mem_call → Int
  | .allocate f _ => f
  | .free f _ => f

/-- The change a call makes to `memory_current`: `+incr` or `-decr`. -/
def mem_call.delta : mem_call → Int
  | .allocate _ incr => incr
  | .free _ decr => -decr

/-- The amount a call adds to `memory_total`. -/
def mem_call.allocated : mem_call → Int
  | .allocate _ incr => incr
  | .free _ _ => 0

/-- The number a call adds to `num_allocs`. -/
def mem_call.count : mem_call → Int
  | .allocate _ _ => 1
  | .free _ _ => 0

/-- Whether a call is a call of `halide_profiler_memory_allocate`. -/
def mem_call.is_allocate : mem_call → Bool
  | .allocate _ _ => true
  | .free _ _ => false

/-- The function index of a call lies in the id range of the record behind the
handle: `first_func_id ≤ token + func_id < first_func_id + num_funcs`. -/
def call_in_range (token : Int) (p : halide_profiler_pipeline_stats) (c : mem_call) : Prop :=
  p.first_func_id ≤ c.func_id + token ∧ c.func_id + token < p.first_func_id + p.num_funcs

instance (token : Int) (p : halide_profiler_pipeline_stats) (c : mem_call) :
    Decidable (call_in_range token p c) := by
  unfold call_in_range
  exact inferInstance

/-- One call applied to the record behind the handle. -/
def mem_step (token : Int) (p : Option halide_profiler_pipeline_stats) (c : mem_call) :
    Option halide_profiler_pipeline_stats :=
  match c with
  | .allocate f incr => halide_profiler_memory_allocate p token f incr
  | .free f decr => halide_profiler_memory_free p token f decr

/-- A series of calls applied one after the other to the same handle. -/
def mem_run (token : Int) (p : Option halide_profiler_pipeline_stats) (cs : List mem_call) :
    Option halide_profiler_pipeline_stats :=
  cs.foldl (mem_step token) p

/-! ## Reporter -/

/-- What `halide_profiler_report_unlocked` hands to `halide_print`, one value per
call.  A line holds the numbers the text is formatted from; the text itself
(float formatting, padding) is not modelled. -/
inductive report_line where
  | pipeline (name time : Nat) (samples runs num_allocs memory_peak memory_total alloc_avg : Int)
  | func (name time : Nat) (runs percent : Int)
      (memory_current memory_peak memory_total num_allocs alloc_avg : Int)
deriving DecidableEq, Repr

/-- Whether a line is the summary line of a pipeline. -/
def report_line.is_pipeline : report_line → Bool
  | .pipeline .. => true
  | .func .. => false

/-- What a run of `halide_profiler_report_unlocked` leaves behind: the lines
handed to `halide_print`, in order, and whether the run reached its end.  A run
that divides by zero stops there: `finished` is false and `printed` holds the
lines handed over before the division. -/
structure report_result where
  printed : List report_line
  finished : Bool
deriving DecidableEq, Repr

/-- The average `alloc_avg`: zero unless `num_allocs != 0`, else the C quotient. -/
def alloc_avg (memory_total num_allocs : Int) : Int :=
  if num_allocs ≠ 0 then memory_total.tdiv num_allocs else 0

/-- The value `percent`: zero unless `p->time != 0`, else
`fs->time / (p->time / 100)` in `uint64_t`, converted to `int`; `none` when
that divisor is zero. -/
def percent_of (p_time fs_time : Nat) : Option Int :=
  if p_time ≠ 0 then
    if p_time / 100 = 0 then none else some (wrap32 ((fs_time / (p_time / 100) : Nat) : Int))
  else some 0

/-- The summary line of a pipeline. -/
def pipeline_line (p : halide_profiler_pipeline_stats) : report_line :=
  .pipeline p.name p.time p.samples p.runs p.num_allocs p.memory_peak p.memory_total
    (alloc_avg p.memory_total p.num_allocs)

/-- The line of function record `fs` of pipeline `p`; `none` when the
computation of `percent` divides by zero, which comes before the line is handed
to `halide_print`. -/
def func_line (p : halide_profiler_pipeline_stats) (fs : halide_profiler_func_stats) :
    Option report_line :=
  match percent_of p.time fs.time with
  | none => none
  | some percent =>
    some (.func fs.name fs.time p.runs percent fs.memory_current fs.memory_peak
      fs.memory_total fs.num_allocs (alloc_avg fs.memory_total fs.num_allocs))

/-- The inner loop of `halide_profiler_report_unlocked` over the indices still
to visit; `out` is what has been printed so far.  An index past the end of the
array prints nothing.  The loop stops, unfinished, at the first line whose
percentage divides by zero. -/
def report_funcs (p : halide_profiler_pipeline_stats) :
    List Nat → List report_line → report_result
  | [], out => ⟨out, true⟩
  | i :: is, out =>
    match p.funcs[i]? with
    | none => report_funcs p is out
    | some fs =>
      if i = 0 ∧ fs.time = 0 then report_funcs p is out
      else
        match func_line p fs with
        | none => ⟨out, false⟩
        | some line => report_funcs p is (out ++ [line])

/-- The outer loop of `halide_profiler_report_unlocked` over the rest of the
chain.  When the inner loop stops at a division by zero, so does the outer
loop: the records after it are not visited. -/
def report_pipelines : List halide_profiler_pipeline_stats → List report_line → report_result
  | [], out => ⟨out, true⟩
  | p :: rest, out =>
    if p.runs = 0 then report_pipelines rest out
    else
      let out1 := out ++ [pipeline_line p]
      if p.time ≠ 0 ∨ p.memory_total ≠ 0 then
        let r := report_funcs p (List.range p.num_funcs.toNat) out1
        if r.finished then report_pipelines rest r.printed else r
      else report_pipelines rest out1

/-- The function `halide_profiler_report_unlocked`: the lines printed and
whether the run reached its end. -/
def halide_profiler_report_unlocked (s : halide_profiler_state) : report_result :=
  report_pipelines s.pipelines []

/-- The function `halide_profiler_report`. -/
def halide_profiler_report (s : halide_profiler_state) : report_result :=
  halide_profiler_report_unlocked s

/-- What one turn of the outer loop of `halide_profiler_report_unlocked` does
for the record `p`. -/
def report_block (p : halide_profiler_pipeline_stats) : report_result :=
  report_pipelines [p] []

/-- The entries of the array `funcs` that the loop
`for (int i = 0; i < p->num_funcs; i++)` visits. -/
def visited_funcs (p : halide_profiler_pipeline_stats) : List halide_profiler_func_stats :=
  p.funcs.take p.num_funcs.toNat

/-- The entries of a list of slots that are due a line, in the words of the
specification: the first unless its `time` is zero, and every entry after it,
in order. -/
def due_funcs : List halide_profiler_func_stats → List halide_profiler_func_stats
  | [] => []
  | f0 :: rest => if f0.time = 0 then rest else f0 :: rest

/-- The visited entries that are due a line, in the words of the specification:
slot 0 unless its `time` is zero, and every slot `i ≥ 1`, in index order. -/
def printed_funcs (p : halide_profiler_pipeline_stats) : List halide_profiler_func_stats :=
  due_funcs (visited_funcs p)

/-! ## Reset -/

/-- The loop of `halide_profiler_reset`: unlink and free the head until the
chain is empty. -/
def reset_chain : List halide_profiler_pipeline_stats → List halide_profiler_pipeline_stats
  | [] => []
  | _ :: rest => reset_chain rest

/-- The function `halide_profiler_reset`. -/
def halide_profiler_reset (s : halide_profiler_state) : halide_profiler_state :=
  { s with mru_pipeline := none, pipelines := reset_chain s.pipelines, first_free_id := 0 }

/-! ## Series of registrations -/

/-- The arguments of one call of `halide_profiler_pipeline_start`. -/
structure start_call where
  pipeline_name : Nat
  num_funcs : Int
  func_names : Nat → Nat

/-- A series of calls of `halide_profiler_pipeline_start` in which every
allocation succeeds: the tokens returned, in call order, and the final state. -/
def run_starts : halide_profiler_state → List start_call →
    List (Option Int) × halide_profiler_state
  | s, [] => ([], s)
  | s, c :: cs =>
    let r := halide_profiler_pipeline_start s c.pipeline_name c.num_funcs c.func_names true true
    let rs := run_starts r.2 cs
    (r.1 :: rs.1, rs.2)

/-- The id range `[token, token + num_funcs)` of a registration. -/
def in_range (r : Int × Int) (x : Int) : Prop := r.1 ≤ x ∧ x < r.1 + r.2

instance (r : Int × Int) (x : Int) : Decidable (in_range r x) := by
  unfold in_range
  exact inferInstance

/-- The tokens a series of creating registrations returns when the first free
id is `base`: each token is the sum of `base` and the function counts before it. -/
def tokens_from : Int → List start_call → List Int
  | _, [] => []
  | base, c :: cs => base :: tokens_from (base + c.num_funcs) cs

/-! ## Sample states -/

/-- The state after the registration of a pipeline of 2 functions named 10 and
then of a pipeline of 3 functions named 20, from the initial state. -/
def two_pipelines : halide_profiler_state :=
  (run_starts halide_profiler_get_state [⟨10, 2, fun i => i⟩, ⟨20, 3, fun i => i⟩]).2

/-- The record of the pipeline named 10 in `two_pipelines`: ids 0 and 1. -/
def first_record : halide_profiler_pipeline_stats :=
  { new_pipeline halide_profiler_get_state 10 2 (fun i => i) with runs := 1 }

/-- The record of the pipeline named 20 in `two_pipelines`: ids 2, 3 and 4. -/
def second_record : halide_profiler_pipeline_stats :=
  { time := 0, name := 20, funcs := init_funcs 3 (fun i => i), num_funcs := 3,
    first_func_id := 2, runs := 1, samples := 0, memory_current := 0, memory_peak := 0,
    memory_total := 0, num_allocs := 0 }

/-- The state `two_pipelines` after one sample of 50 ns was billed to id 3, slot
1 of the record named 20, which is the head of the chain. -/
def short_second_state : halide_profiler_state := bill_func two_pipelines 3 50

/-- The search loop of `find_pipeline_stats` and of
`halide_profiler_get_pipeline_state`: the first record of the chain with this
name pointer, with its position. -/
def find_scan (pipeline_name : Nat) :
    List halide_profiler_pipeline_stats → Option (Nat × halide_profiler_pipeline_stats)
  | [] => none
  | p :: rest =>
    if p.name = pipeline_name then some (0, p)
    else (find_scan pipeline_name rest).map fun r => (r.1 + 1, r.2)

/-- The function `find_pipeline_stats`: the returned pointer with the record it
points to (`none` for `NULL`), and the state after the call. -/
def find_pipeline_stats (s : halide_profiler_state) (pipeline_name : Nat) :
    Option (Nat × halide_profiler_pipeline_stats) × halide_profiler_state :=
  match mru_record s with
  | some (i, mru_p) =>
    if mru_p.name = pipeline_name then (some (i, mru_p), s)
    else (find_scan pipeline_name s.pipelines, s)
  | none => (find_scan pipeline_name s.pipelines, s)

/-- The function `halide_profiler_get_pipeline_state`: the body of
`find_pipeline_stats` under the lock. -/
def halide_profiler_get_pipeline_state (s : halide_profiler_state) (pipeline_name : Nat) :
    Option (Nat × halide_profiler_pipeline_stats) × halide_profiler_state :=
  match mru_record s with
  | some (i, mru_p) =>
    if mru_p.name = pipeline_name then (some (i, mru_p), s)
    else (find_scan pipeline_name s.pipelines, s)
  | none => (find_scan pipeline_name s.pipelines, s)

/-- The pointer `mru_pipeline` is `NULL` or points to a record of the chain. -/
def mru_valid (s : halide_profiler_state) : Prop :=
  ∀ i, s.mru_pipeline = some i → i < s.pipelines.length

instance (s : halide_profiler_state) : Decidable (mru_valid s) := by
  unfold mru_valid
  cases h : s.mru_pipeline with
  | none => exact isTrue (by intro i hi; cases hi)
  | some j =>
    by_cases hj : j < s.pipelines.length
    · exact isTrue (by intro i hi; cases hi; exact hj)
    · exact isFalse (by intro hall; exact hj (hall j rfl))

/-- One call of `halide_profiler_pipeline_start` with the answers of its two
allocations. -/
structure registration where
  pipeline_name : Nat
  num_funcs : Int
  func_names : Nat → Nat
  malloc_stats : Bool
  malloc_funcs : Bool

/-- A series of calls of `halide_profiler_pipeline_start`, each with its own
allocation answers: the final state. -/
def run_registrations : halide_profiler_state → List registration → halide_profiler_state
  | s, [] => s
  | s, c :: cs =>
    run_registrations
      (halide_profiler_pipeline_start s c.pipeline_name c.num_funcs c.func_names
        c.malloc_stats c.malloc_funcs).2 cs

/-- A state in which two records carry the name 10: a pipeline of 2 functions
and a pipeline of 3 functions were registered under the same name pointer, and
a sample was billed to id 0, an id of the older record. -/
def same_name_state : halide_profiler_state :=
  bill_func (run_starts halide_profiler_get_state
    [⟨10, 2, fun i => i⟩, ⟨10, 3, fun i => i⟩]).2 0 1000

/-- The state after the registration of a pipeline of 2 functions named 10 from
the initial state and one sample of 50 ns billed to id 1. -/
def short_sample_state : halide_profiler_state :=
  bill_func (halide_profiler_pipeline_start halide_profiler_get_state 10 2 (fun i => i)
    true true).2 1 50

/-! ## Sampling thread -/

/-- Subtraction of `uint64_t` values: `a - b` modulo `2 ^ 64`. -/
def sub64 (a b : Nat) : Nat :=
  (a % 18446744073709551616 + 18446744073709551616 - b % 18446744073709551616) %
    18446744073709551616

/-- What the sampling thread reads when it is awake: the clock
(`halide_current_time_ns`) and the field `current_func`, which the pipelines
write without the lock. -/
structure wake where
  t_now : Nat
  func : Int
deriving DecidableEq, Repr

/-- The sampling thread after a series of wakes: the state, the local `t`,
whether the inner loop was left by `break`, and the calls of `bill_func` made so
far, in order, each with its function id and its time. -/
structure sampling_result where
  state : halide_profiler_state
  t : Nat
  stopped : Bool
  bills : List (Int × Nat)
deriving DecidableEq, Repr

/-- The inner loop `while (1)` of `sampling_profiler_thread`, one turn per wake.
At a wake the field `current_func` holds the value of that wake, written by
whoever runs a pipeline, and the clock returns the time of that wake.
`please_stop` is the constant `halide_profiler_please_stop` of HalideRuntime.h.
With no wake left the thread is asleep. -/
def sampling_loop (please_stop : Int) (s : halide_profiler_state) (t : Nat)
    (bills : List (Int × Nat)) : List wake → sampling_result
  | [] => { state := s, t := t, stopped := false, bills := bills }
  | w :: ws =>
    let s0 : halide_profiler_state := { s with current_func := w.func }
    let t_now := w.t_now
    let func := s0.current_func
    if func = please_stop then { state := s0, t := t, stopped := true, bills := bills }
    else if func ≥ 0 then
      sampling_loop please_stop (bill_func s0 func (sub64 t_now t)) t_now
        (bills ++ [(func, sub64 t_now t)]) ws
    else sampling_loop please_stop s0 t_now bills ws

/-- The function `sampling_profiler_thread`.  `t1` is the clock value read
before the inner loop.  The test of the outer loop after the `break` reads the
`current_func` of the wake that left the inner loop, so the thread ends there
with `started = false`. -/
def sampling_profiler_thread (please_stop : Int) (s : halide_profiler_state) (t1 : Nat)
    (wakes : List wake) : sampling_result :=
  if s.current_func = please_stop then
    { state := { s with started := false }, t := t1, stopped := true, bills := [] }
  else
    let r := sampling_loop please_stop s t1 [] wakes
    if r.stopped then { r with state := { r.state with started := false } } else r

/-- The bills the sampling thread owes for a series of wakes, in the words of
the specification: only the wakes before the first one that observes the stop
request count; each of them is paired with the time of the wake before it
(the starting time `t0` for the first); a wake that observes a real function
id (not negative) is billed the time since the wake before it. -/
def spec_bills (please_stop : Int) (t0 : Nat) (wakes : List wake) : List (Int × Nat) :=
  let seen := wakes.takeWhile fun w => w.func ≠ please_stop
  let previous := t0 :: seen.map fun w => w.t_now
  ((seen.zip previous).filter fun wp => wp.1.func ≥ 0).map fun wp =>
    (wp.1.func, sub64 wp.1.t_now wp.2)

/-- The time of the last wake before the first one that observes the stop
request, or `t0` when there is none. -/
def spec_last_time (please_stop : Int) (t0 : Nat) (wakes : List wake) : Nat :=
  ((wakes.takeWhile fun w => w.func ≠ please_stop).map fun w => w.t_now).foldl
    (fun _ t_now => t_now) t0

/-- Five wakes: id 3 at 1001 ns, outside of any pipeline (-1) at 2000 ns, id 0 at
3000 ns, the stop request (-2) at 4000 ns, and a wake that is not reached. -/
def sample_wakes : List wake :=
  [⟨1001, 3⟩, ⟨2000, -1⟩, ⟨3000, 0⟩, ⟨4000, -2⟩, ⟨5000, 1⟩]

/-! ## Peak of the memory counters -/

/-- The byte amount of a call: `incr` or `decr`. -/
def mem_call.amount : mem_call → Int
  | .allocate _ incr => incr
  | .free _ decr => decr

/-- The values `memory_current` of the record holds after each call of a
series, in order; the series ends at a call that fails an assertion. -/
def current_history (token : Int) :
    halide_profiler_pipeline_stats → List mem_call → List Int
  | _, [] => []
  | p, c :: cs =>
    match mem_step token (some p) c with
    | none => []
    | some q => q.memory_current :: current_history token q cs

/-- The values `memory_current` of the function record in slot `j` holds after
each call of a series, in order. -/
def func_current_history (token : Int) (j : Nat) :
    halide_profiler_pipeline_stats → List mem_call → List Int
  | _, [] => []
  | p, c :: cs =>
    match mem_step token (some p) c with
    | none => []
    | some q =>
      match q.funcs[j]? with
      | none => []
      | some fs => fs.memory_current :: func_current_history token j q cs

/-- A release of `decr` bytes does not take `memory_current` of the function
record below `-2 ^ 31`; there is nothing to check when the slot does not exist. -/
def func_free_fits (fs : Option halide_profiler_func_stats) (decr : Int) : Prop :=
  match fs with
  | none => True
  | some f => -2147483648 ≤ f.memory_current - decr

instance (fs : Option halide_profiler_func_stats) (decr : Int) :
    Decidable (func_free_fits fs decr) :=
  match fs with
  | none => isTrue trivial
  | some f => (inferInstance : Decidable (-2147483648 ≤ f.memory_current - decr))

/-- A call of `halide_profiler_memory_free` does not wrap around: it takes
neither `memory_current` of the record nor `memory_current` of the function it
addresses below `-2 ^ 31`.  Every call of `halide_profiler_memory_allocate`
qualifies. -/
def free_fits (token : Int) (p : halide_profiler_pipeline_stats) : mem_call → Prop
  | .allocate _ _ => True
  | .free f decr =>
    -2147483648 ≤ p.memory_current - decr ∧
    func_free_fits p.funcs[(f + token - p.first_func_id).toNat]? decr

instance (token : Int) (p : halide_profiler_pipeline_stats) (c : mem_call) :
    Decidable (free_fits token p c) :=
  match c with
  | .allocate _ _ => isTrue trivial
  | .free f decr =>
    (inferInstance : Decidable (-2147483648 ≤ p.memory_current - decr ∧
      func_free_fits p.funcs[(f + token - p.first_func_id).toNat]? decr))

/-- No call of `halide_profiler_memory_free` of the series wraps around, each
taken in the state the calls before it have produced. -/
def frees_fit (token : Int) : halide_profiler_pipeline_stats → List mem_call → Prop
  | _, [] => True
  | p, c :: cs =>
    free_fits token p c ∧
    match mem_step token (some p) c with
    | none => True
    | some q => frees_fit token q cs

/-- Decision procedure for `frees_fit`. -/
def frees_fit_decide (token : Int) :
    (p : halide_profiler_pipeline_stats) → (cs : List mem_call) → Decidable (frees_fit token p cs)
  | _, [] => isTrue trivial
  | p, c :: cs => by
    unfold frees_fit
    cases h : mem_step token (some p) c with
    | none => exact inferInstance
    | some q =>
      have := frees_fit_decide token q cs
      exact inferInstance

instance (token : Int) (p : halide_profiler_pipeline_stats) (cs : List mem_call) :
    Decidable (frees_fit token p cs) := frees_fit_decide token p cs

/-! ## Counters of a record and of its functions -/

/-- Each of `memory_current`, `memory_total` and `num_allocs` of the record is
the sum of that counter over the function records, reduced to the range of a C
`int`. -/
def counters_agree (p : halide_profiler_pipeline_stats) : Prop :=
  p.memory_current = wrap32 (p.funcs.map fun fs => fs.memory_current).sum ∧
  p.memory_total = wrap32 (p.funcs.map fun fs => fs.memory_total).sum ∧
  p.num_allocs = wrap32 (p.funcs.map fun fs => fs.num_allocs).sum

instance (p : halide_profiler_pipeline_stats) : Decidable (counters_agree p) := by
  unfold counters_agree
  exact inferInstance

/-! ## Billing without the cache, shutdown -/

/-- Billing by a linear scan of the chain alone, in the words of the
specification: the first record of the chain whose range holds `func_id` gets
the time and one sample; the others stay as they are. -/
def bill_linear_chain (func_id : Int) (time : Nat) :
    List halide_profiler_pipeline_stats → List halide_profiler_pipeline_stats
  | [] => []
  | p :: rest =>
    if owns p func_id then bill_record p func_id time :: rest
    else p :: bill_linear_chain func_id time rest

/-- The function `halide_profiler_pipeline_end`; `outside_of_halide` is the
constant `halide_profiler_outside_of_halide` of HalideRuntime.h. -/
def halide_profiler_pipeline_end (outside_of_halide : Int) (s : halide_profiler_state) :
    halide_profiler_state :=
  { s with current_func := outside_of_halide }

/-- The function `halide_profiler_shutdown`: the state it leaves and the run of
its report.  The loop `do { ... } while (s->started)` ends when the sampling
thread, having seen the stop request in `current_func`, has set `started` to
false; that write is part of the step. -/
def halide_profiler_shutdown (outside_of_halide : Int) (s : halide_profiler_state) :
    halide_profiler_state × report_result :=
  if ¬ s.started then (s, ⟨[], true⟩)
  else
    let s1 : halide_profiler_state :=
      { s with current_func := outside_of_halide, started := false, mru_pipeline := none }
    (s1, halide_profiler_report_unlocked s1)

/-! ## Reachable states -/

/-- One operation on the profiler state.  The handle of a call of the memory
instrumentation is the position of a record in the chain. -/
inductive profiler_op where
  | pipeline_start (pipeline_name : Nat) (num_funcs : Int) (func_names : Nat → Nat)
      (malloc_stats malloc_funcs : Bool)
  | bill (func_id : Int) (time : Nat)
  | memory (handle : Nat) (token : Int) (call : mem_call)
  | reset

/-- The allocation of a function array with a negative count does not succeed:
its size, converted to `size_t`, exceeds every object. -/
def profiler_op.malloc_ok : profiler_op → Prop
  | .pipeline_start _ num_funcs _ _ malloc_funcs => malloc_funcs = true → 0 ≤ num_funcs
  | _ => True

instance (op : profiler_op) : Decidable op.malloc_ok :=
  match op with
  | .pipeline_start _ num_funcs _ _ malloc_funcs =>
    (inferInstance : Decidable (malloc_funcs = true → 0 ≤ num_funcs))
  | .bill _ _ => isTrue trivial
  | .memory _ _ _ => isTrue trivial
  | .reset => isTrue trivial

/-- A profiler state with, for each record of the chain and in the order of the
chain, the number of calls of `bill_func` since the record was created whose
function id lay in the id range of the record. -/
structure traced where
  state : halide_profiler_state
  attributed : List Nat
deriving DecidableEq, Repr

/-- One operation on a traced state; `none` when an assertion of the memory
instrumentation fails.  A registration that creates a record starts its count
at 0, a call of `bill_func` counts for every record whose range holds the
function id, a reset drops all counts. -/
def apply_op (t : traced) : profiler_op → Option traced
  | .pipeline_start pipeline_name num_funcs func_names malloc_stats malloc_funcs =>
    let s := (halide_profiler_pipeline_start t.state pipeline_name num_funcs func_names
      malloc_stats malloc_funcs).2
    some { state := s
           attributed :=
             if s.pipelines.length = t.state.pipelines.length + 1 then 0 :: t.attributed
             else t.attributed }
  | .bill func_id time =>
    some { state := bill_func t.state func_id time
           attributed :=
             List.zipWith (fun p a => if owns p func_id then a + 1 else a)
               t.state.pipelines t.attributed }
  | .memory handle token call =>
    match mem_step token t.state.pipelines[handle]? call with
    | none => none
    | some q =>
      some { state := { t.state with pipelines := t.state.pipelines.set handle q }
             attributed := t.attributed }
  | .reset => some { state := halide_profiler_reset t.state, attributed := [] }

/-- A series of operations, one after the other. -/
def run_ops : traced → List profiler_op → Option traced
  | t, [] => some t
  | t, op :: ops =>
    match apply_op t op with
    | none => none
    | some t1 => run_ops t1 ops

/-- What billing reads and writes in a record: `first_func_id`, `num_funcs`,
`time`, `samples` and the `time` of every function record. -/
structure billing_view where
  first_func_id : Int
  num_funcs : Int
  time : Nat
  samples : Int
  times : List Nat
deriving DecidableEq, Repr

/-- The billing view of a record. -/
def view_of (p : halide_profiler_pipeline_stats) : billing_view :=
  { first_func_id := p.first_func_id, num_funcs := p.num_funcs, time := p.time,
    samples := p.samples, times := p.funcs.map fun fs => fs.time }

/-- The invariant of the reachable states, on the billing views of the chain:
every range ends at or below `first_free_id`, the ranges descend along the
chain, every record has `num_funcs` function records and a `time` that is the
sum of their times modulo `2 ^ 64`, and `samples` is the attributed count. -/
def billing_invariant (first_free_id : Int) (views : List billing_view)
    (attributed : List Nat) : Prop :=
  (∀ v ∈ views, v.first_func_id + v.num_funcs ≤ first_free_id ∧
    v.times.length = v.num_funcs.toNat ∧ v.time = v.times.sum % 18446744073709551616) ∧
  views.Pairwise (fun a b => b.first_func_id + b.num_funcs ≤ a.first_func_id) ∧
  views.map (fun v => v.samples) = attributed.map Int.ofNat

/-- The update of `bill_record` on a billing view whose range holds `func_id`;
other views stay as they are. -/
def bill_view (func_id : Int) (time : Nat) (v : billing_view) : billing_view :=
  if v.first_func_id ≤ func_id ∧ func_id < v.first_func_id + v.num_funcs then
    { v with
      time := wrap64 (v.time + time)
      samples := v.samples + 1
      times := v.times.modify (fun x => wrap64 (x + time)) (func_id - v.first_func_id).toNat }
  else v

/-- A series of operations: two registrations, bills for the ids 1, 1, 3 and 9,
an allocation on behalf of function 1 of the older pipeline and a second
registration of that pipeline. -/
def sample_ops : List profiler_op :=
  [.pipeline_start 10 2 (fun i => i) true true, .bill 1 40,
   .pipeline_start 20 3 (fun i => i) true true, .bill 1 60, .bill 3 5,
   .memory 1 0 (.allocate 1 100), .pipeline_start 10 2 (fun i => i) false false, .bill 9 1]

/-- The traced state the operations `sample_ops` lead to from the initial
state. -/
def sample_trace : traced :=
  (run_ops { state := halide_profiler_get_state, attributed := [] } sample_ops).getD
    { state := halide_profiler_get_state, attributed := [] }

/-! # Theorems

## Registration: tokens and id ranges -/

theorem find_or_create_scan_none (pipeline_name : Nat) (num_funcs : Int)
    (chain : List halide_profiler_pipeline_stats)
    (h : ∀ p ∈ chain, p.name ≠ pipeline_name) :
    find_or_create_scan pipeline_name num_funcs chain = none := by
  induction chain with
  | nil => rfl
  | cons p rest ih =>
    have hp : p.name ≠ pipeline_name := h p (List.mem_cons_self _ _)
    have hr := ih (fun q hq => h q (List.mem_cons_of_mem _ hq))
    simp [find_or_create_scan, hp, hr]

theorem started_after (s : halide_profiler_state) :
    (if ¬ s.started then { s with started := true } else s) = { s with started := true } := by
  cases s with
  | mk pl sl ff cf st mru => cases st <;> rfl

theorem pipeline_start_fresh (s : halide_profiler_state) (c : start_call)
    (h : ∀ p ∈ s.pipelines, p.name ≠ c.pipeline_name) :
    halide_profiler_pipeline_start s c.pipeline_name c.num_funcs c.func_names true true =
      (some s.first_free_id,
        { s with
          started := true
          first_free_id := s.first_free_id + c.num_funcs
          pipelines :=
            { new_pipeline s c.pipeline_name c.num_funcs c.func_names with runs := 1 } ::
              s.pipelines
          mru_pipeline := s.mru_pipeline.map (· + 1) }) := by
  unfold halide_profiler_pipeline_start find_or_create_pipeline
  rw [started_after]
  simp only [find_or_create_scan_none c.pipeline_name c.num_funcs s.pipelines h]
  simp [new_pipeline]

theorem run_starts_fresh : ∀ (cs : List start_call) (s : halide_profiler_state),
    (∀ c ∈ cs, ∀ p ∈ s.pipelines, p.name ≠ c.pipeline_name) →
    cs.Pairwise (fun a b => a.pipeline_name ≠ b.pipeline_name) →
    (run_starts s cs).1 = (tokens_from s.first_free_id cs).map some ∧
    (run_starts s cs).2.first_free_id = s.first_free_id + (cs.map (·.num_funcs)).sum := by
  intro cs
  induction cs with
  | nil => intro s _ _; simp [run_starts, tokens_from]
  | cons c cs ih =>
    intro s hfresh hd
    rw [List.pairwise_cons] at hd
    have hc := pipeline_start_fresh s c (hfresh c (List.mem_cons_self _ _))
    have ih' := ih (halide_profiler_pipeline_start s c.pipeline_name c.num_funcs c.func_names true true).2
      (by
        intro d hd' p hp
        rw [hc] at hp
        simp only [List.mem_cons] at hp
        rcases hp with hp | hp
        · subst hp
          simp only [new_pipeline]
          exact hd.1 d hd'
        · exact hfresh d (List.mem_cons_of_mem _ hd') p hp)
      hd.2
    simp only [run_starts, tokens_from, List.map_cons, List.sum_cons]
    rw [hc] at ih' ⊢
    simp only at ih' ⊢
    refine ⟨?_, ?_⟩
    · rw [ih'.1]
    · rw [ih'.2]; ring

theorem sum_num_funcs_nonneg (cs : List start_call) (hn : ∀ c ∈ cs, 0 ≤ c.num_funcs) :
    0 ≤ (cs.map (·.num_funcs)).sum := by
  induction cs with
  | nil => simp
  | cons c cs ih =>
    have h1 := hn c (List.mem_cons_self _ _)
    have h2 := ih (fun d hd => hn d (List.mem_cons_of_mem _ hd))
    simp only [List.map_cons, List.sum_cons]
    omega

theorem tokens_from_ge : ∀ (cs : List start_call) (base : Int),
    (∀ c ∈ cs, 0 ≤ c.num_funcs) → ∀ t ∈ tokens_from base cs, base ≤ t := by
  intro cs
  induction cs with
  | nil => intro base _ t ht; simp [tokens_from] at ht
  | cons c cs ih =>
    intro base hn t ht
    simp only [tokens_from, List.mem_cons] at ht
    rcases ht with ht | ht
    · omega
    · have h1 := hn c (List.mem_cons_self _ _)
      have h2 := ih (base + c.num_funcs) (fun d hd => hn d (List.mem_cons_of_mem _ hd)) t ht
      omega

theorem tokens_from_zip_bounds : ∀ (cs : List start_call) (base : Int),
    (∀ c ∈ cs, 0 ≤ c.num_funcs) →
    ∀ r ∈ (tokens_from base cs).zip (cs.map (·.num_funcs)),
      base ≤ r.1 ∧ 0 ≤ r.2 ∧ r.1 + r.2 ≤ base + (cs.map (·.num_funcs)).sum := by
  intro cs
  induction cs with
  | nil => intro base _ r hr; simp [tokens_from] at hr
  | cons c cs ih =>
    intro base hn r hr
    have h1 := hn c (List.mem_cons_self _ _)
    have hn' : ∀ d ∈ cs, 0 ≤ d.num_funcs := fun d hd => hn d (List.mem_cons_of_mem _ hd)
    have h3 := sum_num_funcs_nonneg cs hn'
    simp only [tokens_from, List.map_cons, List.zip_cons_cons, List.mem_cons, List.sum_cons] at hr ⊢
    rcases hr with hr | hr
    · subst hr
      simp only
      omega
    · have h2 := ih (base + c.num_funcs) hn' r hr
      omega

theorem tokens_from_sorted : ∀ (cs : List start_call) (base : Int),
    (∀ c ∈ cs, 0 ≤ c.num_funcs) →
    (tokens_from base cs).Pairwise (· ≤ ·) ∧
    ((∀ c ∈ cs, 1 ≤ c.num_funcs) → (tokens_from base cs).Pairwise (· < ·)) := by
  intro cs
  induction cs with
  | nil => intro base _; simp [tokens_from]
  | cons c cs ih =>
    intro base hn
    have h1 := hn c (List.mem_cons_self _ _)
    have hn' : ∀ d ∈ cs, 0 ≤ d.num_funcs := fun d hd => hn d (List.mem_cons_of_mem _ hd)
    have h2 := ih (base + c.num_funcs) hn'
    have h3 := tokens_from_ge cs (base + c.num_funcs) hn'
    simp only [tokens_from, List.pairwise_cons]
    refine ⟨⟨fun t ht => ?_, h2.1⟩, fun hpos => ⟨fun t ht => ?_, h2.2 ?_⟩⟩
    · have := h3 t ht
      omega
    · have := h3 t ht
      have := hpos c (List.mem_cons_self _ _)
      omega
    · exact fun d hd => hpos d (List.mem_cons_of_mem _ hd)

theorem tokens_from_disjoint : ∀ (cs : List start_call) (base : Int),
    (∀ c ∈ cs, 0 ≤ c.num_funcs) →
    ((tokens_from base cs).zip (cs.map (·.num_funcs))).Pairwise
      (fun a b => ∀ x, ¬ (in_range a x ∧ in_range b x)) := by
  intro cs
  induction cs with
  | nil => intro base _; simp [tokens_from]
  | cons c cs ih =>
    intro base hn
    have hn' : ∀ d ∈ cs, 0 ≤ d.num_funcs := fun d hd => hn d (List.mem_cons_of_mem _ hd)
    simp only [tokens_from, List.map_cons, List.zip_cons_cons, List.pairwise_cons]
    refine ⟨fun r hr x hx => ?_, ih (base + c.num_funcs) hn'⟩
    have hb := tokens_from_zip_bounds cs (base + c.num_funcs) hn' r hr
    simp only [in_range] at hx
    omega

theorem tokens_from_cover : ∀ (cs : List start_call) (base : Int),
    (∀ c ∈ cs, 0 ≤ c.num_funcs) → ∀ x : Int,
    (∃ r ∈ (tokens_from base cs).zip (cs.map (·.num_funcs)), in_range r x) ↔
      base ≤ x ∧ x < base + (cs.map (·.num_funcs)).sum := by
  intro cs
  induction cs with
  | nil =>
    intro base _ x
    simp [tokens_from]
  | cons c cs ih =>
    intro base hn x
    have h1 := hn c (List.mem_cons_self _ _)
    have hn' : ∀ d ∈ cs, 0 ≤ d.num_funcs := fun d hd => hn d (List.mem_cons_of_mem _ hd)
    have h3 := sum_num_funcs_nonneg cs hn'
    have h2 := ih (base + c.num_funcs) hn' x
    simp only [tokens_from, List.map_cons, List.zip_cons_cons, List.sum_cons, List.exists_mem_cons_iff]
    rw [h2]
    simp only [in_range]
    omega

/-- Claim C1 (as amended): from a state with an empty registry and
`first_free_id = 0`, a series of successful `halide_profiler_pipeline_start`
calls with pairwise distinct name pointers and non-negative function counts
returns tokens that never decrease, and that strictly increase when every
function count is at least 1; the ranges `[token, token + num_funcs)` are
pairwise disjoint and their union is exactly `[0, first_free_id)` of the final
state. -/
theorem pipeline_start_tokens_ranges (s : halide_profiler_state) (calls : List start_call)
    (hempty : s.pipelines = []) (hfree : s.first_free_id = 0)
    (hdistinct : calls.Pairwise (fun a b => a.pipeline_name ≠ b.pipeline_name))
    (hcount : ∀ c ∈ calls, 0 ≤ c.num_funcs) :
    ∃ toks : List Int,
      (run_starts s calls).1 = toks.map some ∧
      toks.Pairwise (· ≤ ·) ∧
      ((∀ c ∈ calls, 1 ≤ c.num_funcs) → toks.Pairwise (· < ·)) ∧
      (toks.zip (calls.map (·.num_funcs))).Pairwise
        (fun a b => ∀ x, ¬ (in_range a x ∧ in_range b x)) ∧
      ∀ x : Int, (∃ r ∈ toks.zip (calls.map (·.num_funcs)), in_range r x) ↔
        0 ≤ x ∧ x < (run_starts s calls).2.first_free_id := by
  have hrun := run_starts_fresh calls s (by intro c _ p hp; rw [hempty] at hp; simp at hp) hdistinct
  have hsorted := tokens_from_sorted calls s.first_free_id hcount
  refine ⟨tokens_from s.first_free_id calls, hrun.1, hsorted.1, hsorted.2,
    tokens_from_disjoint calls s.first_free_id hcount, fun x => ?_⟩
  rw [tokens_from_cover calls s.first_free_id hcount x, hrun.2, hfree]

/-- Three registrations of 2, 3 and 1 functions from the initial state: the
tokens are 0, 2 and 5 and the final `first_free_id` is 6. -/
theorem pipeline_start_tokens_ranges_witness :
    ∃ toks : List Int,
      (run_starts halide_profiler_get_state
        [⟨10, 2, fun i => i⟩, ⟨20, 3, fun i => i⟩, ⟨30, 1, fun i => i⟩]).1 = toks.map some ∧
      toks.Pairwise (· ≤ ·) ∧
      ((∀ c ∈ ([⟨10, 2, fun i => i⟩, ⟨20, 3, fun i => i⟩, ⟨30, 1, fun i => i⟩] : List start_call),
        1 ≤ c.num_funcs) → toks.Pairwise (· < ·)) ∧
      (toks.zip (([⟨10, 2, fun i => i⟩, ⟨20, 3, fun i => i⟩, ⟨30, 1, fun i => i⟩] :
        List start_call).map (·.num_funcs))).Pairwise
        (fun a b => ∀ x, ¬ (in_range a x ∧ in_range b x)) ∧
      ∀ x : Int, (∃ r ∈ toks.zip (([⟨10, 2, fun i => i⟩, ⟨20, 3, fun i => i⟩,
        ⟨30, 1, fun i => i⟩] : List start_call).map (·.num_funcs)), in_range r x) ↔
        0 ≤ x ∧ x < (run_starts halide_profiler_get_state
          [⟨10, 2, fun i => i⟩, ⟨20, 3, fun i => i⟩, ⟨30, 1, fun i => i⟩]).2.first_free_id :=
  pipeline_start_tokens_ranges halide_profiler_get_state
    [⟨10, 2, fun i => i⟩, ⟨20, 3, fun i => i⟩, ⟨30, 1, fun i => i⟩] rfl rfl
    (by simp) (by simp)

/-- Claim C1 fails as stated: the registration of a pipeline with
`num_funcs = 0` (whose `malloc` of zero bytes succeeds) and the following
registration of a pipeline with a different name both return token 0, so the
tokens of two successful calls with distinct names do not strictly increase. -/
theorem pipeline_start_tokens_not_strict :
    (run_starts halide_profiler_get_state [⟨10, 0, fun i => i⟩, ⟨20, 1, fun i => i⟩]).1 =
        [some 0, some 0] ∧
      (10 : Nat) ≠ 20 ∧
      ¬ ([0, 0] : List Int).Pairwise (· < ·) := by
  refine ⟨by decide, by decide, by simp⟩

/-! ## Registration of a pipeline that is already registered -/

theorem set_at_length {α : Type} (pre : List α) (a b : α) (post : List α) :
    (pre ++ a :: post).set pre.length b = pre ++ b :: post := by
  induction pre with
  | nil => rfl
  | cons x xs ih => simp [List.set, ih]

theorem find_or_create_scan_some (pipeline_name : Nat) (num_funcs : Int) :
    ∀ chain : List halide_profiler_pipeline_stats,
    (∃ q ∈ chain, q.name = pipeline_name ∧ q.num_funcs = num_funcs) →
    ∃ pre p post, chain = pre ++ p :: post ∧
      (p.name = pipeline_name ∧ p.num_funcs = num_funcs) ∧
      (∀ q ∈ pre, ¬ (q.name = pipeline_name ∧ q.num_funcs = num_funcs)) ∧
      find_or_create_scan pipeline_name num_funcs chain = some (pre.length, p) := by
  intro chain
  induction chain with
  | nil => intro h; simp at h
  | cons a rest ih =>
    intro h
    by_cases ha : a.name = pipeline_name ∧ a.num_funcs = num_funcs
    · exact ⟨[], a, rest, rfl, ha, by simp, by simp [find_or_create_scan, ha]⟩
    · have hrest : ∃ q ∈ rest, q.name = pipeline_name ∧ q.num_funcs = num_funcs := by
        obtain ⟨q, hq, hm⟩ := h
        rcases List.mem_cons.mp hq with hq | hq
        · subst hq; exact absurd hm ha
        · exact ⟨q, hq, hm⟩
      obtain ⟨pre, p, post, hc, hp, hpre, hscan⟩ := ih hrest
      refine ⟨a :: pre, p, post, by rw [hc]; rfl, hp, ?_, ?_⟩
      · intro q hq
        rcases List.mem_cons.mp hq with hq | hq
        · subst hq; exact ha
        · exact hpre q hq
      · simp only [find_or_create_scan, if_neg ha, hscan, Option.map_some', List.length_cons]

/-- Claim C2: in a state whose chain holds a record with name pointer `n` and
function count `k`, `halide_profiler_pipeline_start` with `n` and `k` returns
the `first_func_id` of the first such record `p` of the chain and adds exactly 1
to its `runs`; every other record, every other field of `p`, the order of the
chain, `first_free_id` and `mru_pipeline` are as before, whatever the
allocator would have answered. -/
theorem pipeline_start_registered (s : halide_profiler_state) (n : Nat) (k : Int)
    (func_names : Nat → Nat) (malloc_stats malloc_funcs : Bool)
    (h : ∃ q ∈ s.pipelines, q.name = n ∧ q.num_funcs = k) :
    ∃ pre p post, s.pipelines = pre ++ p :: post ∧
      (p.name = n ∧ p.num_funcs = k) ∧
      (∀ q ∈ pre, ¬ (q.name = n ∧ q.num_funcs = k)) ∧
      halide_profiler_pipeline_start s n k func_names malloc_stats malloc_funcs =
        (some p.first_func_id,
          { s with started := true
                   pipelines := pre ++ { p with runs := p.runs + 1 } :: post }) := by
  obtain ⟨pre, p, post, hc, hp, hpre, hscan⟩ := find_or_create_scan_some n k s.pipelines h
  refine ⟨pre, p, post, hc, hp, hpre, ?_⟩
  unfold halide_profiler_pipeline_start find_or_create_pipeline
  rw [started_after]
  have hscan1 : find_or_create_scan n k
      ({ s with started := true } : halide_profiler_state).pipelines = some (pre.length, p) := hscan
  simp only [hscan1]
  have hset : s.pipelines.set pre.length { p with runs := p.runs + 1 } =
      pre ++ { p with runs := p.runs + 1 } :: post := by rw [hc, set_at_length]
  simp only [hset]

/-- The second registration of a pipeline of 2 functions, after another
pipeline was registered in between: the token is 0 again and `runs` is 2. -/
theorem pipeline_start_registered_witness :
    ∃ pre p post,
      (run_starts halide_profiler_get_state
        [⟨10, 2, fun i => i⟩, ⟨20, 3, fun i => i⟩]).2.pipelines = pre ++ p :: post ∧
      (p.name = 10 ∧ p.num_funcs = 2) ∧
      (∀ q ∈ pre, ¬ (q.name = 10 ∧ q.num_funcs = 2)) ∧
      halide_profiler_pipeline_start
          (run_starts halide_profiler_get_state [⟨10, 2, fun i => i⟩, ⟨20, 3, fun i => i⟩]).2
          10 2 (fun i => i) false false =
        (some p.first_func_id,
          { (run_starts halide_profiler_get_state
              [⟨10, 2, fun i => i⟩, ⟨20, 3, fun i => i⟩]).2 with
            started := true
            pipelines := pre ++ { p with runs := p.runs + 1 } :: post }) :=
  pipeline_start_registered
    (run_starts halide_profiler_get_state [⟨10, 2, fun i => i⟩, ⟨20, 3, fun i => i⟩]).2
    10 2 (fun i => i) false false
    ⟨{ time := 0, name := 10, funcs := init_funcs 2 (fun i => i), num_funcs := 2,
       first_func_id := 0, runs := 1, samples := 0, memory_current := 0, memory_peak := 0,
       memory_total := 0, num_allocs := 0 }, by decide, by decide⟩

/-! ## Memory instrumentation -/

theorem wrap32_add_left (a b : Int) : wrap32 (wrap32 a + b) = wrap32 (a + b) := by
  unfold wrap32
  omega

theorem wrap32_of_int32 (a : Int) (h : is_int32 a) : wrap32 a = a := by
  unfold is_int32 at h
  unfold wrap32
  omega

theorem is_int32_wrap32 (a : Int) : is_int32 (wrap32 a) := by
  unfold is_int32 wrap32
  omega

theorem mem_step_spec (token : Int) (p : halide_profiler_pipeline_stats) (c : mem_call)
    (h : call_in_range token p c) :
    ∃ q, mem_step token (some p) c = some q ∧
      q.first_func_id = p.first_func_id ∧ q.num_funcs = p.num_funcs ∧
      q.memory_current = wrap32 (p.memory_current + c.delta) ∧
      (is_int32 p.memory_total → q.memory_total = wrap32 (p.memory_total + c.allocated)) ∧
      (is_int32 p.num_allocs → q.num_allocs = wrap32 (p.num_allocs + c.count)) := by
  unfold call_in_range at h
  cases c with
  | allocate f incr =>
    simp only [mem_call.func_id] at h
    have h1 : f + token - p.first_func_id ≥ 0 := by omega
    have h2 : f + token - p.first_func_id < p.num_funcs := by omega
    simp [mem_step, halide_profiler_memory_allocate, h1, h2, mem_call.delta,
      mem_call.allocated, mem_call.count]
  | free f decr =>
    simp only [mem_call.func_id] at h
    have h1 : f + token - p.first_func_id ≥ 0 := by omega
    have h2 : f + token - p.first_func_id < p.num_funcs := by omega
    simp only [mem_step, halide_profiler_memory_free, h1, h2, mem_call.delta,
      mem_call.allocated, mem_call.count, not_true_eq_false, if_false, add_zero]
    refine ⟨_, rfl, rfl, rfl, ?_, fun ht => (wrap32_of_int32 _ ht).symm,
      fun hn => (wrap32_of_int32 _ hn).symm⟩
    simp only [sub_eq_add_neg]

theorem mem_run_spec (token : Int) : ∀ (cs : List mem_call) (p : halide_profiler_pipeline_stats),
    (∀ c ∈ cs, call_in_range token p c) →
    is_int32 p.memory_current → is_int32 p.memory_total → is_int32 p.num_allocs →
    ∃ q, mem_run token (some p) cs = some q ∧
      q.first_func_id = p.first_func_id ∧ q.num_funcs = p.num_funcs ∧
      q.memory_current = wrap32 (p.memory_current + (cs.map mem_call.delta).sum) ∧
      q.memory_total = wrap32 (p.memory_total + (cs.map mem_call.allocated).sum) ∧
      q.num_allocs = wrap32 (p.num_allocs + (cs.map mem_call.count).sum) := by
  intro cs
  induction cs with
  | nil =>
    intro p _ hc ht hn
    exact ⟨p, rfl, rfl, rfl, by simp [wrap32_of_int32 _ hc], by simp [wrap32_of_int32 _ ht],
      by simp [wrap32_of_int32 _ hn]⟩
  | cons c cs ih =>
    intro p hr hc ht hn
    obtain ⟨q, hq, hf, hnf, hcur, htot, hnum⟩ := mem_step_spec token p c (hr c (List.mem_cons_self _ _))
    have htot' := htot ht
    have hnum' := hnum hn
    have hr' : ∀ d ∈ cs, call_in_range token q d := by
      intro d hd
      have := hr d (List.mem_cons_of_mem _ hd)
      unfold call_in_range at this ⊢
      rw [hf, hnf]
      exact this
    obtain ⟨q', hq', hf', hnf', hcur', htot2, hnum2⟩ := ih q hr'
      (by rw [hcur]; exact is_int32_wrap32 _) (by rw [htot']; exact is_int32_wrap32 _)
      (by rw [hnum']; exact is_int32_wrap32 _)
    refine ⟨q', ?_, by rw [hf', hf], by rw [hnf', hnf], ?_, ?_, ?_⟩
    · simp only [mem_run, List.foldl_cons] at hq' ⊢
      rw [hq]
      exact hq'
    · rw [hcur', hcur, wrap32_add_left, List.map_cons, List.sum_cons, add_assoc]
    · rw [htot2, htot', wrap32_add_left, List.map_cons, List.sum_cons, add_assoc]
    · rw [hnum2, hnum', wrap32_add_left, List.map_cons, List.sum_cons, add_assoc]

theorem sum_count_eq_countP (cs : List mem_call) :
    (cs.map mem_call.count).sum = (cs.countP mem_call.is_allocate : Nat) := by
  induction cs with
  | nil => rfl
  | cons c cs ih =>
    cases c with
    | allocate f incr =>
      simp only [List.map_cons, List.sum_cons, ih, mem_call.count, mem_call.is_allocate,
        List.countP_cons_of_pos]
      push_cast
      ring
    | free f decr =>
      simp [ih, mem_call.count, mem_call.is_allocate]

/-- Claim C3 (as amended): after any series of `halide_profiler_memory_allocate`
and `halide_profiler_memory_free` calls with in-range function indices on a
freshly created record, every call has passed its assertions and the record's
`memory_current` is the sum of all deltas (amounts allocated minus amounts
freed), its `memory_total` the sum of the amounts allocated and its
`num_allocs` the number of allocations, each reduced to the 32-bit range of the
C `int` counter; each is the exact sum whenever that sum is an `int` value. The
three final values are the same for every permutation of the calls. -/
theorem memory_counters_sum (st : halide_profiler_state) (pipeline_name : Nat) (num_funcs : Int)
    (func_names : Nat → Nat) (token : Int) (cs : List mem_call)
    (h : ∀ c ∈ cs,
      call_in_range token (new_pipeline st pipeline_name num_funcs func_names) c) :
    ∃ q, mem_run token (some (new_pipeline st pipeline_name num_funcs func_names)) cs = some q ∧
      q.memory_current = wrap32 (cs.map mem_call.delta).sum ∧
      q.memory_total = wrap32 (cs.map mem_call.allocated).sum ∧
      q.num_allocs = wrap32 (cs.countP mem_call.is_allocate : Nat) ∧
      (is_int32 (cs.map mem_call.delta).sum → q.memory_current = (cs.map mem_call.delta).sum) ∧
      (is_int32 (cs.map mem_call.allocated).sum →
        q.memory_total = (cs.map mem_call.allocated).sum) ∧
      (is_int32 (cs.countP mem_call.is_allocate : Nat) →
        q.num_allocs = (cs.countP mem_call.is_allocate : Nat)) ∧
      ∀ cs' : List mem_call, cs'.Perm cs →
        ∃ q', mem_run token (some (new_pipeline st pipeline_name num_funcs func_names)) cs' =
            some q' ∧
          q'.memory_current = q.memory_current ∧ q'.memory_total = q.memory_total ∧
          q'.num_allocs = q.num_allocs := by
  have hz : is_int32 0 := by unfold is_int32; omega
  obtain ⟨q, hq, _, _, hcur, htot, hnum⟩ :=
    mem_run_spec token cs (new_pipeline st pipeline_name num_funcs func_names) h hz hz hz
  simp only [new_pipeline, zero_add] at hcur htot hnum
  rw [sum_count_eq_countP] at hnum
  refine ⟨q, hq, hcur, htot, hnum, fun hi => by rw [hcur, wrap32_of_int32 _ hi],
    fun hi => by rw [htot, wrap32_of_int32 _ hi], fun hi => by rw [hnum, wrap32_of_int32 _ hi],
    fun cs' hperm => ?_⟩
  obtain ⟨q', hq', _, _, hcur', htot', hnum'⟩ :=
    mem_run_spec token cs' (new_pipeline st pipeline_name num_funcs func_names)
      (fun c hc => h c (hperm.mem_iff.mp hc)) hz hz hz
  simp only [new_pipeline, zero_add] at hcur' htot' hnum'
  refine ⟨q', hq', ?_, ?_, ?_⟩
  · rw [hcur', hcur, (hperm.map mem_call.delta).sum_eq]
  · rw [htot', htot, (hperm.map mem_call.allocated).sum_eq]
  · rw [hnum', hnum, (hperm.map mem_call.count).sum_eq, sum_count_eq_countP]

/-- Two allocations of 100 and 50 bytes and a release of 100 bytes on function
1 of a fresh record of 2 functions. -/
theorem memory_counters_sum_witness :
    ∃ q, mem_run 0 (some (new_pipeline halide_profiler_get_state 10 2 (fun i => i)))
        [.allocate 1 100, .allocate 1 50, .free 1 100] = some q ∧
      q.memory_current = wrap32 (([.allocate 1 100, .allocate 1 50, .free 1 100] :
        List mem_call).map mem_call.delta).sum ∧
      q.memory_total = wrap32 (([.allocate 1 100, .allocate 1 50, .free 1 100] :
        List mem_call).map mem_call.allocated).sum ∧
      q.num_allocs = wrap32 ((([.allocate 1 100, .allocate 1 50, .free 1 100] :
        List mem_call).countP mem_call.is_allocate : Nat) : Int) ∧
      (is_int32 (([.allocate 1 100, .allocate 1 50, .free 1 100] :
          List mem_call).map mem_call.delta).sum →
        q.memory_current = (([.allocate 1 100, .allocate 1 50, .free 1 100] :
          List mem_call).map mem_call.delta).sum) ∧
      (is_int32 (([.allocate 1 100, .allocate 1 50, .free 1 100] :
          List mem_call).map mem_call.allocated).sum →
        q.memory_total = (([.allocate 1 100, .allocate 1 50, .free 1 100] :
          List mem_call).map mem_call.allocated).sum) ∧
      (is_int32 ((([.allocate 1 100, .allocate 1 50, .free 1 100] :
          List mem_call).countP mem_call.is_allocate : Nat) : Int) →
        q.num_allocs = ((([.allocate 1 100, .allocate 1 50, .free 1 100] :
          List mem_call).countP mem_call.is_allocate : Nat) : Int)) ∧
      ∀ cs' : List mem_call, cs'.Perm [.allocate 1 100, .allocate 1 50, .free 1 100] →
        ∃ q', mem_run 0 (some (new_pipeline halide_profiler_get_state 10 2 (fun i => i))) cs' =
            some q' ∧
          q'.memory_current = q.memory_current ∧ q'.memory_total = q.memory_total ∧
          q'.num_allocs = q.num_allocs :=
  memory_counters_sum halide_profiler_get_state 10 2 (fun i => i) 0
    [.allocate 1 100, .allocate 1 50, .free 1 100]
    (by
      intro c hc
      simp only [List.mem_cons, List.mem_singleton, List.not_mem_nil, or_false] at hc
      rcases hc with hc | hc | hc <;> subst hc <;> decide)

/-- Claim C3 fails as stated: allocations of 2147483647 bytes and of 1 byte on
function 0 of a fresh record of 1 function leave `memory_total` and
`memory_current` at -2147483648, which is not the sum 2147483648 of the two
amounts. -/
theorem memory_counters_sum_not_exact :
    (mem_run 0 (some (new_pipeline halide_profiler_get_state 10 1 (fun i => i)))
        [.allocate 0 2147483647, .allocate 0 1]).map (fun q => (q.memory_total, q.memory_current)) =
      some (-2147483648, -2147483648) ∧
    (∀ c ∈ ([.allocate 0 2147483647, .allocate 0 1] : List mem_call),
      call_in_range 0 (new_pipeline halide_profiler_get_state 10 1 (fun i => i)) c) ∧
    (mem_run 0 (some (new_pipeline halide_profiler_get_state 10 1 (fun i => i)))
        [.allocate 0 2147483647, .allocate 0 1]).map (·.memory_total) ≠
      some (([.allocate 0 2147483647, .allocate 0 1] : List mem_call).map
        mem_call.allocated).sum ∧
    (mem_run 0 (some (new_pipeline halide_profiler_get_state 10 1 (fun i => i)))
        [.allocate 0 2147483647, .allocate 0 1]).map (·.memory_current) ≠
      some (([.allocate 0 2147483647, .allocate 0 1] : List mem_call).map mem_call.delta).sum := by
  decide

/-! ## The sequence allocate 100, allocate 50, free 100 -/

theorem init_funcs_get (num_funcs : Int) (func_names : Nat → Nat) (i : Nat)
    (h : (i : Int) < num_funcs) :
    (init_funcs num_funcs func_names)[i]? =
      some { time := 0, name := func_names i, memory_current := 0, memory_peak := 0,
             memory_total := 0, num_allocs := 0 } := by
  unfold init_funcs
  have hi : i < num_funcs.toNat := by omega
  simp [List.getElem?_map, List.getElem?_range hi]

theorem memory_allocate_in_range (p : halide_profiler_pipeline_stats) (token f incr : Int)
    (h : p.first_func_id ≤ f + token ∧ f + token < p.first_func_id + p.num_funcs) :
    halide_profiler_memory_allocate (some p) token f incr =
      some { p with
        num_allocs := wrap32 (p.num_allocs + 1)
        memory_total := wrap32 (p.memory_total + incr)
        memory_current := wrap32 (p.memory_current + incr)
        memory_peak :=
          if wrap32 (p.memory_current + incr) > p.memory_peak then
            wrap32 (p.memory_current + incr)
          else p.memory_peak
        funcs := p.funcs.modify (fun fs => func_allocate fs incr)
          (f + token - p.first_func_id).toNat } := by
  have h1 : f + token - p.first_func_id ≥ 0 := by omega
  have h2 : f + token - p.first_func_id < p.num_funcs := by omega
  simp [halide_profiler_memory_allocate, h1, h2]

theorem memory_free_in_range (p : halide_profiler_pipeline_stats) (token f decr : Int)
    (h : p.first_func_id ≤ f + token ∧ f + token < p.first_func_id + p.num_funcs) :
    halide_profiler_memory_free (some p) token f decr =
      some { p with
        memory_current := wrap32 (p.memory_current - decr)
        funcs := p.funcs.modify
          (fun fs => { fs with memory_current := wrap32 (fs.memory_current - decr) })
          (f + token - p.first_func_id).toNat } := by
  have h1 : f + token - p.first_func_id ≥ 0 := by omega
  have h2 : f + token - p.first_func_id < p.num_funcs := by omega
  simp [halide_profiler_memory_free, h1, h2]

/-- Claim C4: on a freshly created record, with the token the registration
returned and a function index `f1` of the record, the calls
`halide_profiler_memory_allocate` of 100 bytes, of 50 bytes and
`halide_profiler_memory_free` of 100 bytes leave the record and function `f1`
with `memory_current = 50`, `memory_peak = 150`, `memory_total = 150` and
`num_allocs = 2`.  The `+100`, `+50` and `-100` of the claim are the changes of
`memory_current`, as its result `50 = 100 + 50 - 100` shows: the release takes
the byte count 100 as its `decr`. -/
theorem memory_sequence_counters (st : halide_profiler_state) (pipeline_name : Nat)
    (num_funcs : Int) (func_names : Nat → Nat) (f1 : Nat) (h : (f1 : Int) < num_funcs) :
    ∃ q, mem_run st.first_free_id
        (some (new_pipeline st pipeline_name num_funcs func_names))
        [.allocate f1 100, .allocate f1 50, .free f1 100] = some q ∧
      q.memory_current = 50 ∧ q.memory_peak = 150 ∧ q.memory_total = 150 ∧ q.num_allocs = 2 ∧
      q.funcs[f1]? = some { time := 0, name := func_names f1, memory_current := 50,
                            memory_peak := 150, memory_total := 150, num_allocs := 2 } := by
  have hr : ∀ p : halide_profiler_pipeline_stats, p.first_func_id = st.first_free_id →
      p.num_funcs = num_funcs →
      (p.first_func_id ≤ (f1 : Int) + st.first_free_id ∧
        (f1 : Int) + st.first_free_id < p.first_func_id + p.num_funcs) := by
    intro p h1 h2
    omega
  have hidx : ((f1 : Int) + st.first_free_id - st.first_free_id).toNat = f1 := by omega
  simp only [mem_run, List.foldl_cons, List.foldl_nil, mem_step]
  rw [memory_allocate_in_range _ _ _ _ (hr _ rfl rfl)]
  rw [memory_allocate_in_range _ _ _ _ (hr _ rfl rfl)]
  rw [memory_free_in_range _ _ _ _ (hr _ rfl rfl)]
  refine ⟨_, rfl, ?_, ?_, ?_, ?_, ?_⟩
  · simp [new_pipeline, wrap32]
  · simp [new_pipeline, wrap32]
  · simp [new_pipeline, wrap32]
  · simp [new_pipeline, wrap32]
  · simp only [new_pipeline, hidx, List.getElem?_modify, init_funcs_get num_funcs func_names f1 h]
    simp [func_allocate, wrap32]

/-- The sequence on function 1 of a fresh record of 2 functions. -/
theorem memory_sequence_counters_witness :
    ∃ q, mem_run halide_profiler_get_state.first_free_id
        (some (new_pipeline halide_profiler_get_state 10 2 (fun i => i + 100)))
        [.allocate (1 : Nat) 100, .allocate (1 : Nat) 50, .free (1 : Nat) 100] = some q ∧
      q.memory_current = 50 ∧ q.memory_peak = 150 ∧ q.memory_total = 150 ∧ q.num_allocs = 2 ∧
      q.funcs[1]? = some { time := 0, name := (fun i => i + 100) 1, memory_current := 50,
                           memory_peak := 150, memory_total := 150, num_allocs := 2 } :=
  memory_sequence_counters halide_profiler_get_state 10 2 (fun i => i + 100) 1 (by decide)

/-! ## What `halide_profiler_memory_free` changes -/

/-- Claim C5 (as amended): for every record, in-range function index and
amount, `halide_profiler_memory_free` passes its assertions and changes
`memory_current` of the record and of the addressed function only: it leaves
`num_allocs`, `memory_total`, `memory_peak` of the record and of every function,
every field of every other function, and the `time`, `samples` and `runs` fields
as they were. The new `memory_current` is the old one minus the amount, reduced
to the 32-bit range of a C `int`; it is not larger than the old one when the
amount is not negative and the difference does not fall below `-2 ^ 31`. -/
theorem memory_free_frame (p : halide_profiler_pipeline_stats) (token f decr : Int)
    (h : p.first_func_id ≤ f + token ∧ f + token < p.first_func_id + p.num_funcs) :
    ∃ q, halide_profiler_memory_free (some p) token f decr = some q ∧
      q = { p with memory_current := q.memory_current, funcs := q.funcs } ∧
      q.memory_current = wrap32 (p.memory_current - decr) ∧
      q.funcs.length = p.funcs.length ∧
      (∀ j, j ≠ (f + token - p.first_func_id).toNat → q.funcs[j]? = p.funcs[j]?) ∧
      (∀ fs, p.funcs[(f + token - p.first_func_id).toNat]? = some fs →
        q.funcs[(f + token - p.first_func_id).toNat]? =
          some { fs with memory_current := wrap32 (fs.memory_current - decr) }) ∧
      (0 ≤ decr → is_int32 p.memory_current → -2147483648 ≤ p.memory_current - decr →
        q.memory_current ≤ p.memory_current) ∧
      (∀ fs, p.funcs[(f + token - p.first_func_id).toNat]? = some fs →
        0 ≤ decr → is_int32 fs.memory_current → -2147483648 ≤ fs.memory_current - decr →
        wrap32 (fs.memory_current - decr) ≤ fs.memory_current) := by
  rw [memory_free_in_range p token f decr h]
  refine ⟨_, rfl, rfl, rfl, by simp, ?_, ?_, ?_, ?_⟩
  · intro j hj
    simp only [List.getElem?_modify]
    cases p.funcs[j]? with
    | none => rfl
    | some a => simp [Ne.symm hj]
  · intro fs hfs
    simp [List.getElem?_modify, hfs]
  · intro hd hi hlow
    simp only
    unfold is_int32 at hi
    unfold wrap32
    omega
  · intro fs _ hd hi hlow
    unfold is_int32 at hi
    unfold wrap32
    omega

/-- A release of 30 bytes on function 1 of a record of 2 functions. -/
theorem memory_free_frame_witness :
    ∃ q, halide_profiler_memory_free
        (some (new_pipeline halide_profiler_get_state 10 2 (fun i => i))) 0 1 30 = some q ∧
      q = { new_pipeline halide_profiler_get_state 10 2 (fun i => i) with
            memory_current := q.memory_current, funcs := q.funcs } ∧
      q.memory_current =
        wrap32 ((new_pipeline halide_profiler_get_state 10 2 (fun i => i)).memory_current - 30) ∧
      q.funcs.length = (new_pipeline halide_profiler_get_state 10 2 (fun i => i)).funcs.length ∧
      (∀ j, j ≠ ((1 : Int) + 0 -
            (new_pipeline halide_profiler_get_state 10 2 (fun i => i)).first_func_id).toNat →
        q.funcs[j]? = (new_pipeline halide_profiler_get_state 10 2 (fun i => i)).funcs[j]?) ∧
      (∀ fs, (new_pipeline halide_profiler_get_state 10 2 (fun i => i)).funcs[((1 : Int) + 0 -
            (new_pipeline halide_profiler_get_state 10 2 (fun i => i)).first_func_id).toNat]? =
          some fs →
        q.funcs[((1 : Int) + 0 -
            (new_pipeline halide_profiler_get_state 10 2 (fun i => i)).first_func_id).toNat]? =
          some { fs with memory_current := wrap32 (fs.memory_current - 30) }) ∧
      ((0 : Int) ≤ 30 →
        is_int32 (new_pipeline halide_profiler_get_state 10 2 (fun i => i)).memory_current →
        -2147483648 ≤
          (new_pipeline halide_profiler_get_state 10 2 (fun i => i)).memory_current - 30 →
        q.memory_current ≤
          (new_pipeline halide_profiler_get_state 10 2 (fun i => i)).memory_current) ∧
      (∀ fs, (new_pipeline halide_profiler_get_state 10 2 (fun i => i)).funcs[((1 : Int) + 0 -
            (new_pipeline halide_profiler_get_state 10 2 (fun i => i)).first_func_id).toNat]? =
          some fs →
        (0 : Int) ≤ 30 → is_int32 fs.memory_current → -2147483648 ≤ fs.memory_current - 30 →
        wrap32 (fs.memory_current - 30) ≤ fs.memory_current) :=
  memory_free_frame (new_pipeline halide_profiler_get_state 10 2 (fun i => i)) 0 1 30
    (by decide)

/-- Claim C5 fails as stated: a release of `-5` bytes raises `memory_current`
of a fresh record and of its function 0 from 0 to 5; and two releases of
2147483647 bytes take `memory_current` from 0 to -2147483647 and then up to 2. -/
theorem memory_free_can_increase :
    (new_pipeline halide_profiler_get_state 10 1 (fun i => i)).memory_current = 0 ∧
    (halide_profiler_memory_free
        (some (new_pipeline halide_profiler_get_state 10 1 (fun i => i))) 0 0 (-5)).map
      (fun q => (q.memory_current, q.funcs.map (·.memory_current))) = some (5, [5]) ∧
    ¬ ((5 : Int) ≤ (new_pipeline halide_profiler_get_state 10 1 (fun i => i)).memory_current) ∧
    (mem_run 0 (some (new_pipeline halide_profiler_get_state 10 1 (fun i => i)))
        [.free 0 2147483647]).map (·.memory_current) = some (-2147483647) ∧
    (mem_run 0 (some (new_pipeline halide_profiler_get_state 10 1 (fun i => i)))
        [.free 0 2147483647, .free 0 2147483647]).map (·.memory_current) = some 2 ∧
    ¬ ((2 : Int) ≤ -2147483647) := by
  decide

/-! ## Reset -/

theorem reset_chain_nil (chain : List halide_profiler_pipeline_stats) : reset_chain chain = [] := by
  induction chain with
  | nil => rfl
  | cons _ rest ih => simpa [reset_chain] using ih

theorem reset_eq (s : halide_profiler_state) :
    halide_profiler_reset s = { s with mru_pipeline := none, pipelines := [], first_free_id := 0 } := by
  simp [halide_profiler_reset, reset_chain_nil]

/-- Claim C6: for every state, `halide_profiler_reset` leaves an empty chain,
`mru_pipeline = NULL` and `first_free_id = 0`; the next
`halide_profiler_pipeline_start` returns token 0 when its allocations succeed
(and the failure value otherwise); a report right after the reset prints
nothing, and a report after that next registration prints the summary line of
the new record and no other line; both reports run to their end. -/
theorem reset_then_start (s : halide_profiler_state) (pipeline_name : Nat) (num_funcs : Int)
    (func_names : Nat → Nat) :
    (halide_profiler_reset s).pipelines = [] ∧
    (halide_profiler_reset s).mru_pipeline = none ∧
    (halide_profiler_reset s).first_free_id = 0 ∧
    (∀ malloc_stats malloc_funcs : Bool,
      (halide_profiler_pipeline_start (halide_profiler_reset s) pipeline_name num_funcs func_names
        malloc_stats malloc_funcs).1 = if malloc_stats ∧ malloc_funcs then some 0 else none) ∧
    halide_profiler_report (halide_profiler_reset s) = ⟨[], true⟩ ∧
    halide_profiler_report
        (halide_profiler_pipeline_start (halide_profiler_reset s) pipeline_name num_funcs
          func_names true true).2 =
      ⟨[report_line.pipeline pipeline_name 0 0 1 0 0 0 0], true⟩ := by
  rw [reset_eq]
  refine ⟨rfl, rfl, rfl, ?_, rfl, ?_⟩
  · intro m1 m2
    unfold halide_profiler_pipeline_start find_or_create_pipeline
    rw [started_after]
    cases m1 <;> cases m2 <;> simp [find_or_create_scan, new_pipeline]
  · unfold halide_profiler_pipeline_start find_or_create_pipeline
    rw [started_after]
    simp [find_or_create_scan, new_pipeline, halide_profiler_report,
      halide_profiler_report_unlocked, report_pipelines, pipeline_line, alloc_avg]
/-! ## Reporter -/

theorem percent_of_none (p_time fs_time : Nat) :
    percent_of p_time fs_time = none ↔ 0 < p_time ∧ p_time < 100 := by
  unfold percent_of
  by_cases h0 : p_time = 0
  · simp [h0]
  · by_cases h1 : p_time / 100 = 0
    · have hlt : p_time < 100 := by
        by_contra hge
        have := Nat.div_pos (Nat.le_of_not_lt hge) (by decide : 0 < 100)
        omega
      simp [h0, h1, hlt, Nat.pos_of_ne_zero h0]
    · have hge : ¬ p_time < 100 := by
        intro hlt
        exact h1 (Nat.div_eq_of_lt hlt)
      simp [h0, h1, hge]

theorem func_line_none (p : halide_profiler_pipeline_stats) (fs : halide_profiler_func_stats) :
    func_line p fs = none ↔ 0 < p.time ∧ p.time < 100 := by
  rw [← percent_of_none p.time fs.time]
  unfold func_line
  cases percent_of p.time fs.time <;> simp

theorem func_line_not_pipeline (p : halide_profiler_pipeline_stats)
    (fs : halide_profiler_func_stats) (line : report_line) (h : func_line p fs = some line) :
    line.is_pipeline = false := by
  unfold func_line at h
  cases hp : percent_of p.time fs.time with
  | none => rw [hp] at h; cases h
  | some percent =>
    rw [hp] at h
    cases h
    rfl

theorem report_funcs_out (p : halide_profiler_pipeline_stats) :
    ∀ (is : List Nat) (out : List report_line),
    report_funcs p is out =
      ⟨out ++ (report_funcs p is []).printed, (report_funcs p is []).finished⟩ := by
  intro is
  induction is with
  | nil => intro out; simp [report_funcs]
  | cons i is ih =>
    intro out
    simp only [report_funcs]
    cases p.funcs[i]? with
    | none => exact ih out
    | some fs =>
      simp only
      split
      · exact ih out
      · cases func_line p fs with
        | none => simp
        | some line =>
          simp only
          rw [ih (out ++ [line]), ih ([] ++ [line])]
          simp

theorem report_funcs_only_func (p : halide_profiler_pipeline_stats) :
    ∀ (is : List Nat), ∀ l ∈ (report_funcs p is []).printed, l.is_pipeline = false := by
  intro is
  induction is with
  | nil => intro l hl; simp [report_funcs] at hl
  | cons i is ih =>
    intro l hl
    simp only [report_funcs] at hl
    cases hf : p.funcs[i]? with
    | none => rw [hf] at hl; exact ih l hl
    | some fs =>
      rw [hf] at hl
      simp only at hl
      split at hl
      · exact ih l hl
      · cases hline : func_line p fs with
        | none => rw [hline] at hl; simp at hl
        | some line =>
          rw [hline] at hl
          simp only at hl
          rw [report_funcs_out] at hl
          simp only [List.nil_append, List.singleton_append, List.mem_cons] at hl
          rcases hl with hl | hl
          · subst hl; exact func_line_not_pipeline p fs l hline
          · exact ih l hl

theorem report_pipelines_out :
    ∀ (chain : List halide_profiler_pipeline_stats) (out : List report_line),
    report_pipelines chain out =
      ⟨out ++ (report_pipelines chain []).printed, (report_pipelines chain []).finished⟩ := by
  intro chain
  induction chain with
  | nil => intro out; simp [report_pipelines]
  | cons p rest ih =>
    intro out
    simp only [report_pipelines]
    split
    · exact ih out
    · split
      · rw [report_funcs_out p _ (out ++ [pipeline_line p]),
          report_funcs_out p _ ([] ++ [pipeline_line p])]
        simp only
        split
        · rw [ih, ih ([] ++ [pipeline_line p] ++ _)]
          simp
        · simp
      · rw [ih, ih ([] ++ [pipeline_line p])]
        simp

theorem report_pipelines_cons (p : halide_profiler_pipeline_stats)
    (rest : List halide_profiler_pipeline_stats) :
    report_pipelines (p :: rest) [] =
      if (report_block p).finished then
        ⟨(report_block p).printed ++ (report_pipelines rest []).printed,
          (report_pipelines rest []).finished⟩
      else report_block p := by
  unfold report_block
  simp only [report_pipelines, List.nil_append]
  by_cases h0 : p.runs = 0
  · simp [h0]
  · simp only [if_neg h0]
    by_cases hc : p.time ≠ 0 ∨ p.memory_total ≠ 0
    · simp only [if_pos hc]
      generalize report_funcs p (List.range p.num_funcs.toNat) [pipeline_line p] = r
      cases hr : r.finished with
      | true =>
        simp only [if_true]
        rw [report_pipelines_out rest r.printed]
      | false => simp [hr]
    · simp only [if_neg hc, if_true]
      rw [report_pipelines_out rest [pipeline_line p]]

theorem report_block_skipped (p : halide_profiler_pipeline_stats) (h : p.runs = 0) :
    report_block p = ⟨[], true⟩ := by
  simp [report_block, report_pipelines, h]

theorem report_block_printed (p : halide_profiler_pipeline_stats) (h : p.runs ≠ 0) :
    report_block p =
      if p.time ≠ 0 ∨ p.memory_total ≠ 0 then
        ⟨pipeline_line p :: (report_funcs p (List.range p.num_funcs.toNat) []).printed,
          (report_funcs p (List.range p.num_funcs.toNat) []).finished⟩
      else ⟨[pipeline_line p], true⟩ := by
  simp only [report_block, report_pipelines, if_neg h, List.nil_append]
  by_cases hc : p.time ≠ 0 ∨ p.memory_total ≠ 0
  · simp only [if_pos hc]
    rw [report_funcs_out p _ [pipeline_line p]]
    cases hr : (report_funcs p (List.range p.num_funcs.toNat) []).finished <;> simp
  · simp only [if_neg hc]

theorem report_funcs_finished (p : halide_profiler_pipeline_stats)
    (hdef : p.time = 0 ∨ 100 ≤ p.time) :
    ∀ (is : List Nat) (out : List report_line), (report_funcs p is out).finished = true := by
  intro is
  induction is with
  | nil => intro out; rfl
  | cons i is ih =>
    intro out
    simp only [report_funcs]
    cases p.funcs[i]? with
    | none => exact ih out
    | some fs =>
      simp only
      split
      · exact ih out
      · cases hline : func_line p fs with
        | none =>
          have := (func_line_none p fs).mp hline
          omega
        | some line => exact ih _

theorem report_block_finished (p : halide_profiler_pipeline_stats)
    (hdef : p.time = 0 ∨ 100 ≤ p.time) : (report_block p).finished = true := by
  by_cases h0 : p.runs = 0
  · rw [report_block_skipped p h0]
  · rw [report_block_printed p h0]
    split
    · exact report_funcs_finished p hdef _ _
    · rfl

theorem report_block_summary (p : halide_profiler_pipeline_stats) (h : p.runs ≠ 0) :
    ∃ fl, (report_block p).printed = pipeline_line p :: fl ∧
      ∀ l ∈ fl, l.is_pipeline = false := by
  rw [report_block_printed p h]
  split
  · exact ⟨_, rfl, report_funcs_only_func p _⟩
  · exact ⟨[], rfl, fun l hl => by simp at hl⟩

theorem report_blocks_summaries :
    ∀ chain : List halide_profiler_pipeline_stats,
    ((chain.map fun p => (report_block p).printed).flatten).filter report_line.is_pipeline =
      (chain.filter (fun p => p.runs ≠ 0)).map pipeline_line := by
  intro chain
  induction chain with
  | nil => rfl
  | cons p rest ih =>
    rw [List.map_cons, List.flatten_cons, List.filter_append, ih]
    by_cases hp : p.runs = 0
    · simp [report_block_skipped p hp, hp]
    · obtain ⟨fl, hfl, hall⟩ := report_block_summary p hp
      have hnone : fl.filter report_line.is_pipeline = [] := by
        rw [List.filter_eq_nil_iff]
        intro l hl
        simp [hall l hl]
      rw [hfl]
      simp [List.filter_cons, pipeline_line, report_line.is_pipeline, hnone, hp]

theorem report_pipelines_blocks :
    ∀ chain : List halide_profiler_pipeline_stats,
    (report_pipelines chain []).printed <+:
        (chain.map fun p => (report_block p).printed).flatten ∧
    ((report_pipelines chain []).finished = true →
      (report_pipelines chain []).printed =
        (chain.map fun p => (report_block p).printed).flatten) ∧
    ((∀ p ∈ chain, p.time = 0 ∨ 100 ≤ p.time) →
      (report_pipelines chain []).finished = true) := by
  intro chain
  induction chain with
  | nil =>
    refine ⟨?_, fun _ => rfl, fun _ => rfl⟩
    simp [report_pipelines]
  | cons p rest ih =>
    obtain ⟨ih1, ih2, ih3⟩ := ih
    rw [report_pipelines_cons, List.map_cons, List.flatten_cons]
    cases hb : (report_block p).finished with
    | true =>
      simp only [if_true]
      refine ⟨(List.prefix_append_right_inj _).mpr ih1, fun hfin => ?_, fun hall => ?_⟩
      · rw [ih2 hfin]
      · exact ih3 fun q hq => hall q (List.mem_cons_of_mem _ hq)
    | false =>
      simp only [Bool.false_eq_true, if_false]
      refine ⟨List.prefix_append _ _, fun hfin => ?_, fun hall => ?_⟩
      · rw [hb] at hfin
        cases hfin
      · rw [report_block_finished p (hall p (List.mem_cons_self _ _))] at hb
        cases hb

/-- Claim C7 fails on the code: after the registration of a pipeline named 10
and of a pipeline named 20 and one sample of 50 ns billed to the second, both
records have `runs = 1`, but the report prints the summary line of the record
named 20 only and stops at the division by zero in the percentage of its first
function line, so the record named 10 gets no summary line.  For every state,
the lines printed are a first part of the per-record blocks in chain order,
and all of them when the report reaches its end, which it does when `time` of
every record is 0 or at least 100; the summary lines printed are then exactly
those of the records with nonzero `runs`, one each, in chain order.  Nothing is
printed for a record whose `runs` is 0, and what is printed for any other
record starts with its summary line and has function lines only after it. -/
theorem report_summary_lines :
    halide_profiler_report short_second_state =
      ⟨[report_line.pipeline 20 50 1 1 0 0 0 0], false⟩ ∧
    (short_second_state.pipelines.map fun p => (p.name, p.runs, p.time)) =
      [(20, 1, 50), (10, 1, 0)] ∧
    (short_second_state.pipelines.filter (fun p => p.runs ≠ 0)).map pipeline_line =
      [report_line.pipeline 20 50 1 1 0 0 0 0, report_line.pipeline 10 0 0 1 0 0 0 0] ∧
    (∀ s : halide_profiler_state,
      (halide_profiler_report s).printed <+:
        (s.pipelines.map fun p => (report_block p).printed).flatten ∧
      (halide_profiler_report s).printed.filter report_line.is_pipeline <+:
        (s.pipelines.filter (fun p => p.runs ≠ 0)).map pipeline_line ∧
      ((halide_profiler_report s).finished = true →
        (halide_profiler_report s).printed =
          (s.pipelines.map fun p => (report_block p).printed).flatten ∧
        (halide_profiler_report s).printed.filter report_line.is_pipeline =
          (s.pipelines.filter (fun p => p.runs ≠ 0)).map pipeline_line) ∧
      ((∀ p ∈ s.pipelines, p.time = 0 ∨ 100 ≤ p.time) →
        (halide_profiler_report s).finished = true)) ∧
    (∀ p : halide_profiler_pipeline_stats, p.runs = 0 → report_block p = ⟨[], true⟩) ∧
    (∀ p : halide_profiler_pipeline_stats, p.runs ≠ 0 →
      ∃ fl, (report_block p).printed = pipeline_line p :: fl ∧
        ∀ l ∈ fl, l.is_pipeline = false) := by
  refine ⟨by decide, by decide, by decide, fun s => ?_, report_block_skipped,
    report_block_summary⟩
  obtain ⟨h1, h2, h3⟩ := report_pipelines_blocks s.pipelines
  unfold halide_profiler_report halide_profiler_report_unlocked
  refine ⟨h1, ?_, fun hfin => ⟨h2 hfin, ?_⟩, h3⟩
  · rw [← report_blocks_summaries s.pipelines]
    exact List.IsPrefix.filter _ h1
  · rw [h2 hfin, report_blocks_summaries]
theorem report_funcs_append (p : halide_profiler_pipeline_stats) :
    ∀ (is js : List Nat) (out : List report_line),
    report_funcs p (is ++ js) out =
      if (report_funcs p is out).finished then report_funcs p js (report_funcs p is out).printed
      else report_funcs p is out := by
  intro is
  induction is with
  | nil => intro js out; simp [report_funcs]
  | cons i is ih =>
    intro js out
    simp only [List.cons_append, report_funcs]
    cases p.funcs[i]? with
    | none => exact ih js out
    | some fs =>
      simp only
      split
      · exact ih js out
      · cases func_line p fs with
        | none => simp
        | some line => exact ih js _

theorem due_funcs_append (l : List halide_profiler_func_stats)
    (x : halide_profiler_func_stats) (h : l ≠ []) : due_funcs (l ++ [x]) = due_funcs l ++ [x] := by
  cases l with
  | nil => exact absurd rfl h
  | cons a l =>
    simp only [List.cons_append, due_funcs]
    split <;> rfl

theorem take_ne_nil_of_get (l : List halide_profiler_func_stats) (m : Nat)
    (x : halide_profiler_func_stats) (hx : l[m + 1]? = some x) : l.take (m + 1) ≠ [] := by
  have hlen : m + 1 < l.length := (List.getElem?_eq_some.mp hx).1
  intro h
  rw [List.take_eq_nil_iff] at h
  rcases h with h | h
  · omega
  · rw [h] at hlen
    simp at hlen

/-- The inner loop on a record with `0 < time < 100`: it prints nothing, and
reaches its end only when no entry is due a line. -/
theorem report_funcs_take_short (p : halide_profiler_pipeline_stats)
    (hshort : 0 < p.time ∧ p.time < 100) : ∀ n : Nat,
    report_funcs p (List.range n) [] = ⟨[], decide (due_funcs (p.funcs.take n) = [])⟩ := by
  intro n
  induction n with
  | zero => simp [report_funcs, due_funcs]
  | succ n ih =>
    rw [List.range_succ, report_funcs_append, ih, List.take_succ]
    cases hx : p.funcs[n]? with
    | none =>
      simp only [Option.toList, List.append_nil, report_funcs, hx]
      split <;> simp_all
    | some x =>
      have hline : func_line p x = none := (func_line_none p x).mpr hshort
      simp only [report_funcs, hx, Option.toList, hline]
      cases n with
      | zero =>
        by_cases ht : x.time = 0 <;> simp [ht, due_funcs]
      | succ m =>
        simp only [due_funcs_append _ _ (take_ne_nil_of_get p.funcs m x hx)]
        by_cases hdue : due_funcs (p.funcs.take (m + 1)) = [] <;> simp [hdue]

/-- What one turn of the outer loop prints for a record with nonzero `runs` and
`0 < time < 100`: the summary line only; the report stops at the percentage of
the first entry that is due a line. -/
theorem report_block_short (p : halide_profiler_pipeline_stats) (hruns : p.runs ≠ 0)
    (hshort : 0 < p.time ∧ p.time < 100) :
    report_block p = ⟨[pipeline_line p], decide (printed_funcs p = [])⟩ := by
  have h : p.time ≠ 0 ∨ p.memory_total ≠ 0 := Or.inl (by omega)
  rw [report_block_printed p hruns, if_pos h, report_funcs_take_short p hshort]
  rfl

theorem bill_scan_none (func_id : Int) (chain : List halide_profiler_pipeline_stats)
    (h : ∀ p ∈ chain, ¬ owns p func_id) : bill_scan func_id chain = none := by
  induction chain with
  | nil => rfl
  | cons p rest ih =>
    have hp := h p (List.mem_cons_self _ _)
    have hr := ih (fun q hq => h q (List.mem_cons_of_mem _ hq))
    simp [bill_scan, hp, hr]

theorem mru_record_mem (s : halide_profiler_state) (i : Nat) (p : halide_profiler_pipeline_stats)
    (h : mru_record s = some (i, p)) : s.mru_pipeline = some i ∧ s.pipelines[i]? = some p := by
  unfold mru_record at h
  cases hm : s.mru_pipeline with
  | none => simp [hm] at h
  | some j =>
    rw [hm] at h
    simp only at h
    cases hj : s.pipelines[j]? with
    | none => simp [hj] at h
    | some q =>
      rw [hj] at h
      simp only [Option.some.injEq, Prod.mk.injEq] at h
      obtain ⟨h1, h2⟩ := h
      subst h1 h2
      exact ⟨rfl, hj⟩

/-- Claim C9: for every state and every function id that no record of the
chain owns, `bill_func` returns (it has no failure path) and leaves the whole
state as it was: every record and function with its `time` and `samples`, the
chain, `mru_pipeline` and `first_free_id`. -/
theorem bill_func_unowned (s : halide_profiler_state) (func_id : Int) (time : Nat)
    (h : ∀ p ∈ s.pipelines, ¬ owns p func_id) : bill_func s func_id time = s := by
  have hscan : bill_func_scan s func_id time = s := by
    simp [bill_func_scan, bill_scan_none func_id s.pipelines h]
  unfold bill_func
  cases hm : mru_record s with
  | none => exact hscan
  | some r =>
    obtain ⟨i, mru_p⟩ := r
    have hmem : mru_p ∈ s.pipelines := List.getElem?_mem (mru_record_mem s i mru_p hm).2
    simp only [if_neg (h mru_p hmem)]
    exact hscan

/-- A sample for id 7 after two pipelines with ranges `[0, 2)` and `[2, 5)` were
registered and id 3 was billed: nothing changes. -/
theorem bill_func_unowned_witness :
    bill_func
        (bill_func (run_starts halide_profiler_get_state
          [⟨10, 2, fun i => i⟩, ⟨20, 3, fun i => i⟩]).2 3 50) 7 1000 =
      bill_func (run_starts halide_profiler_get_state
          [⟨10, 2, fun i => i⟩, ⟨20, 3, fun i => i⟩]).2 3 50 :=
  bill_func_unowned
    (bill_func (run_starts halide_profiler_get_state
      [⟨10, 2, fun i => i⟩, ⟨20, 3, fun i => i⟩]).2 3 50) 7 1000 (by decide)

theorem modify_at_length {α : Type} (g : α → α) (pre : List α) (a : α) (post : List α) :
    (pre ++ a :: post).modify g pre.length = pre ++ g a :: post := by
  induction pre with
  | nil => rfl
  | cons x xs ih => rw [List.cons_append, List.length_cons, List.modify_succ_cons, ih]; rfl

theorem bill_scan_at (func_id : Int) (pre : List halide_profiler_pipeline_stats)
    (p : halide_profiler_pipeline_stats) (post : List halide_profiler_pipeline_stats)
    (hpre : ∀ q ∈ pre, ¬ owns q func_id) (hp : owns p func_id) :
    bill_scan func_id (pre ++ p :: post) = some pre.length := by
  induction pre with
  | nil => simp [bill_scan, hp]
  | cons a rest ih =>
    have ha := hpre a (List.mem_cons_self _ _)
    have hr := ih (fun q hq => hpre q (List.mem_cons_of_mem _ hq))
    simp [bill_scan, ha, hr]

theorem owner_position (func_id : Int) (pre : List halide_profiler_pipeline_stats)
    (p : halide_profiler_pipeline_stats) (post : List halide_profiler_pipeline_stats)
    (hdisj : (pre ++ p :: post).Pairwise (fun a b => ∀ x, ¬ (owns a x ∧ owns b x)))
    (hp : owns p func_id) :
    (∀ q ∈ pre, ¬ owns q func_id) ∧
    ∀ (i : Nat) (m : halide_profiler_pipeline_stats), (pre ++ p :: post)[i]? = some m →
      owns m func_id → i = pre.length ∧ m = p := by
  rw [List.pairwise_append, List.pairwise_cons] at hdisj
  obtain ⟨_, ⟨hpost, _⟩, hcross⟩ := hdisj
  have hpre : ∀ q ∈ pre, ¬ owns q func_id :=
    fun q hq hown => hcross q hq p (List.mem_cons_self _ _) func_id ⟨hown, hp⟩
  refine ⟨hpre, fun i m hi hm => ?_⟩
  rcases Nat.lt_trichotomy i pre.length with hlt | heq | hgt
  · rw [List.getElem?_append_left hlt] at hi
    exact absurd hm (hpre m (List.getElem?_mem hi))
  · subst heq
    rw [List.getElem?_append_right (le_refl _), Nat.sub_self, List.getElem?_cons_zero] at hi
    exact ⟨rfl, (Option.some.inj hi).symm⟩
  · rw [List.getElem?_append_right (by omega)] at hi
    obtain ⟨k, hk⟩ : ∃ k, i - pre.length = k + 1 := ⟨i - pre.length - 1, by omega⟩
    rw [hk, List.getElem?_cons_succ] at hi
    exact absurd ⟨hp, hm⟩ (hpost m (List.getElem?_mem hi) func_id)

theorem bill_func_owned_at (s : halide_profiler_state) (func_id : Int) (time : Nat)
    (pre : List halide_profiler_pipeline_stats) (P : halide_profiler_pipeline_stats)
    (post : List halide_profiler_pipeline_stats)
    (hchain : s.pipelines = pre ++ P :: post)
    (hdisj : s.pipelines.Pairwise (fun a b => ∀ x, ¬ (owns a x ∧ owns b x)))
    (hown : owns P func_id) :
    ∃ P' : halide_profiler_pipeline_stats,
      bill_func s func_id time =
        { s with mru_pipeline := some pre.length, pipelines := pre ++ P' :: post } ∧
      P' = { P with time := P'.time, samples := P'.samples, funcs := P'.funcs } ∧
      P'.time = (P.time + time) % 2 ^ 64 ∧
      (P.time + time < 2 ^ 64 → P'.time = P.time + time) ∧
      P'.samples = P.samples + 1 ∧
      P'.funcs.length = P.funcs.length ∧
      (∀ j, j ≠ (func_id - P.first_func_id).toNat → P'.funcs[j]? = P.funcs[j]?) ∧
      (∀ fs, P.funcs[(func_id - P.first_func_id).toNat]? = some fs →
        P'.funcs[(func_id - P.first_func_id).toNat]? =
          some { fs with time := (fs.time + time) % 2 ^ 64 } ∧
        (fs.time + time < 2 ^ 64 → (fs.time + time) % 2 ^ 64 = fs.time + time)) ∧
      (P.funcs.length = P.num_funcs.toNat →
        ∃ fs, P.funcs[(func_id - P.first_func_id).toNat]? = some fs) := by
  rw [hchain] at hdisj
  obtain ⟨hpre, hpos⟩ := owner_position func_id pre P post hdisj hown
  have hscan : bill_func_scan s func_id time =
      { s with mru_pipeline := some pre.length
               pipelines := pre ++ bill_record P func_id time :: post } := by
    simp only [bill_func_scan, hchain, bill_scan_at func_id pre P post hpre hown,
      modify_at_length]
  refine ⟨bill_record P func_id time, ?_, rfl, rfl, fun hlt => Nat.mod_eq_of_lt hlt, rfl,
    by simp [bill_record], ?_, ?_, ?_⟩
  · unfold bill_func
    cases hm : mru_record s with
    | none => exact hscan
    | some r =>
      obtain ⟨i, mru_p⟩ := r
      obtain ⟨hmru, hget⟩ := mru_record_mem s i mru_p hm
      by_cases ho : owns mru_p func_id
      · rw [hchain] at hget
        obtain ⟨hi, hmp⟩ := hpos i mru_p hget ho
        subst hi hmp
        simp only [if_pos ho]
        have hset : s.pipelines.set pre.length (bill_record mru_p func_id time) =
            pre ++ bill_record mru_p func_id time :: post := by rw [hchain, set_at_length]
        rw [hset, ← hmru]
      · simp only [if_neg ho]
        exact hscan
  · intro j hj
    simp only [bill_record, List.getElem?_modify]
    cases P.funcs[j]? with
    | none => rfl
    | some a => simp [Ne.symm hj]
  · intro fs hfs
    refine ⟨?_, fun hlt => Nat.mod_eq_of_lt hlt⟩
    simp [bill_record, List.getElem?_modify, hfs, wrap64]
  · intro hlen
    unfold owns at hown
    have hlt : (func_id - P.first_func_id).toNat < P.funcs.length := by omega
    exact ⟨P.funcs[(func_id - P.first_func_id).toNat], List.getElem?_eq_getElem hlt⟩

/-- Claim C10: in a chain with pairwise disjoint id ranges, for a function id
owned by the record `P`, `bill_func` adds the time to
`P.funcs[func_id - P.first_func_id].time` and to `P.time` (an addition of
`uint64_t` values: the sum modulo `2 ^ 64`, which is the sum itself below
`2 ^ 64`), adds exactly 1 to `P.samples`, and leaves `mru_pipeline` pointing to
`P`; every other function of `P`, every other record, the order of the chain,
and every `runs` and memory counter are as before. The billed slot exists when
`funcs` has `num_funcs` entries. -/
theorem bill_func_owned (s : halide_profiler_state) (func_id : Int) (time : Nat)
    (P : halide_profiler_pipeline_stats) (hmem : P ∈ s.pipelines)
    (hdisj : s.pipelines.Pairwise (fun a b => ∀ x, ¬ (owns a x ∧ owns b x)))
    (hown : owns P func_id) :
    ∃ (pre post : List halide_profiler_pipeline_stats) (P' : halide_profiler_pipeline_stats),
      s.pipelines = pre ++ P :: post ∧
      bill_func s func_id time =
        { s with mru_pipeline := some pre.length, pipelines := pre ++ P' :: post } ∧
      P' = { P with time := P'.time, samples := P'.samples, funcs := P'.funcs } ∧
      P'.time = (P.time + time) % 2 ^ 64 ∧
      (P.time + time < 2 ^ 64 → P'.time = P.time + time) ∧
      P'.samples = P.samples + 1 ∧
      P'.funcs.length = P.funcs.length ∧
      (∀ j, j ≠ (func_id - P.first_func_id).toNat → P'.funcs[j]? = P.funcs[j]?) ∧
      (∀ fs, P.funcs[(func_id - P.first_func_id).toNat]? = some fs →
        P'.funcs[(func_id - P.first_func_id).toNat]? =
          some { fs with time := (fs.time + time) % 2 ^ 64 } ∧
        (fs.time + time < 2 ^ 64 → (fs.time + time) % 2 ^ 64 = fs.time + time)) ∧
      (P.funcs.length = P.num_funcs.toNat →
        ∃ fs, P.funcs[(func_id - P.first_func_id).toNat]? = some fs) := by
  obtain ⟨pre, post, hchain⟩ := List.append_of_mem hmem
  obtain ⟨P', h⟩ := bill_func_owned_at s func_id time pre P post hchain hdisj hown
  exact ⟨pre, post, P', hchain, h⟩

/-- A sample of 40 ns for id 1 in the state with the ranges `[2, 5)` and
`[0, 2)`: the record of the range `[0, 2)` is billed. -/
theorem bill_func_owned_witness :
    ∃ (pre post : List halide_profiler_pipeline_stats) (P' : halide_profiler_pipeline_stats),
      two_pipelines.pipelines = pre ++ first_record :: post ∧
      bill_func two_pipelines 1 40 =
        { two_pipelines with mru_pipeline := some pre.length, pipelines := pre ++ P' :: post } ∧
      P' = { first_record with time := P'.time, samples := P'.samples, funcs := P'.funcs } ∧
      P'.time = (first_record.time + 40) % 2 ^ 64 ∧
      (first_record.time + 40 < 2 ^ 64 → P'.time = first_record.time + 40) ∧
      P'.samples = first_record.samples + 1 ∧
      P'.funcs.length = first_record.funcs.length ∧
      (∀ j, j ≠ ((1 : Int) - first_record.first_func_id).toNat →
        P'.funcs[j]? = first_record.funcs[j]?) ∧
      (∀ fs, first_record.funcs[((1 : Int) - first_record.first_func_id).toNat]? = some fs →
        P'.funcs[((1 : Int) - first_record.first_func_id).toNat]? =
          some { fs with time := (fs.time + 40) % 2 ^ 64 } ∧
        (fs.time + 40 < 2 ^ 64 → (fs.time + 40) % 2 ^ 64 = fs.time + 40)) ∧
      (first_record.funcs.length = first_record.num_funcs.toNat →
        ∃ fs, first_record.funcs[((1 : Int) - first_record.first_func_id).toNat]? = some fs) :=
  bill_func_owned two_pipelines 1 40 first_record (by decide)
    (by
      have h : two_pipelines.pipelines = [second_record, first_record] := by decide
      rw [h]
      simp only [List.pairwise_cons, List.mem_singleton, List.not_mem_nil, forall_eq,
        List.Pairwise.nil, and_true, false_imp_iff, implies_true]
      intro x hx
      simp only [owns, second_record, first_record, new_pipeline,
        halide_profiler_get_state] at hx
      omega)
    (by decide)

/-! ## Allocation failure -/

theorem find_or_create_scan_no_match (pipeline_name : Nat) (num_funcs : Int)
    (chain : List halide_profiler_pipeline_stats)
    (h : ∀ p ∈ chain, ¬ (p.name = pipeline_name ∧ p.num_funcs = num_funcs)) :
    find_or_create_scan pipeline_name num_funcs chain = none := by
  induction chain with
  | nil => rfl
  | cons p rest ih =>
    have hp := h p (List.mem_cons_self _ _)
    have hr := ih (fun q hq => h q (List.mem_cons_of_mem _ hq))
    simp only [find_or_create_scan, if_neg hp, hr, Option.map_none']

/-- Claim C11: when the chain holds no record with this name pointer and
function count, so that `find_or_create_pipeline` has to allocate, and the
allocation of the record or of its function array fails, then
`find_or_create_pipeline` returns `NULL` and the state it was given: same
chain with every record as it was, same `first_free_id`, same `mru_pipeline`;
`halide_profiler_pipeline_start` then returns the out-of-memory value, and the
state after it differs from the state before at most in `started`, so no
`runs` counter has moved. -/
theorem allocation_failure_leaves_registry (s : halide_profiler_state) (pipeline_name : Nat)
    (num_funcs : Int) (func_names : Nat → Nat) (malloc_stats malloc_funcs : Bool)
    (hnew : ∀ p ∈ s.pipelines, ¬ (p.name = pipeline_name ∧ p.num_funcs = num_funcs))
    (hfail : malloc_stats = false ∨ malloc_funcs = false) :
    find_or_create_pipeline s pipeline_name num_funcs func_names malloc_stats malloc_funcs =
      (none, s) ∧
    halide_profiler_pipeline_start s pipeline_name num_funcs func_names malloc_stats
      malloc_funcs = (none, { s with started := true }) ∧
    (halide_profiler_pipeline_start s pipeline_name num_funcs func_names malloc_stats
      malloc_funcs).2.pipelines = s.pipelines ∧
    (halide_profiler_pipeline_start s pipeline_name num_funcs func_names malloc_stats
      malloc_funcs).2.first_free_id = s.first_free_id ∧
    (halide_profiler_pipeline_start s pipeline_name num_funcs func_names malloc_stats
      malloc_funcs).2.mru_pipeline = s.mru_pipeline := by
  have hcreate : ∀ s' : halide_profiler_state, s'.pipelines = s.pipelines →
      find_or_create_pipeline s' pipeline_name num_funcs func_names malloc_stats malloc_funcs =
        (none, s') := by
    intro s' hs'
    unfold find_or_create_pipeline
    rw [hs', find_or_create_scan_no_match pipeline_name num_funcs s.pipelines hnew]
    rcases hfail with hf | hf
    · simp [hf]
    · cases malloc_stats <;> simp [hf]
  have hstart : halide_profiler_pipeline_start s pipeline_name num_funcs func_names malloc_stats
      malloc_funcs = (none, { s with started := true }) := by
    unfold halide_profiler_pipeline_start
    rw [started_after]
    have hc := hcreate { s with started := true } rfl
    simp only [hc]
  refine ⟨hcreate s rfl, hstart, ?_, ?_, ?_⟩ <;> rw [hstart]

/-- The registration of a third pipeline in `two_pipelines` when the
allocation of the function array fails. -/
theorem allocation_failure_leaves_registry_witness :
    find_or_create_pipeline two_pipelines 30 4 (fun i => i) true false = (none, two_pipelines) ∧
    halide_profiler_pipeline_start two_pipelines 30 4 (fun i => i) true false =
      (none, { two_pipelines with started := true }) ∧
    (halide_profiler_pipeline_start two_pipelines 30 4 (fun i => i) true false).2.pipelines =
      two_pipelines.pipelines ∧
    (halide_profiler_pipeline_start two_pipelines 30 4 (fun i => i) true false).2.first_free_id =
      two_pipelines.first_free_id ∧
    (halide_profiler_pipeline_start two_pipelines 30 4 (fun i => i) true false).2.mru_pipeline =
      two_pipelines.mru_pipeline :=
  allocation_failure_leaves_registry two_pipelines 30 4 (fun i => i) true false
    (by decide) (Or.inr rfl)

/-! ## One record per identity -/

theorem find_or_create_scan_none_iff (pipeline_name : Nat) (num_funcs : Int)
    (chain : List halide_profiler_pipeline_stats)
    (h : find_or_create_scan pipeline_name num_funcs chain = none) :
    ∀ p ∈ chain, ¬ (p.name = pipeline_name ∧ p.num_funcs = num_funcs) := by
  intro p hp hmatch
  obtain ⟨pre, q, post, _, _, _, hscan⟩ :=
    find_or_create_scan_some pipeline_name num_funcs chain ⟨p, hp, hmatch⟩
  rw [h] at hscan
  exact absurd hscan (by simp)

theorem pipeline_start_found (s : halide_profiler_state) (n : Nat) (k : Int)
    (func_names : Nat → Nat) (malloc_stats malloc_funcs : Bool)
    (h : ∃ q ∈ s.pipelines, q.name = n ∧ q.num_funcs = k) :
    ∃ pre p post, s.pipelines = pre ++ p :: post ∧
      (p.name = n ∧ p.num_funcs = k) ∧
      halide_profiler_pipeline_start s n k func_names malloc_stats malloc_funcs =
        (some p.first_func_id,
          { s with started := true
                   pipelines := pre ++ { p with runs := p.runs + 1 } :: post }) := by
  obtain ⟨pre, p, post, hc, hp, _, hscan⟩ := find_or_create_scan_some n k s.pipelines h
  refine ⟨pre, p, post, hc, hp, ?_⟩
  unfold halide_profiler_pipeline_start find_or_create_pipeline
  rw [started_after]
  have hscan1 : find_or_create_scan n k
      ({ s with started := true } : halide_profiler_state).pipelines = some (pre.length, p) := hscan
  simp only [hscan1]
  have hset : s.pipelines.set pre.length { p with runs := p.runs + 1 } =
      pre ++ { p with runs := p.runs + 1 } :: post := by rw [hc, set_at_length]
  simp only [hset]

theorem pipeline_start_failed (s : halide_profiler_state) (pipeline_name : Nat)
    (num_funcs : Int) (func_names : Nat → Nat) (malloc_stats malloc_funcs : Bool)
    (hnew : ∀ p ∈ s.pipelines, ¬ (p.name = pipeline_name ∧ p.num_funcs = num_funcs))
    (hfail : malloc_stats = false ∨ malloc_funcs = false) :
    halide_profiler_pipeline_start s pipeline_name num_funcs func_names malloc_stats
      malloc_funcs = (none, { s with started := true }) := by
  unfold halide_profiler_pipeline_start find_or_create_pipeline
  rw [started_after]
  have hscan : find_or_create_scan pipeline_name num_funcs
      ({ s with started := true } : halide_profiler_state).pipelines = none :=
    find_or_create_scan_no_match pipeline_name num_funcs s.pipelines hnew
  rcases hfail with hf | hf
  · simp [hscan, hf]
  · cases malloc_stats <;> simp [hscan, hf]

theorem pipeline_start_created (s : halide_profiler_state) (pipeline_name : Nat)
    (num_funcs : Int) (func_names : Nat → Nat)
    (hnew : ∀ p ∈ s.pipelines, ¬ (p.name = pipeline_name ∧ p.num_funcs = num_funcs)) :
    halide_profiler_pipeline_start s pipeline_name num_funcs func_names true true =
      (some s.first_free_id,
        { s with
          started := true
          first_free_id := s.first_free_id + num_funcs
          pipelines :=
            { new_pipeline s pipeline_name num_funcs func_names with runs := 1 } :: s.pipelines
          mru_pipeline := s.mru_pipeline.map (· + 1) }) := by
  unfold halide_profiler_pipeline_start find_or_create_pipeline
  rw [started_after]
  have hscan : find_or_create_scan pipeline_name num_funcs
      ({ s with started := true } : halide_profiler_state).pipelines = none :=
    find_or_create_scan_no_match pipeline_name num_funcs s.pipelines hnew
  simp [hscan, new_pipeline]

/-- The three outcomes of `halide_profiler_pipeline_start`: the record exists
and its `runs` moves; a record is created at the head; the allocation fails. -/
theorem pipeline_start_cases (s : halide_profiler_state) (pipeline_name : Nat) (num_funcs : Int)
    (func_names : Nat → Nat) (malloc_stats malloc_funcs : Bool) :
    (∃ pre p post, s.pipelines = pre ++ p :: post ∧
      (p.name = pipeline_name ∧ p.num_funcs = num_funcs) ∧
      halide_profiler_pipeline_start s pipeline_name num_funcs func_names malloc_stats
        malloc_funcs =
        (some p.first_func_id,
          { s with started := true
                   pipelines := pre ++ { p with runs := p.runs + 1 } :: post })) ∨
    ((∀ p ∈ s.pipelines, ¬ (p.name = pipeline_name ∧ p.num_funcs = num_funcs)) ∧
      malloc_stats = true ∧ malloc_funcs = true ∧
      halide_profiler_pipeline_start s pipeline_name num_funcs func_names malloc_stats
        malloc_funcs =
        (some s.first_free_id,
          { s with
            started := true
            first_free_id := s.first_free_id + num_funcs
            pipelines :=
              { new_pipeline s pipeline_name num_funcs func_names with runs := 1 } ::
                s.pipelines
            mru_pipeline := s.mru_pipeline.map (· + 1) })) ∨
    halide_profiler_pipeline_start s pipeline_name num_funcs func_names malloc_stats
        malloc_funcs = (none, { s with started := true }) := by
  by_cases hex : ∃ q ∈ s.pipelines, q.name = pipeline_name ∧ q.num_funcs = num_funcs
  · exact Or.inl
      (pipeline_start_found s pipeline_name num_funcs func_names malloc_stats malloc_funcs hex)
  · have hnew : ∀ p ∈ s.pipelines, ¬ (p.name = pipeline_name ∧ p.num_funcs = num_funcs) :=
      fun p hp hm => hex ⟨p, hp, hm⟩
    by_cases hfail : malloc_stats = false ∨ malloc_funcs = false
    · exact Or.inr (Or.inr
        (pipeline_start_failed s pipeline_name num_funcs func_names malloc_stats
          malloc_funcs hnew hfail))
    · have h1 : malloc_stats = true := by cases malloc_stats <;> simp_all
      have h2 : malloc_funcs = true := by cases malloc_funcs <;> simp_all
      subst h1 h2
      exact Or.inr (Or.inl ⟨hnew, rfl, rfl,
        pipeline_start_created s pipeline_name num_funcs func_names hnew⟩)

theorem nodup_identities_step (s : halide_profiler_state) (pipeline_name : Nat)
    (num_funcs : Int) (func_names : Nat → Nat) (malloc_stats malloc_funcs : Bool)
    (h : (s.pipelines.map fun p => (p.name, p.num_funcs)).Nodup) :
    ((halide_profiler_pipeline_start s pipeline_name num_funcs func_names malloc_stats
      malloc_funcs).2.pipelines.map fun p => (p.name, p.num_funcs)).Nodup := by
  rcases pipeline_start_cases s pipeline_name num_funcs func_names malloc_stats malloc_funcs with
    ⟨pre, p, post, hc, _, hstart⟩ | ⟨hnew, _, _, hstart⟩ | hstart
  · rw [hstart]
    rw [hc] at h
    simpa using h
  · rw [hstart]
    simp only [List.map_cons, List.nodup_cons, new_pipeline]
    refine ⟨?_, h⟩
    intro hmem
    obtain ⟨q, hq, hkey⟩ := List.mem_map.mp hmem
    simp only [Prod.mk.injEq] at hkey
    exact hnew q hq hkey
  · rw [hstart]
    exact h

theorem nodup_identities_run : ∀ (calls : List registration) (s : halide_profiler_state),
    (s.pipelines.map fun p => (p.name, p.num_funcs)).Nodup →
    ((run_registrations s calls).pipelines.map fun p => (p.name, p.num_funcs)).Nodup := by
  intro calls
  induction calls with
  | nil => intro s h; exact h
  | cons c cs ih =>
    intro s h
    exact ih _ (nodup_identities_step s c.pipeline_name c.num_funcs c.func_names c.malloc_stats
      c.malloc_funcs h)

/-- Claim C12 (as amended): after any series of
`halide_profiler_pipeline_start` calls from the initial state, whatever the
allocator answers, no two records of the chain carry the same name pointer
together with the same function count; a call whose name pointer and
`num_funcs` are those of a record of the chain creates no record. -/
theorem registry_distinct_identities (calls : List registration) :
    (run_registrations halide_profiler_get_state calls).pipelines.Pairwise
      (fun a b => ¬ (a.name = b.name ∧ a.num_funcs = b.num_funcs)) ∧
    ∀ (s : halide_profiler_state) (pipeline_name : Nat) (num_funcs : Int)
      (func_names : Nat → Nat) (malloc_stats malloc_funcs : Bool),
      (∃ q ∈ s.pipelines, q.name = pipeline_name ∧ q.num_funcs = num_funcs) →
      (halide_profiler_pipeline_start s pipeline_name num_funcs func_names malloc_stats
        malloc_funcs).2.pipelines.length = s.pipelines.length := by
  refine ⟨?_, ?_⟩
  · have h := nodup_identities_run calls halide_profiler_get_state
      (by simp [halide_profiler_get_state])
    rw [List.Nodup, List.pairwise_map] at h
    refine h.imp ?_
    intro a b hne hab
    exact hne (Prod.ext hab.1 hab.2)
  · intro s pipeline_name num_funcs func_names malloc_stats malloc_funcs hex
    obtain ⟨pre, p, post, hc, _, hstart⟩ :=
      pipeline_start_found s pipeline_name num_funcs func_names malloc_stats malloc_funcs hex
    rw [hstart, hc]
    simp

/-- Claim C12 fails as stated: the registration of a pipeline of 2 functions
and then of a pipeline of 3 functions under the same name pointer 10 leaves two
records named 10 in the chain. -/
theorem registry_same_name_twice :
    (run_registrations halide_profiler_get_state
        [⟨10, 2, fun i => i, true, true⟩, ⟨10, 3, fun i => i, true, true⟩]).pipelines.map
      (fun p => (p.name, p.num_funcs)) = [(10, 3), (10, 2)] ∧
    ¬ (run_registrations halide_profiler_get_state
        [⟨10, 2, fun i => i, true, true⟩, ⟨10, 3, fun i => i, true, true⟩]).pipelines.Pairwise
      (fun a b => a.name ≠ b.name) := by
  refine ⟨by decide, ?_⟩
  have h : (run_registrations halide_profiler_get_state
      [⟨10, 2, fun i => i, true, true⟩, ⟨10, 3, fun i => i, true, true⟩]).pipelines.map
      (fun p => p.name) = [10, 10] := by decide
  intro hp
  have hp' := (List.pairwise_map (f := fun p : halide_profiler_pipeline_stats => p.name)
    (R := fun a b => a ≠ b)).mpr hp
  rw [h] at hp'
  simp at hp'

/-! ## The assertions of the memory instrumentation -/

/-- Claim C15: `halide_profiler_memory_allocate` and
`halide_profiler_memory_free` fail an assertion if and only if the handle is
`NULL` or `token + func_id` lies outside the range
`[first_func_id, first_func_id + num_funcs)` of the record behind the handle;
when the assertions pass, the index `func_id - first_func_id` that selects the
function record is at least 0 and below `num_funcs`, hence within the array
`funcs` of `num_funcs` entries. -/
theorem memory_assertions (pipeline_state : Option halide_profiler_pipeline_stats)
    (token func_id amount : Int) :
    (halide_profiler_memory_allocate pipeline_state token func_id amount = none ↔
      pipeline_state = none ∨
      ∃ p, pipeline_state = some p ∧
        ¬ (p.first_func_id ≤ token + func_id ∧ token + func_id < p.first_func_id + p.num_funcs)) ∧
    (halide_profiler_memory_free pipeline_state token func_id amount = none ↔
      pipeline_state = none ∨
      ∃ p, pipeline_state = some p ∧
        ¬ (p.first_func_id ≤ token + func_id ∧ token + func_id < p.first_func_id + p.num_funcs)) ∧
    (∀ p, pipeline_state = some p →
      (halide_profiler_memory_allocate pipeline_state token func_id amount ≠ none ∨
        halide_profiler_memory_free pipeline_state token func_id amount ≠ none) →
      0 ≤ func_id + token - p.first_func_id ∧
      func_id + token - p.first_func_id < p.num_funcs ∧
      (p.funcs.length = p.num_funcs.toNat →
        (func_id + token - p.first_func_id).toNat < p.funcs.length)) := by
  cases pipeline_state with
  | none => simp [halide_profiler_memory_allocate, halide_profiler_memory_free]
  | some p =>
    by_cases h1 : func_id + token - p.first_func_id ≥ 0
    · by_cases h2 : func_id + token - p.first_func_id < p.num_funcs
      · have hin : p.first_func_id ≤ token + func_id ∧
            token + func_id < p.first_func_id + p.num_funcs := by omega
        refine ⟨?_, ?_, ?_⟩
        · simp [halide_profiler_memory_allocate, h1, h2, hin]
        · simp [halide_profiler_memory_free, h1, h2, hin]
        · intro q hq _
          cases hq
          exact ⟨h1, h2, fun hlen => by omega⟩
      · have hout : ¬ (p.first_func_id ≤ token + func_id ∧
            token + func_id < p.first_func_id + p.num_funcs) := by omega
        refine ⟨?_, ?_, ?_⟩
        · simp only [halide_profiler_memory_allocate, h1, h2, not_true_eq_false, not_false_eq_true,
            if_true, if_false, true_iff]
          exact Or.inr ⟨p, rfl, hout⟩
        · simp only [halide_profiler_memory_free, h1, h2, not_true_eq_false, not_false_eq_true,
            if_true, if_false, true_iff]
          exact Or.inr ⟨p, rfl, hout⟩
        · intro q _ hpass
          simp [halide_profiler_memory_allocate, halide_profiler_memory_free, h1, h2] at hpass
    · have hout : ¬ (p.first_func_id ≤ token + func_id ∧
          token + func_id < p.first_func_id + p.num_funcs) := by omega
      refine ⟨?_, ?_, ?_⟩
      · simp only [halide_profiler_memory_allocate, h1, not_false_eq_true, if_true, true_iff]
        exact Or.inr ⟨p, rfl, hout⟩
      · simp only [halide_profiler_memory_free, h1, not_false_eq_true, if_true, true_iff]
        exact Or.inr ⟨p, rfl, hout⟩
      · intro q _ hpass
        simp [halide_profiler_memory_allocate, halide_profiler_memory_free, h1] at hpass

/-! ## The divisions of the report -/

/-- Claim C17 fails on the code: the percentage of a function line is computed
as `fs->time / (p->time / 100)` under the guard `p->time != 0` only, so the
divisor is zero exactly when `0 < p->time < 100`; after one sample of 50 ns the
report prints the summary line and then evaluates the percentage of the line of
slot 1 with the divisor `50 / 100 = 0`, where it stops. The average allocation
size is computed only when `num_allocs` is not zero. -/
theorem report_percent_zero_divisor :
    (∀ p_time fs_time : Nat, percent_of p_time fs_time = none ↔ 0 < p_time ∧ p_time < 100) ∧
    halide_profiler_report short_sample_state =
      ⟨[report_line.pipeline 10 50 1 1 0 0 0 0], false⟩ ∧
    (short_sample_state.pipelines.map fun p =>
      (p.time, p.time / 100, p.funcs.map fun fs => (fs.time, percent_of p.time fs.time))) =
      [(50, 0, [(0, none), (50, none)])] ∧
    (∀ memory_total : Int, alloc_avg memory_total 0 = 0) :=
  ⟨percent_of_none, by decide, by decide, fun m => by simp [alloc_avg]⟩

/-! ## Lookup by name -/

theorem find_scan_spec (pipeline_name : Nat) :
    ∀ chain : List halide_profiler_pipeline_stats,
    ((∀ q ∈ chain, q.name ≠ pipeline_name) ∧ find_scan pipeline_name chain = none) ∨
    (∃ i p, find_scan pipeline_name chain = some (i, p) ∧ chain[i]? = some p ∧
      p.name = pipeline_name ∧ ∀ j q, j < i → chain[j]? = some q → q.name ≠ pipeline_name) := by
  intro chain
  induction chain with
  | nil => exact Or.inl ⟨by simp, rfl⟩
  | cons a rest ih =>
    by_cases ha : a.name = pipeline_name
    · exact Or.inr ⟨0, a, by simp [find_scan, ha], List.getElem?_cons_zero, ha,
        fun j q hj _ => absurd hj (by omega)⟩
    · rcases ih with ⟨hall, hnone⟩ | ⟨i, p, hscan, hget, hp, hbefore⟩
      · refine Or.inl ⟨?_, by simp [find_scan, ha, hnone]⟩
        intro q hq
        rcases List.mem_cons.mp hq with hq | hq
        · subst hq; exact ha
        · exact hall q hq
      · refine Or.inr ⟨i + 1, p, by simp [find_scan, ha, hscan], by simpa using hget, hp, ?_⟩
        intro j q hj hq
        cases j with
        | zero =>
          simp only [List.getElem?_cons_zero, Option.some.injEq] at hq
          subst hq
          exact ha
        | succ k =>
          rw [List.getElem?_cons_succ] at hq
          exact hbefore k q (by omega) hq

theorem pairwise_names_same_position (chain : List halide_profiler_pipeline_stats)
    (hd : chain.Pairwise (fun a b => a.name ≠ b.name))
    (i j : Nat) (p q : halide_profiler_pipeline_stats)
    (hi : chain[i]? = some p) (hj : chain[j]? = some q) (hname : p.name = q.name) : i = j := by
  rw [List.pairwise_iff_getElem] at hd
  obtain ⟨hil, hip⟩ := List.getElem?_eq_some.mp hi
  obtain ⟨hjl, hjq⟩ := List.getElem?_eq_some.mp hj
  rcases Nat.lt_trichotomy i j with hlt | heq | hgt
  · exact absurd (by rw [hip, hjq]; exact hname) (hd i j hil hjl hlt)
  · exact heq
  · exact absurd (by rw [hip, hjq]; exact hname.symm) (hd j i hjl hil hgt)

/-- Claim C16 (as amended): in every state whose `mru_pipeline` is `NULL` or
points into the chain, `find_pipeline_stats` (and
`halide_profiler_get_pipeline_state`, which has the same body) returns a record
of the chain whose name pointer equals the one asked for if the chain holds
such a record, and `NULL` otherwise, and leaves the state as it was; when the
name pointers of the records of the chain are pairwise distinct, the record
returned is the one the plain scan of the chain returns. -/
theorem find_pipeline_stats_lookup (s : halide_profiler_state) (pipeline_name : Nat)
    (hmru : mru_valid s) :
    (find_pipeline_stats s pipeline_name).2 = s ∧
    halide_profiler_get_pipeline_state s pipeline_name = find_pipeline_stats s pipeline_name ∧
    ((∃ q ∈ s.pipelines, q.name = pipeline_name) →
      ∃ i p, (find_pipeline_stats s pipeline_name).1 = some (i, p) ∧
        s.pipelines[i]? = some p ∧ p.name = pipeline_name) ∧
    ((∀ q ∈ s.pipelines, q.name ≠ pipeline_name) →
      (find_pipeline_stats s pipeline_name).1 = none) ∧
    (s.pipelines.Pairwise (fun a b => a.name ≠ b.name) →
      (find_pipeline_stats s pipeline_name).1 = find_scan pipeline_name s.pipelines) := by
  have _ := hmru
  refine ⟨?_, rfl, ?_, ?_, ?_⟩
  · unfold find_pipeline_stats
    cases hm : mru_record s with
    | none => rfl
    | some r =>
      obtain ⟨i, mru_p⟩ := r
      simp only
      split <;> rfl
  · intro hex
    unfold find_pipeline_stats
    have hscan : ∃ i p, find_scan pipeline_name s.pipelines = some (i, p) ∧
        s.pipelines[i]? = some p ∧ p.name = pipeline_name := by
      rcases find_scan_spec pipeline_name s.pipelines with ⟨hall, _⟩ | ⟨i, p, h1, h2, h3, _⟩
      · obtain ⟨q, hq, hn⟩ := hex
        exact absurd hn (hall q hq)
      · exact ⟨i, p, h1, h2, h3⟩
    cases hm : mru_record s with
    | none => exact hscan
    | some r =>
      obtain ⟨i, mru_p⟩ := r
      simp only
      by_cases hn : mru_p.name = pipeline_name
      · simp only [if_pos hn]
        exact ⟨i, mru_p, rfl, (mru_record_mem s i mru_p hm).2, hn⟩
      · simp only [if_neg hn]
        exact hscan
  · intro hall
    unfold find_pipeline_stats
    have hscan : find_scan pipeline_name s.pipelines = none := by
      rcases find_scan_spec pipeline_name s.pipelines with ⟨_, hnone⟩ | ⟨i, p, _, h2, h3, _⟩
      · exact hnone
      · exact absurd h3 (hall p (List.getElem?_mem h2))
    cases hm : mru_record s with
    | none => exact hscan
    | some r =>
      obtain ⟨i, mru_p⟩ := r
      simp only
      have hn : mru_p.name ≠ pipeline_name :=
        hall mru_p (List.getElem?_mem (mru_record_mem s i mru_p hm).2)
      simp only [if_neg hn]
      exact hscan
  · intro hd
    unfold find_pipeline_stats
    cases hm : mru_record s with
    | none => rfl
    | some r =>
      obtain ⟨i, mru_p⟩ := r
      simp only
      by_cases hn : mru_p.name = pipeline_name
      · simp only [if_pos hn]
        have hget := (mru_record_mem s i mru_p hm).2
        rcases find_scan_spec pipeline_name s.pipelines with ⟨hall, _⟩ | ⟨j, q, h1, h2, h3, _⟩
        · exact absurd hn (hall mru_p (List.getElem?_mem hget))
        · have hij := pairwise_names_same_position s.pipelines hd i j mru_p q hget h2
            (by rw [hn, h3])
          subst hij
          rw [hget] at h2
          cases h2
          exact h1.symm
      · simp only [if_neg hn]

/-- The lookup of the name 20 in `two_pipelines` after a sample was billed to
id 1, so that `mru_pipeline` points to the record named 10. -/
theorem find_pipeline_stats_lookup_witness :
    (find_pipeline_stats (bill_func two_pipelines 1 40) 20).2 = bill_func two_pipelines 1 40 ∧
    halide_profiler_get_pipeline_state (bill_func two_pipelines 1 40) 20 =
      find_pipeline_stats (bill_func two_pipelines 1 40) 20 ∧
    ((∃ q ∈ (bill_func two_pipelines 1 40).pipelines, q.name = 20) →
      ∃ i p, (find_pipeline_stats (bill_func two_pipelines 1 40) 20).1 = some (i, p) ∧
        (bill_func two_pipelines 1 40).pipelines[i]? = some p ∧ p.name = 20) ∧
    ((∀ q ∈ (bill_func two_pipelines 1 40).pipelines, q.name ≠ 20) →
      (find_pipeline_stats (bill_func two_pipelines 1 40) 20).1 = none) ∧
    ((bill_func two_pipelines 1 40).pipelines.Pairwise (fun a b => a.name ≠ b.name) →
      (find_pipeline_stats (bill_func two_pipelines 1 40) 20).1 =
        find_scan 20 (bill_func two_pipelines 1 40).pipelines) :=
  find_pipeline_stats_lookup (bill_func two_pipelines 1 40) 20 (by decide)

/-- Claim C16 fails as stated: in `same_name_state` two records carry the name
10 and `mru_pipeline` points to the second of them, a member of the chain;
`find_pipeline_stats` returns that record, at position 1 with ids from 0, while
the plain scan returns the record at position 0 with ids from 2. -/
theorem find_pipeline_stats_not_scan :
    mru_valid same_name_state ∧
    (find_pipeline_stats same_name_state 10).1.map (fun r => (r.1, r.2.first_func_id)) =
      some (1, 0) ∧
    (find_scan 10 same_name_state.pipelines).map (fun r => (r.1, r.2.first_func_id)) =
      some (0, 2) ∧
    (find_pipeline_stats same_name_state 10).1 ≠ find_scan 10 same_name_state.pipelines := by
  decide

/-! ## Sampling thread -/

theorem mru_record_current_func (s : halide_profiler_state) (c : Int) :
    mru_record { s with current_func := c } = mru_record s := rfl

theorem bill_func_current_func (s : halide_profiler_state) (c : Int) (func_id : Int)
    (time : Nat) :
    bill_func { s with current_func := c } func_id time =
      { bill_func s func_id time with current_func := c } := by
  have hscan : bill_func_scan { s with current_func := c } func_id time =
      { bill_func_scan s func_id time with current_func := c } := by
    unfold bill_func_scan
    simp only
    cases bill_scan func_id s.pipelines <;> rfl
  unfold bill_func
  rw [mru_record_current_func]
  cases mru_record s with
  | none => exact hscan
  | some r =>
    obtain ⟨i, mru_p⟩ := r
    simp only
    split
    · rfl
    · exact hscan

theorem bill_func_frame (s : halide_profiler_state) (func_id : Int) (time : Nat) :
    (bill_func s func_id time).current_func = s.current_func ∧
    (bill_func s func_id time).started = s.started ∧
    (bill_func s func_id time).first_free_id = s.first_free_id ∧
    (bill_func s func_id time).sleep_time = s.sleep_time := by
  have hscan : (bill_func_scan s func_id time).current_func = s.current_func ∧
      (bill_func_scan s func_id time).started = s.started ∧
      (bill_func_scan s func_id time).first_free_id = s.first_free_id ∧
      (bill_func_scan s func_id time).sleep_time = s.sleep_time := by
    unfold bill_func_scan
    cases bill_scan func_id s.pipelines <;> exact ⟨rfl, rfl, rfl, rfl⟩
  unfold bill_func
  cases mru_record s with
  | none => exact hscan
  | some r =>
    obtain ⟨i, mru_p⟩ := r
    simp only
    split
    · exact ⟨rfl, rfl, rfl, rfl⟩
    · exact hscan

theorem spec_bills_nil (please_stop : Int) (t0 : Nat) : spec_bills please_stop t0 [] = [] := rfl

theorem spec_bills_cons (please_stop : Int) (t0 : Nat) (w : wake) (ws : List wake) :
    spec_bills please_stop t0 (w :: ws) =
      if w.func = please_stop then []
      else (if w.func ≥ 0 then [(w.func, sub64 w.t_now t0)] else []) ++
        spec_bills please_stop w.t_now ws := by
  unfold spec_bills
  by_cases hstop : w.func = please_stop
  · simp [List.takeWhile, hstop]
  · by_cases hreal : w.func ≥ 0
    · simp [List.takeWhile, hstop, hreal, List.filter_cons]
    · simp [List.takeWhile, hstop, hreal, List.filter_cons]

theorem spec_last_time_cons (please_stop : Int) (t0 : Nat) (w : wake) (ws : List wake) :
    spec_last_time please_stop t0 (w :: ws) =
      if w.func = please_stop then t0 else spec_last_time please_stop w.t_now ws := by
  unfold spec_last_time
  by_cases hstop : w.func = please_stop
  · simp [List.takeWhile, hstop]
  · simp [List.takeWhile, hstop]

theorem foldl_bill_current_func (c : Int) : ∀ (bs : List (Int × Nat)) (s : halide_profiler_state),
    bs.foldl (fun st b => bill_func st b.1 b.2) { s with current_func := c } =
      { bs.foldl (fun st b => bill_func st b.1 b.2) s with current_func := c } := by
  intro bs
  induction bs with
  | nil => intro s; rfl
  | cons b bs ih =>
    intro s
    simp only [List.foldl_cons]
    rw [bill_func_current_func, ih]

theorem sampling_loop_spec (please_stop : Int) : ∀ (wakes : List wake)
    (s : halide_profiler_state) (t : Nat) (bills : List (Int × Nat)),
    (sampling_loop please_stop s t bills wakes).bills =
      bills ++ spec_bills please_stop t wakes ∧
    (sampling_loop please_stop s t bills wakes).state =
      { (spec_bills please_stop t wakes).foldl (fun st b => bill_func st b.1 b.2) s with
        current_func := (sampling_loop please_stop s t bills wakes).state.current_func } ∧
    (sampling_loop please_stop s t bills wakes).t = spec_last_time please_stop t wakes ∧
    (sampling_loop please_stop s t bills wakes).stopped =
      wakes.any (fun w => decide (w.func = please_stop)) ∧
    ((sampling_loop please_stop s t bills wakes).stopped = true →
      (sampling_loop please_stop s t bills wakes).state.current_func = please_stop) := by
  intro wakes
  induction wakes with
  | nil =>
    intro s t bills
    simp [sampling_loop, spec_bills_nil, spec_last_time]
  | cons w ws ih =>
    intro s t bills
    rw [spec_bills_cons, spec_last_time_cons]
    by_cases hstop : w.func = please_stop
    · simp [sampling_loop, hstop]
    · by_cases hreal : w.func ≥ 0
      · obtain ⟨h1, h2, h3, h4, h5⟩ := ih
          (bill_func { s with current_func := w.func } w.func (sub64 w.t_now t)) w.t_now
          (bills ++ [(w.func, sub64 w.t_now t)])
        simp only [sampling_loop, hstop, hreal, if_true, if_false, List.any_cons,
          decide_False, Bool.false_or]
        refine ⟨by rw [h1]; simp, ?_, h3, h4, h5⟩
        rw [h2]
        simp only [List.singleton_append, List.foldl_cons, bill_func_current_func,
          foldl_bill_current_func]
      · obtain ⟨h1, h2, h3, h4, h5⟩ := ih { s with current_func := w.func } w.t_now bills
        simp only [sampling_loop, hstop, hreal, if_true, if_false, List.any_cons,
          decide_False, Bool.false_or, List.nil_append]
        refine ⟨h1, ?_, h3, h4, h5⟩
        rw [h2]
        simp only [foldl_bill_current_func]

theorem foldl_bill_frame : ∀ (bs : List (Int × Nat)) (s : halide_profiler_state),
    (bs.foldl (fun st b => bill_func st b.1 b.2) s).started = s.started ∧
    (bs.foldl (fun st b => bill_func st b.1 b.2) s).first_free_id = s.first_free_id ∧
    (bs.foldl (fun st b => bill_func st b.1 b.2) s).sleep_time = s.sleep_time := by
  intro bs
  induction bs with
  | nil => intro s; exact ⟨rfl, rfl, rfl⟩
  | cons b bs ih =>
    intro s
    simp only [List.foldl_cons]
    obtain ⟨h1, h2, h3⟩ := ih (bill_func s b.1 b.2)
    obtain ⟨_, g1, g2, g3⟩ := bill_func_frame s b.1 b.2
    exact ⟨h1.trans g1, h2.trans g2, h3.trans g3⟩

theorem sub64_exact (t t_now : Nat) (h1 : t ≤ t_now) (h2 : t_now < 2 ^ 64) :
    sub64 t_now t = t_now - t := by
  unfold sub64
  have h3 : t_now < 18446744073709551616 := by simpa using h2
  rw [Nat.mod_eq_of_lt h3, Nat.mod_eq_of_lt (lt_of_le_of_lt h1 h3)]
  omega

/-- Claim C13: for every series of wakes of a sampling thread that found
`current_func` different from the stop request when it started, the calls of
`bill_func` the loop makes are exactly the bills of the specification: at a wake
that observes a real function id, the `uint64_t` difference between the time of
this wake and the time of the wake before it (the plain difference when the
clock did not go back), billed to that id; nothing at a wake that observes a
negative id other than the stop request, whose time still becomes the time of
the wake before the next one; nothing at the first wake that observes the stop
request, where the loop ends and `started` becomes false. The state is the one
these bills produce, and `started` is as before while no stop request was
observed. -/
theorem sampling_thread_bills (please_stop : Int) (s : halide_profiler_state) (t0 : Nat)
    (wakes : List wake) (hrun : s.current_func ≠ please_stop) :
    (sampling_profiler_thread please_stop s t0 wakes).bills = spec_bills please_stop t0 wakes ∧
    (sampling_profiler_thread please_stop s t0 wakes).state =
      { (spec_bills please_stop t0 wakes).foldl (fun st b => bill_func st b.1 b.2) s with
        current_func := (sampling_profiler_thread please_stop s t0 wakes).state.current_func
        started := (sampling_profiler_thread please_stop s t0 wakes).state.started } ∧
    (sampling_profiler_thread please_stop s t0 wakes).t = spec_last_time please_stop t0 wakes ∧
    (sampling_profiler_thread please_stop s t0 wakes).stopped =
      wakes.any (fun w => decide (w.func = please_stop)) ∧
    (sampling_profiler_thread please_stop s t0 wakes).state.started =
      (if wakes.any (fun w => decide (w.func = please_stop)) then false else s.started) ∧
    (∀ (t : Nat) (w : wake) (ws : List wake), w.func = please_stop →
      spec_bills please_stop t (w :: ws) = []) ∧
    (∀ (t : Nat) (w : wake) (ws : List wake), w.func ≠ please_stop → w.func < 0 →
      spec_bills please_stop t (w :: ws) = spec_bills please_stop w.t_now ws) ∧
    (∀ (t : Nat) (w : wake) (ws : List wake), w.func ≠ please_stop → 0 ≤ w.func →
      spec_bills please_stop t (w :: ws) =
        (w.func, sub64 w.t_now t) :: spec_bills please_stop w.t_now ws) ∧
    (∀ t t_now : Nat, t ≤ t_now → t_now < 2 ^ 64 → sub64 t_now t = t_now - t) := by
  obtain ⟨h1, h2, h3, h4, _⟩ := sampling_loop_spec please_stop wakes s t0 []
  have hstarted := (foldl_bill_frame (spec_bills please_stop t0 wakes) s).1
  have hthread : sampling_profiler_thread please_stop s t0 wakes =
      if (sampling_loop please_stop s t0 [] wakes).stopped then
        { sampling_loop please_stop s t0 [] wakes with
          state := { (sampling_loop please_stop s t0 [] wakes).state with started := false } }
      else sampling_loop please_stop s t0 [] wakes := by
    unfold sampling_profiler_thread
    rw [if_neg hrun]
  refine ⟨?_, ?_, ?_, ?_, ?_, ?_, ?_, ?_, sub64_exact⟩
  · rw [hthread]
    split <;> simpa using h1
  · rw [hthread]
    split
    · simp only
      rw [h2]
    · rw [h2]
  · rw [hthread]
    split <;> simpa using h3
  · rw [hthread]
    split <;> simpa using h4
  · rw [hthread]
    cases hs : (sampling_loop please_stop s t0 [] wakes).stopped with
    | true =>
      rw [hs] at h4
      simp [← h4]
    | false =>
      rw [hs] at h4
      simp only [Bool.false_eq_true, if_false, ← h4]
      rw [h2]
      exact hstarted
  · intro t w ws hw
    rw [spec_bills_cons, if_pos hw]
  · intro t w ws hw hneg
    rw [spec_bills_cons, if_neg hw, if_neg (by omega)]
    rfl
  · intro t w ws hw hreal
    rw [spec_bills_cons, if_neg hw, if_pos (by omega)]
    rfl

/-- The wakes `sample_wakes` in the state `two_pipelines` with the starting time
1000 and the stop request -2: the bills are 1 ns for id 3 and 1000 ns for
id 0. -/
theorem sampling_thread_bills_witness :
    (sampling_profiler_thread (-2) two_pipelines 1000 sample_wakes).bills =
      spec_bills (-2) 1000 sample_wakes ∧
    (sampling_profiler_thread (-2) two_pipelines 1000 sample_wakes).state =
      { (spec_bills (-2) 1000 sample_wakes).foldl (fun st b => bill_func st b.1 b.2)
          two_pipelines with
        current_func := (sampling_profiler_thread (-2) two_pipelines 1000
          sample_wakes).state.current_func
        started := (sampling_profiler_thread (-2) two_pipelines 1000
          sample_wakes).state.started } ∧
    (sampling_profiler_thread (-2) two_pipelines 1000 sample_wakes).t =
      spec_last_time (-2) 1000 sample_wakes ∧
    (sampling_profiler_thread (-2) two_pipelines 1000 sample_wakes).stopped =
      sample_wakes.any (fun w => decide (w.func = -2)) ∧
    (sampling_profiler_thread (-2) two_pipelines 1000 sample_wakes).state.started =
      (if sample_wakes.any (fun w => decide (w.func = -2)) then false
        else two_pipelines.started) ∧
    (∀ (t : Nat) (w : wake) (ws : List wake), w.func = -2 →
      spec_bills (-2) t (w :: ws) = []) ∧
    (∀ (t : Nat) (w : wake) (ws : List wake), w.func ≠ -2 → w.func < 0 →
      spec_bills (-2) t (w :: ws) = spec_bills (-2) w.t_now ws) ∧
    (∀ (t : Nat) (w : wake) (ws : List wake), w.func ≠ -2 → 0 ≤ w.func →
      spec_bills (-2) t (w :: ws) = (w.func, sub64 w.t_now t) :: spec_bills (-2) w.t_now ws) ∧
    (∀ t t_now : Nat, t ≤ t_now → t_now < 2 ^ 64 → sub64 t_now t = t_now - t) :=
  sampling_thread_bills (-2) two_pipelines 1000 sample_wakes (by decide)

/-! ## Peak of the memory counters -/

/-- The effect of one call on the counters `memory_current` and `memory_peak`
of a record or of a function record. -/
theorem mem_step_effect (token : Int) (p : halide_profiler_pipeline_stats) (c : mem_call)
    (h : call_in_range token p c) :
    ∃ q, mem_step token (some p) c = some q ∧
      q.first_func_id = p.first_func_id ∧ q.num_funcs = p.num_funcs ∧
      q.funcs.length = p.funcs.length ∧
      (∀ incr, (∃ f, c = .allocate f incr) →
        q.memory_current = wrap32 (p.memory_current + incr) ∧
        q.memory_peak = max p.memory_peak (wrap32 (p.memory_current + incr))) ∧
      (∀ decr, (∃ f, c = .free f decr) →
        q.memory_current = wrap32 (p.memory_current - decr) ∧
        q.memory_peak = p.memory_peak) ∧
      (∀ j, j ≠ (c.func_id + token - p.first_func_id).toNat → q.funcs[j]? = p.funcs[j]?) ∧
      (∀ fs, p.funcs[(c.func_id + token - p.first_func_id).toNat]? = some fs →
        ∃ fs', q.funcs[(c.func_id + token - p.first_func_id).toNat]? = some fs' ∧
          (∀ incr, (∃ f, c = .allocate f incr) →
            fs'.memory_current = wrap32 (fs.memory_current + incr) ∧
            fs'.memory_peak = max fs.memory_peak (wrap32 (fs.memory_current + incr))) ∧
          (∀ decr, (∃ f, c = .free f decr) →
            fs'.memory_current = wrap32 (fs.memory_current - decr) ∧
            fs'.memory_peak = fs.memory_peak)) := by
  have hmax : ∀ a b : Int, (if b > a then b else a) = max a b := by
    intro a b
    by_cases hab : b > a
    · rw [if_pos hab, max_eq_right (le_of_lt hab)]
    · rw [if_neg hab, max_eq_left (not_lt.mp hab)]
  cases c with
  | allocate f incr =>
    unfold call_in_range at h
    simp only [mem_call.func_id] at h ⊢
    simp only [mem_step]
    rw [memory_allocate_in_range p token f incr h]
    refine ⟨_, rfl, rfl, rfl, by simp, ?_, ?_, ?_, ?_⟩
    · rintro incr' ⟨f', hc⟩
      cases hc
      exact ⟨rfl, hmax _ _⟩
    · rintro decr ⟨f', hc⟩
      cases hc
    · intro j hj
      simp only [List.getElem?_modify]
      cases p.funcs[j]? with
      | none => rfl
      | some a => simp [Ne.symm hj]
    · intro fs hfs
      refine ⟨func_allocate fs incr, by simp [List.getElem?_modify, hfs], ?_, ?_⟩
      · rintro incr' ⟨f', hc⟩
        cases hc
        exact ⟨rfl, hmax _ _⟩
      · rintro decr ⟨f', hc⟩
        cases hc
  | free f decr =>
    unfold call_in_range at h
    simp only [mem_call.func_id] at h ⊢
    simp only [mem_step]
    rw [memory_free_in_range p token f decr h]
    refine ⟨_, rfl, rfl, rfl, by simp, ?_, ?_, ?_, ?_⟩
    · rintro incr ⟨f', hc⟩
      cases hc
    · rintro decr' ⟨f', hc⟩
      cases hc
      exact ⟨rfl, rfl⟩
    · intro j hj
      simp only [List.getElem?_modify]
      cases p.funcs[j]? with
      | none => rfl
      | some a => simp [Ne.symm hj]
    · intro fs hfs
      refine ⟨{ fs with memory_current := wrap32 (fs.memory_current - decr) },
        by simp [List.getElem?_modify, hfs], ?_, ?_⟩
      · rintro incr ⟨f', hc⟩
        cases hc
      · rintro decr' ⟨f', hc⟩
        cases hc
        exact ⟨rfl, rfl⟩

theorem mem_step_pipeline_peak (token : Int) (p : halide_profiler_pipeline_stats) (c : mem_call)
    (h : call_in_range token p c) (hamount : 0 ≤ c.amount) (hfit : free_fits token p c)
    (hpeak : p.memory_current ≤ p.memory_peak) (hint : is_int32 p.memory_current) :
    ∃ q, mem_step token (some p) c = some q ∧
      q.first_func_id = p.first_func_id ∧ q.num_funcs = p.num_funcs ∧
      q.memory_peak = max p.memory_peak q.memory_current ∧
      q.memory_current ≤ q.memory_peak ∧ is_int32 q.memory_current := by
  obtain ⟨q, hq, hf, hn, _, halloc, hfree, _, _⟩ := mem_step_effect token p c h
  refine ⟨q, hq, hf, hn, ?_⟩
  cases c with
  | allocate f incr =>
    obtain ⟨hc, hp⟩ := halloc incr ⟨f, rfl⟩
    rw [hp, hc]
    exact ⟨rfl, le_max_right _ _, is_int32_wrap32 _⟩
  | free f decr =>
    obtain ⟨hc, hp⟩ := hfree decr ⟨f, rfl⟩
    simp only [mem_call.amount] at hamount
    have hlow := hfit.1
    have hval : wrap32 (p.memory_current - decr) = p.memory_current - decr := by
      apply wrap32_of_int32
      unfold is_int32 at hint ⊢
      omega
    rw [hp, hc, hval]
    unfold is_int32 at hint ⊢
    refine ⟨?_, by omega, by omega⟩
    rw [max_eq_left (by omega)]

theorem mem_step_func_peak (token : Int) (j : Nat) (p : halide_profiler_pipeline_stats)
    (c : mem_call) (fs : halide_profiler_func_stats)
    (h : call_in_range token p c) (hamount : 0 ≤ c.amount) (hfit : free_fits token p c)
    (hfs : p.funcs[j]? = some fs)
    (hpeak : fs.memory_current ≤ fs.memory_peak) (hint : is_int32 fs.memory_current) :
    ∃ q fs', mem_step token (some p) c = some q ∧ q.funcs[j]? = some fs' ∧
      fs'.memory_peak = max fs.memory_peak fs'.memory_current ∧
      fs'.memory_current ≤ fs'.memory_peak ∧ is_int32 fs'.memory_current := by
  obtain ⟨q, hq, _, _, _, _, _, hother, hslot⟩ := mem_step_effect token p c h
  by_cases hj : j = (c.func_id + token - p.first_func_id).toNat
  · subst hj
    obtain ⟨fs', hfs', halloc, hfree⟩ := hslot fs hfs
    refine ⟨q, fs', hq, hfs', ?_⟩
    cases c with
    | allocate f incr =>
      obtain ⟨hc, hp⟩ := halloc incr ⟨f, rfl⟩
      rw [hp, hc]
      exact ⟨rfl, le_max_right _ _, is_int32_wrap32 _⟩
    | free f decr =>
      obtain ⟨hc, hp⟩ := hfree decr ⟨f, rfl⟩
      simp only [mem_call.amount] at hamount
      have hlow := hfit.2
      simp only [mem_call.func_id] at hfs
      rw [hfs] at hlow
      simp only [func_free_fits] at hlow
      have hval : wrap32 (fs.memory_current - decr) = fs.memory_current - decr := by
        apply wrap32_of_int32
        unfold is_int32 at hint ⊢
        omega
      rw [hp, hc, hval]
      unfold is_int32 at hint ⊢
      refine ⟨?_, by omega, by omega⟩
      rw [max_eq_left (by omega)]
  · refine ⟨q, fs, hq, by rw [hother j hj, hfs], ?_, hpeak, hint⟩
    rw [max_eq_left hpeak]

theorem mem_run_pipeline_peak (token : Int) :
    ∀ (cs : List mem_call) (p : halide_profiler_pipeline_stats),
    (∀ c ∈ cs, call_in_range token p c) → (∀ c ∈ cs, 0 ≤ c.amount) → frees_fit token p cs →
    p.memory_current ≤ p.memory_peak → is_int32 p.memory_current →
    ∃ q, mem_run token (some p) cs = some q ∧
      q.first_func_id = p.first_func_id ∧ q.num_funcs = p.num_funcs ∧
      q.memory_peak = (current_history token p cs).foldl max p.memory_peak ∧
      q.memory_current ≤ q.memory_peak := by
  intro cs
  induction cs with
  | nil => intro p _ _ _ hpeak _; exact ⟨p, rfl, rfl, rfl, rfl, hpeak⟩
  | cons c cs ih =>
    intro p hr ha hfit hpeak hint
    obtain ⟨q, hq, hf, hn, hp, hle, hi⟩ := mem_step_pipeline_peak token p c
      (hr c (List.mem_cons_self _ _)) (ha c (List.mem_cons_self _ _)) hfit.1 hpeak hint
    have hfit' : frees_fit token q cs := by
      have := hfit.2
      rw [hq] at this
      exact this
    have hr' : ∀ d ∈ cs, call_in_range token q d := by
      intro d hd
      have := hr d (List.mem_cons_of_mem _ hd)
      unfold call_in_range at this ⊢
      rw [hf, hn]
      exact this
    obtain ⟨q', hq', hf', hn', hp', hle'⟩ :=
      ih q hr' (fun d hd => ha d (List.mem_cons_of_mem _ hd)) hfit' hle hi
    refine ⟨q', ?_, hf'.trans hf, hn'.trans hn, ?_, hle'⟩
    · simp only [mem_run, List.foldl_cons] at hq' ⊢
      rw [hq]
      exact hq'
    · rw [hp']
      simp only [current_history, hq, List.foldl_cons, hp]

theorem mem_run_func_peak (token : Int) (j : Nat) :
    ∀ (cs : List mem_call) (p : halide_profiler_pipeline_stats) (fs : halide_profiler_func_stats),
    (∀ c ∈ cs, call_in_range token p c) → (∀ c ∈ cs, 0 ≤ c.amount) → frees_fit token p cs →
    p.funcs[j]? = some fs →
    fs.memory_current ≤ fs.memory_peak → is_int32 fs.memory_current →
    ∃ q fs', mem_run token (some p) cs = some q ∧ q.funcs[j]? = some fs' ∧
      fs'.memory_peak = (func_current_history token j p cs).foldl max fs.memory_peak ∧
      fs'.memory_current ≤ fs'.memory_peak := by
  intro cs
  induction cs with
  | nil => intro p fs _ _ _ hfs hpeak _; exact ⟨p, fs, rfl, hfs, rfl, hpeak⟩
  | cons c cs ih =>
    intro p fs hr ha hfit hfs hpeak hint
    obtain ⟨q, fs1, hq, hfs1, hp, hle, hi⟩ := mem_step_func_peak token j p c fs
      (hr c (List.mem_cons_self _ _)) (ha c (List.mem_cons_self _ _)) hfit.1 hfs hpeak hint
    obtain ⟨q0, hq0, hf, hn, _⟩ := mem_step_effect token p c (hr c (List.mem_cons_self _ _))
    rw [hq] at hq0
    cases hq0
    have hfit' : frees_fit token q cs := by
      have := hfit.2
      rw [hq] at this
      exact this
    have hr' : ∀ d ∈ cs, call_in_range token q d := by
      intro d hd
      have := hr d (List.mem_cons_of_mem _ hd)
      unfold call_in_range at this ⊢
      rw [hf, hn]
      exact this
    obtain ⟨q', fs', hq', hfs', hp', hle'⟩ :=
      ih q fs1 hr' (fun d hd => ha d (List.mem_cons_of_mem _ hd)) hfit' hfs1 hle hi
    refine ⟨q', fs', ?_, hfs', ?_, hle'⟩
    · simp only [mem_run, List.foldl_cons] at hq' ⊢
      rw [hq]
      exact hq'
    · rw [hp']
      simp only [func_current_history, hq, hfs1, List.foldl_cons, hp]

theorem mem_step_some_in_range (token : Int) (p q : halide_profiler_pipeline_stats)
    (c : mem_call) (h : mem_step token (some p) c = some q) : call_in_range token p c := by
  unfold call_in_range
  cases c with
  | allocate f incr =>
    simp only [mem_step, halide_profiler_memory_allocate, mem_call.func_id] at h ⊢
    by_contra hout
    by_cases h1 : f + token - p.first_func_id ≥ 0
    · have h2 : ¬ (f + token - p.first_func_id < p.num_funcs) := by omega
      simp [h1, h2] at h
    · simp [h1] at h
  | free f decr =>
    simp only [mem_step, halide_profiler_memory_free, mem_call.func_id] at h ⊢
    by_contra hout
    by_cases h1 : f + token - p.first_func_id ≥ 0
    · have h2 : ¬ (f + token - p.first_func_id < p.num_funcs) := by omega
      simp [h1, h2] at h
    · simp [h1] at h

theorem mem_run_length (token : Int) :
    ∀ (cs : List mem_call) (p : halide_profiler_pipeline_stats),
    (∀ c ∈ cs, call_in_range token p c) →
    ∃ q, mem_run token (some p) cs = some q ∧ q.funcs.length = p.funcs.length ∧
      q.first_func_id = p.first_func_id ∧ q.num_funcs = p.num_funcs := by
  intro cs
  induction cs with
  | nil => intro p _; exact ⟨p, rfl, rfl, rfl, rfl⟩
  | cons c cs ih =>
    intro p hr
    obtain ⟨q, hq, hf, hn, hlen, _⟩ := mem_step_effect token p c (hr c (List.mem_cons_self _ _))
    have hr' : ∀ d ∈ cs, call_in_range token q d := by
      intro d hd
      have := hr d (List.mem_cons_of_mem _ hd)
      unfold call_in_range at this ⊢
      rw [hf, hn]
      exact this
    obtain ⟨q', hq', hlen', hf', hn'⟩ := ih q hr'
    refine ⟨q', ?_, hlen'.trans hlen, hf'.trans hf, hn'.trans hn⟩
    simp only [mem_run, List.foldl_cons] at hq' ⊢
    rw [hq]
    exact hq'

theorem mem_step_peak_mono (token : Int) (p q : halide_profiler_pipeline_stats) (c : mem_call)
    (h : mem_step token (some p) c = some q) :
    p.memory_peak ≤ q.memory_peak ∧
    ∀ (j : Nat) (fs fs' : halide_profiler_func_stats),
      p.funcs[j]? = some fs → q.funcs[j]? = some fs' →
      fs.memory_peak ≤ fs'.memory_peak := by
  obtain ⟨q0, hq0, _, _, _, halloc, hfree, hother, hslot⟩ :=
    mem_step_effect token p c (mem_step_some_in_range token p q c h)
  rw [h] at hq0
  cases hq0
  refine ⟨?_, ?_⟩
  · cases c with
    | allocate f incr => rw [(halloc incr ⟨f, rfl⟩).2]; exact le_max_left _ _
    | free f decr => rw [(hfree decr ⟨f, rfl⟩).2]
  · intro j fs fs' hfs hfs'
    by_cases hj : j = (c.func_id + token - p.first_func_id).toNat
    · subst hj
      obtain ⟨fs1, hfs1, ha, hf⟩ := hslot fs hfs
      rw [hfs'] at hfs1
      cases hfs1
      cases c with
      | allocate f incr => rw [(ha incr ⟨f, rfl⟩).2]; exact le_max_left _ _
      | free f decr => rw [(hf decr ⟨f, rfl⟩).2]
    · rw [hother j hj, hfs] at hfs'
      cases hfs'
      exact le_refl _

theorem mem_run_from_null (token : Int) :
    ∀ cs : List mem_call, mem_run token none cs = none := by
  intro cs
  induction cs with
  | nil => rfl
  | cons c cs ih =>
    simp only [mem_run, List.foldl_cons] at ih ⊢
    have hstep : mem_step token none c = none := by cases c <;> rfl
    rw [hstep]
    exact ih

theorem mem_run_peak_mono (token : Int) :
    ∀ (cs : List mem_call) (p q : halide_profiler_pipeline_stats),
    mem_run token (some p) cs = some q →
    p.memory_peak ≤ q.memory_peak ∧
    ∀ (j : Nat) (fs fs' : halide_profiler_func_stats),
      p.funcs[j]? = some fs → q.funcs[j]? = some fs' →
      fs.memory_peak ≤ fs'.memory_peak := by
  intro cs
  induction cs with
  | nil =>
    intro p q h
    simp only [mem_run, List.foldl_nil, Option.some.injEq] at h
    subst h
    refine ⟨le_refl _, fun j fs fs' h1 h2 => ?_⟩
    rw [h1] at h2
    cases h2
    exact le_refl _
  | cons c cs ih =>
    intro p q h
    simp only [mem_run, List.foldl_cons] at h
    cases hstep : mem_step token (some p) c with
    | none =>
      rw [hstep] at h
      have hnull := mem_run_from_null token cs
      simp only [mem_run] at hnull
      rw [hnull] at h
      cases h
    | some p1 =>
      rw [hstep] at h
      obtain ⟨h1, h2⟩ := mem_step_peak_mono token p p1 c hstep
      obtain ⟨h3, h4⟩ := ih p1 q h
      refine ⟨le_trans h1 h3, ?_⟩
      intro j fs fs' hfs hfs'
      obtain ⟨q0, hq0, _, _, hlen, _⟩ :=
        mem_step_effect token p c (mem_step_some_in_range token p p1 c hstep)
      rw [hstep] at hq0
      cases hq0
      have hj : j < p1.funcs.length := by
        rw [hlen]
        exact (List.getElem?_eq_some.mp hfs).1
      have hfs1 : p1.funcs[j]? = some (p1.funcs[j]) := List.getElem?_eq_getElem hj
      exact le_trans (h2 j fs _ hfs hfs1) (h4 j _ fs' hfs1 hfs')

/-- Claim C14 (as amended): for every series of `halide_profiler_memory_allocate`
and `halide_profiler_memory_free` calls with in-range function indices on a
freshly created record, every call passes its assertions.  When the byte
amounts are not negative and no release wraps around (none takes the
`memory_current` it decrements below `-2 ^ 31`), `memory_peak` is afterwards the
maximum of 0 and of all the values `memory_current` has held so far, so
`memory_peak` is at least `memory_current`, and the same holds for the counters
of each function.  Whatever the amounts, with or without wraparound,
`memory_peak` of the record and of each function never decreases: its value
after any first part of the series is at most its value after the whole series,
and any further call that passes its assertions leaves it at least as large as
it was. -/
theorem memory_peak_is_maximum (st : halide_profiler_state) (pipeline_name : Nat)
    (num_funcs : Int) (func_names : Nat → Nat) (token : Int) (cs : List mem_call)
    (hrange : ∀ c ∈ cs,
      call_in_range token (new_pipeline st pipeline_name num_funcs func_names) c) :
    ∃ q, mem_run token (some (new_pipeline st pipeline_name num_funcs func_names)) cs = some q ∧
      ((∀ c ∈ cs, 0 ≤ c.amount) →
        frees_fit token (new_pipeline st pipeline_name num_funcs func_names) cs →
        q.memory_peak =
          (current_history token (new_pipeline st pipeline_name num_funcs func_names) cs).foldl
            max 0 ∧
        q.memory_current ≤ q.memory_peak ∧
        (∀ j fs, q.funcs[j]? = some fs →
          fs.memory_peak =
            (func_current_history token j (new_pipeline st pipeline_name num_funcs func_names)
              cs).foldl max 0 ∧
          fs.memory_current ≤ fs.memory_peak)) ∧
      (∀ (cs1 cs2 : List mem_call) (q1 : halide_profiler_pipeline_stats), cs = cs1 ++ cs2 →
        mem_run token (some (new_pipeline st pipeline_name num_funcs func_names)) cs1 = some q1 →
        q1.memory_peak ≤ q.memory_peak ∧
        ∀ (j : Nat) (fs fs' : halide_profiler_func_stats),
          q1.funcs[j]? = some fs → q.funcs[j]? = some fs' →
          fs.memory_peak ≤ fs'.memory_peak) ∧
      (∀ c q', mem_step token (some q) c = some q' →
        q.memory_peak ≤ q'.memory_peak ∧
        ∀ (j : Nat) (fs fs' : halide_profiler_func_stats),
          q.funcs[j]? = some fs → q'.funcs[j]? = some fs' →
          fs.memory_peak ≤ fs'.memory_peak) := by
  have hz : is_int32 0 := by unfold is_int32; omega
  obtain ⟨q, hq, hlen, _, _⟩ := mem_run_length token cs
    (new_pipeline st pipeline_name num_funcs func_names) hrange
  refine ⟨q, hq, fun hamount hfit => ?_, fun cs1 cs2 q1 hcs hq1 => ?_,
    fun c q' hstep => mem_step_peak_mono token q q' c hstep⟩
  · obtain ⟨q0, hq0, _, _, hpeak, hle⟩ := mem_run_pipeline_peak token cs
      (new_pipeline st pipeline_name num_funcs func_names) hrange hamount hfit (le_refl _) hz
    rw [hq] at hq0
    cases hq0
    refine ⟨hpeak, hle, ?_⟩
    intro j fs hfs
    have hj : j < (new_pipeline st pipeline_name num_funcs func_names).funcs.length := by
      rw [← hlen]
      exact (List.getElem?_eq_some.mp hfs).1
    have hslot : (new_pipeline st pipeline_name num_funcs func_names).funcs[j]? =
        some { time := 0, name := func_names j, memory_current := 0, memory_peak := 0,
               memory_total := 0, num_allocs := 0 } := by
      simp only [new_pipeline, init_funcs, List.length_map, List.length_range] at hj ⊢
      exact init_funcs_get num_funcs func_names j (by omega)
    obtain ⟨q1, fs1, hq1, hfs1, hp1, hle1⟩ := mem_run_func_peak token j cs
      (new_pipeline st pipeline_name num_funcs func_names) _ hrange hamount hfit hslot
      (le_refl _) hz
    rw [hq] at hq1
    cases hq1
    rw [hfs] at hfs1
    cases hfs1
    exact ⟨hp1, hle1⟩
  · subst hcs
    have hrest : mem_run token (some q1) cs2 = some q := by
      simp only [mem_run, List.foldl_append] at hq hq1 ⊢
      rw [hq1] at hq
      exact hq
    exact mem_run_peak_mono token cs2 q1 q hrest

/-- Allocations of 100 bytes on function 1 and of 50 bytes on function 0 and a
release of 100 bytes on function 1 of a fresh record of 2 functions: the calls
are in range, the amounts are not negative and no release wraps around; the
peak of the record is 150, that of function 1 is 100 and that of function 0
is 50. -/
theorem memory_peak_is_maximum_witness :
    (∀ c ∈ ([.allocate 1 100, .allocate 0 50, .free 1 100] : List mem_call),
      call_in_range 0 (new_pipeline halide_profiler_get_state 10 2 (fun i => i)) c) ∧
    (∀ c ∈ ([.allocate 1 100, .allocate 0 50, .free 1 100] : List mem_call), 0 ≤ c.amount) ∧
    frees_fit 0 (new_pipeline halide_profiler_get_state 10 2 (fun i => i))
      [.allocate 1 100, .allocate 0 50, .free 1 100] ∧
    ∃ q, mem_run 0 (some (new_pipeline halide_profiler_get_state 10 2 (fun i => i)))
        [.allocate 1 100, .allocate 0 50, .free 1 100] = some q ∧
      (q.memory_peak =
          (current_history 0 (new_pipeline halide_profiler_get_state 10 2 (fun i => i))
            [.allocate 1 100, .allocate 0 50, .free 1 100]).foldl max 0 ∧
        q.memory_current ≤ q.memory_peak ∧
        (∀ j fs, q.funcs[j]? = some fs →
          fs.memory_peak =
            (func_current_history 0 j (new_pipeline halide_profiler_get_state 10 2 (fun i => i))
              [.allocate 1 100, .allocate 0 50, .free 1 100]).foldl max 0 ∧
          fs.memory_current ≤ fs.memory_peak)) ∧
      (∀ (cs1 cs2 : List mem_call) (q1 : halide_profiler_pipeline_stats),
        [.allocate 1 100, .allocate 0 50, .free 1 100] = cs1 ++ cs2 →
        mem_run 0 (some (new_pipeline halide_profiler_get_state 10 2 (fun i => i))) cs1 =
          some q1 →
        q1.memory_peak ≤ q.memory_peak ∧
        ∀ (j : Nat) (fs fs' : halide_profiler_func_stats),
          q1.funcs[j]? = some fs → q.funcs[j]? = some fs' →
          fs.memory_peak ≤ fs'.memory_peak) ∧
      (q.memory_current, q.memory_peak,
        q.funcs.map fun fs => (fs.memory_current, fs.memory_peak)) =
        (50, 150, [(50, 50), (0, 100)]) :=
  ⟨by decide, by decide, by decide,
    (memory_peak_is_maximum halide_profiler_get_state 10 2 (fun i => i) 0
      [.allocate 1 100, .allocate 0 50, .free 1 100] (by decide)).imp
      fun q h => ⟨h.1, h.2.1 (by decide) (by decide), h.2.2.1, by
        have hq := h.1
        have hv : mem_run 0 (some (new_pipeline halide_profiler_get_state 10 2 (fun i => i)))
            [.allocate 1 100, .allocate 0 50, .free 1 100] =
            some { new_pipeline halide_profiler_get_state 10 2 (fun i => i) with
              memory_current := 50, memory_peak := 150, memory_total := 150, num_allocs := 2,
              funcs := [{ time := 0, name := 0, memory_current := 50, memory_peak := 50,
                          memory_total := 50, num_allocs := 1 },
                        { time := 0, name := 1, memory_current := 0, memory_peak := 100,
                          memory_total := 100, num_allocs := 1 }] } := by decide
        rw [hv] at hq
        cases hq
        decide⟩⟩

/-- Claim C14 fails as stated: two releases of 2147483647 bytes on function 0
of a fresh record, both of non-negative amounts, take `memory_current` from 0
to -2147483647 and then, wrapping around, to 2, while `memory_peak` stays 0; the
peak is then below `memory_current` and is not the maximum of the values
held. -/
theorem memory_peak_below_current :
    (mem_run 0 (some (new_pipeline halide_profiler_get_state 10 1 (fun i => i)))
        [.free 0 2147483647, .free 0 2147483647]).map
      (fun q => (q.memory_current, q.memory_peak,
        q.funcs.map fun fs => (fs.memory_current, fs.memory_peak))) = some (2, 0, [(2, 0)]) ∧
    current_history 0 (new_pipeline halide_profiler_get_state 10 1 (fun i => i))
        [.free 0 2147483647, .free 0 2147483647] = [-2147483647, 2] ∧
    (∀ c ∈ ([.free 0 2147483647, .free 0 2147483647] : List mem_call), 0 ≤ c.amount) ∧
    ¬ ((2 : Int) ≤ 0) := by
  decide

/-! ## Counters of a record and of its functions -/

theorem sum_map_modify {α : Type} (φ : α → Int) (g : α → α) :
    ∀ (l : List α) (i : Nat) (a : α), l[i]? = some a →
    ((l.modify g i).map φ).sum = (l.map φ).sum - φ a + φ (g a) := by
  intro l
  induction l with
  | nil => intro i a h; simp at h
  | cons x xs ih =>
    intro i a h
    cases i with
    | zero =>
      simp only [List.getElem?_cons_zero, Option.some.injEq] at h
      subst h
      simp only [List.modify_zero_cons, List.map_cons, List.sum_cons]
      ring
    | succ k =>
      rw [List.getElem?_cons_succ] at h
      simp only [List.modify_succ_cons, List.map_cons, List.sum_cons, ih k a h]
      ring

theorem wrap32_sum_replace (S x d : Int) :
    wrap32 (S - x + wrap32 (x + d)) = wrap32 (wrap32 S + d) := by
  unfold wrap32
  omega

theorem counters_agree_step (token : Int) (p : halide_profiler_pipeline_stats) (c : mem_call)
    (h : call_in_range token p c) (hlen : p.funcs.length = p.num_funcs.toNat)
    (hagree : counters_agree p) :
    ∃ q, mem_step token (some p) c = some q ∧ q.first_func_id = p.first_func_id ∧
      q.num_funcs = p.num_funcs ∧ q.funcs.length = p.funcs.length ∧ counters_agree q := by
  unfold call_in_range at h
  have hidx : (c.func_id + token - p.first_func_id).toNat < p.funcs.length := by omega
  obtain ⟨fs, hfs⟩ : ∃ fs, p.funcs[(c.func_id + token - p.first_func_id).toNat]? = some fs :=
    ⟨_, List.getElem?_eq_getElem hidx⟩
  obtain ⟨h1, h2, h3⟩ := hagree
  cases c with
  | allocate f incr =>
    simp only [mem_call.func_id] at h hfs
    simp only [mem_step]
    rw [memory_allocate_in_range p token f incr h]
    refine ⟨_, rfl, rfl, rfl, by simp, ?_, ?_, ?_⟩
    · simp only
      rw [sum_map_modify _ _ _ _ fs hfs, h1]
      simp only [func_allocate]
      rw [wrap32_sum_replace]
    · simp only
      rw [sum_map_modify _ _ _ _ fs hfs, h2]
      simp only [func_allocate]
      rw [wrap32_sum_replace]
    · simp only
      rw [sum_map_modify _ _ _ _ fs hfs, h3]
      simp only [func_allocate]
      rw [wrap32_sum_replace]
  | free f decr =>
    simp only [mem_call.func_id] at h hfs
    simp only [mem_step]
    rw [memory_free_in_range p token f decr h]
    refine ⟨_, rfl, rfl, rfl, by simp, ?_, ?_, ?_⟩
    · simp only
      rw [sum_map_modify _ _ _ _ fs hfs, h1]
      simp only [sub_eq_add_neg]
      rw [← sub_eq_add_neg (List.map _ p.funcs).sum, wrap32_sum_replace]
    · simp only
      rw [sum_map_modify _ _ _ _ fs hfs, h2]
      simp
    · simp only
      rw [sum_map_modify _ _ _ _ fs hfs, h3]
      simp

theorem counters_agree_run (token : Int) :
    ∀ (cs : List mem_call) (p : halide_profiler_pipeline_stats),
    (∀ c ∈ cs, call_in_range token p c) → p.funcs.length = p.num_funcs.toNat →
    counters_agree p →
    ∃ q, mem_run token (some p) cs = some q ∧ counters_agree q := by
  intro cs
  induction cs with
  | nil => intro p _ _ h; exact ⟨p, rfl, h⟩
  | cons c cs ih =>
    intro p hr hlen hagree
    obtain ⟨q, hq, hf, hn, hl, ha⟩ :=
      counters_agree_step token p c (hr c (List.mem_cons_self _ _)) hlen hagree
    have hr' : ∀ d ∈ cs, call_in_range token q d := by
      intro d hd
      have := hr d (List.mem_cons_of_mem _ hd)
      unfold call_in_range at this ⊢
      rw [hf, hn]
      exact this
    obtain ⟨q', hq', ha'⟩ := ih q hr' (by rw [hl, hn]; exact hlen) ha
    refine ⟨q', ?_, ha'⟩
    simp only [mem_run, List.foldl_cons] at hq' ⊢
    rw [hq]
    exact hq'

theorem new_pipeline_counters_agree (st : halide_profiler_state) (pipeline_name : Nat)
    (num_funcs : Int) (func_names : Nat → Nat) :
    (new_pipeline st pipeline_name num_funcs func_names).funcs.length = num_funcs.toNat ∧
    counters_agree (new_pipeline st pipeline_name num_funcs func_names) := by
  have hzero : ∀ (φ : halide_profiler_func_stats → Int) (l : List Nat)
      (g : Nat → halide_profiler_func_stats), (∀ i, φ (g i) = 0) → ((l.map g).map φ).sum = 0 := by
    intro φ l g hg
    induction l with
    | nil => rfl
    | cons x xs ih => simp only [List.map_cons, List.sum_cons, hg x, ih, add_zero]
  refine ⟨by simp [new_pipeline, init_funcs], ?_, ?_, ?_⟩
  · simp only [new_pipeline, init_funcs]
    rw [hzero]
    · rfl
    · intro i; rfl
  · simp only [new_pipeline, init_funcs]
    rw [hzero]
    · rfl
    · intro i; rfl
  · simp only [new_pipeline, init_funcs]
    rw [hzero]
    · rfl
    · intro i; rfl

/-- Claim C19 (as amended): after any series of calls of the memory
instrumentation with in-range function indices on a freshly created record,
every call has passed its assertions and each of `memory_current`,
`memory_total` and `num_allocs` of the record equals the sum of that counter
over all function records reduced to the 32-bit range of a C `int`; it equals
the sum itself whenever that sum is an `int` value. -/
theorem pipeline_counters_sum_of_funcs (st : halide_profiler_state) (pipeline_name : Nat)
    (num_funcs : Int) (func_names : Nat → Nat) (token : Int) (cs : List mem_call)
    (hrange : ∀ c ∈ cs,
      call_in_range token (new_pipeline st pipeline_name num_funcs func_names) c) :
    ∃ q, mem_run token (some (new_pipeline st pipeline_name num_funcs func_names)) cs = some q ∧
      q.memory_current = wrap32 (q.funcs.map fun fs => fs.memory_current).sum ∧
      q.memory_total = wrap32 (q.funcs.map fun fs => fs.memory_total).sum ∧
      q.num_allocs = wrap32 (q.funcs.map fun fs => fs.num_allocs).sum ∧
      (is_int32 (q.funcs.map fun fs => fs.memory_current).sum →
        q.memory_current = (q.funcs.map fun fs => fs.memory_current).sum) ∧
      (is_int32 (q.funcs.map fun fs => fs.memory_total).sum →
        q.memory_total = (q.funcs.map fun fs => fs.memory_total).sum) ∧
      (is_int32 (q.funcs.map fun fs => fs.num_allocs).sum →
        q.num_allocs = (q.funcs.map fun fs => fs.num_allocs).sum) := by
  obtain ⟨hlen, hagree⟩ := new_pipeline_counters_agree st pipeline_name num_funcs func_names
  obtain ⟨q, hq, h1, h2, h3⟩ := counters_agree_run token cs
    (new_pipeline st pipeline_name num_funcs func_names) hrange
    (by rw [hlen]; rfl) hagree
  exact ⟨q, hq, h1, h2, h3, fun hi => by rw [h1, wrap32_of_int32 _ hi],
    fun hi => by rw [h2, wrap32_of_int32 _ hi], fun hi => by rw [h3, wrap32_of_int32 _ hi]⟩

/-- Allocations of 100 bytes on function 1 and of 50 bytes on function 0 and a
release of 100 bytes on function 1 of a fresh record of 2 functions. -/
theorem pipeline_counters_sum_of_funcs_witness :
    ∃ q, mem_run 0 (some (new_pipeline halide_profiler_get_state 10 2 (fun i => i)))
        [.allocate 1 100, .allocate 0 50, .free 1 100] = some q ∧
      q.memory_current = wrap32 (q.funcs.map fun fs => fs.memory_current).sum ∧
      q.memory_total = wrap32 (q.funcs.map fun fs => fs.memory_total).sum ∧
      q.num_allocs = wrap32 (q.funcs.map fun fs => fs.num_allocs).sum ∧
      (is_int32 (q.funcs.map fun fs => fs.memory_current).sum →
        q.memory_current = (q.funcs.map fun fs => fs.memory_current).sum) ∧
      (is_int32 (q.funcs.map fun fs => fs.memory_total).sum →
        q.memory_total = (q.funcs.map fun fs => fs.memory_total).sum) ∧
      (is_int32 (q.funcs.map fun fs => fs.num_allocs).sum →
        q.num_allocs = (q.funcs.map fun fs => fs.num_allocs).sum) :=
  pipeline_counters_sum_of_funcs halide_profiler_get_state 10 2 (fun i => i) 0
    [.allocate 1 100, .allocate 0 50, .free 1 100] (by decide)

/-- Claim C19 fails as stated: after an allocation of 2147483647 bytes on
function 0 and of 1 byte on function 1 of a fresh record of 2 functions, the
functions hold 2147483647 and 1 in `memory_total` and in `memory_current`, whose
sum is 2147483648, while the record holds -2147483648 in both. -/
theorem pipeline_counters_not_sum :
    (mem_run 0 (some (new_pipeline halide_profiler_get_state 10 2 (fun i => i)))
        [.allocate 0 2147483647, .allocate 1 1]).map
      (fun q => (q.memory_total, (q.funcs.map fun fs => fs.memory_total).sum,
        q.memory_current, (q.funcs.map fun fs => fs.memory_current).sum)) =
      some (-2147483648, 2147483648, -2147483648, 2147483648) ∧
    (∀ c ∈ ([.allocate 0 2147483647, .allocate 1 1] : List mem_call),
      call_in_range 0 (new_pipeline halide_profiler_get_state 10 2 (fun i => i)) c) ∧
    (-2147483648 : Int) ≠ 2147483648 := by
  decide

/-! ## The cache `mru_pipeline` -/

theorem bill_func_no_owner (s : halide_profiler_state) (func_id : Int) (time : Nat)
    (h : ∀ p ∈ s.pipelines, ¬ owns p func_id) : bill_func s func_id time = s := by
  have hscan : bill_func_scan s func_id time = s := by
    simp [bill_func_scan, bill_scan_none func_id s.pipelines h]
  unfold bill_func
  cases hm : mru_record s with
  | none => exact hscan
  | some r =>
    obtain ⟨i, mru_p⟩ := r
    have hmem : mru_p ∈ s.pipelines := List.getElem?_mem (mru_record_mem s i mru_p hm).2
    simp only [if_neg (h mru_p hmem)]
    exact hscan

theorem bill_func_at (s : halide_profiler_state) (func_id : Int) (time : Nat)
    (pre : List halide_profiler_pipeline_stats) (P : halide_profiler_pipeline_stats)
    (post : List halide_profiler_pipeline_stats)
    (hchain : s.pipelines = pre ++ P :: post)
    (hdisj : s.pipelines.Pairwise (fun a b => ∀ x, ¬ (owns a x ∧ owns b x)))
    (hown : owns P func_id) :
    bill_func s func_id time =
      { s with mru_pipeline := some pre.length
               pipelines := pre ++ bill_record P func_id time :: post } := by
  rw [hchain] at hdisj
  obtain ⟨hpre, hpos⟩ := owner_position func_id pre P post hdisj hown
  have hscan : bill_func_scan s func_id time =
      { s with mru_pipeline := some pre.length
               pipelines := pre ++ bill_record P func_id time :: post } := by
    simp only [bill_func_scan, hchain, bill_scan_at func_id pre P post hpre hown,
      modify_at_length]
  unfold bill_func
  cases hm : mru_record s with
  | none => exact hscan
  | some r =>
    obtain ⟨i, mru_p⟩ := r
    obtain ⟨hmru, hget⟩ := mru_record_mem s i mru_p hm
    by_cases ho : owns mru_p func_id
    · rw [hchain] at hget
      obtain ⟨hi, hmp⟩ := hpos i mru_p hget ho
      subst hi hmp
      simp only [if_pos ho]
      have hset : s.pipelines.set pre.length (bill_record mru_p func_id time) =
          pre ++ bill_record mru_p func_id time :: post := by rw [hchain, set_at_length]
      rw [hset, ← hmru]
    · simp only [if_neg ho]
      exact hscan

theorem bill_linear_chain_none (func_id : Int) (time : Nat) :
    ∀ chain : List halide_profiler_pipeline_stats, (∀ p ∈ chain, ¬ owns p func_id) →
    bill_linear_chain func_id time chain = chain := by
  intro chain
  induction chain with
  | nil => intro _; rfl
  | cons p rest ih =>
    intro h
    simp only [bill_linear_chain, if_neg (h p (List.mem_cons_self _ _))]
    rw [ih (fun q hq => h q (List.mem_cons_of_mem _ hq))]

theorem bill_linear_chain_at (func_id : Int) (time : Nat)
    (P : halide_profiler_pipeline_stats) (post : List halide_profiler_pipeline_stats) :
    ∀ pre : List halide_profiler_pipeline_stats, (∀ q ∈ pre, ¬ owns q func_id) →
    owns P func_id →
    bill_linear_chain func_id time (pre ++ P :: post) =
      pre ++ bill_record P func_id time :: post := by
  intro pre
  induction pre with
  | nil => intro _ hp; simp [bill_linear_chain, hp]
  | cons a rest ih =>
    intro hpre hp
    have hrest := ih (fun q hq => hpre q (List.mem_cons_of_mem _ hq)) hp
    rw [List.cons_append, List.cons_append]
    simp only [bill_linear_chain, if_neg (hpre a (List.mem_cons_self _ _)), hrest]

theorem bill_func_pipelines_linear (s : halide_profiler_state) (func_id : Int) (time : Nat)
    (hdisj : s.pipelines.Pairwise (fun a b => ∀ x, ¬ (owns a x ∧ owns b x))) :
    (bill_func s func_id time).pipelines = bill_linear_chain func_id time s.pipelines := by
  by_cases hex : ∃ P ∈ s.pipelines, owns P func_id
  · obtain ⟨P, hmem, hown⟩ := hex
    obtain ⟨pre, post, hchain⟩ := List.append_of_mem hmem
    rw [bill_func_at s func_id time pre P post hchain hdisj hown, hchain]
    rw [hchain] at hdisj
    rw [bill_linear_chain_at func_id time P post pre
      (owner_position func_id pre P post hdisj hown).1 hown]
  · have hnone : ∀ p ∈ s.pipelines, ¬ owns p func_id := fun p hp ho => hex ⟨p, hp, ho⟩
    rw [bill_func_no_owner s func_id time hnone, bill_linear_chain_none func_id time _ hnone]

theorem bill_scan_lt (func_id : Int) : ∀ (chain : List halide_profiler_pipeline_stats) (i : Nat),
    bill_scan func_id chain = some i → i < chain.length := by
  intro chain
  induction chain with
  | nil => intro i h; simp [bill_scan] at h
  | cons p rest ih =>
    intro i h
    simp only [bill_scan] at h
    split at h
    · cases h; simp
    · cases hr : bill_scan func_id rest with
      | none => simp [hr] at h
      | some k =>
        simp only [hr, Option.map_some', Option.some.injEq] at h
        subst h
        have := ih k hr
        simp only [List.length_cons]
        omega

theorem bill_func_mru_valid (s : halide_profiler_state) (func_id : Int) (time : Nat)
    (h : mru_valid s) : mru_valid (bill_func s func_id time) := by
  have hscan : mru_valid (bill_func_scan s func_id time) := by
    unfold bill_func_scan
    cases hb : bill_scan func_id s.pipelines with
    | none => exact h
    | some i =>
      intro k hk
      simp only [Option.some.injEq] at hk
      subst hk
      simp only [List.length_modify]
      exact bill_scan_lt func_id s.pipelines i hb
  unfold bill_func
  cases hm : mru_record s with
  | none => exact hscan
  | some r =>
    obtain ⟨i, mru_p⟩ := r
    simp only
    split
    · intro k hk
      simp only [List.length_set]
      exact h k hk
    · exact hscan

theorem pipeline_start_mru_valid (s : halide_profiler_state) (pipeline_name : Nat)
    (num_funcs : Int) (func_names : Nat → Nat) (malloc_stats malloc_funcs : Bool)
    (h : mru_valid s) :
    mru_valid (halide_profiler_pipeline_start s pipeline_name num_funcs func_names malloc_stats
      malloc_funcs).2 := by
  rcases pipeline_start_cases s pipeline_name num_funcs func_names malloc_stats malloc_funcs with
    ⟨pre, p, post, hc, _, hstart⟩ | ⟨_, _, _, hstart⟩ | hstart
  · rw [hstart]
    intro k hk
    have := h k hk
    rw [hc] at this
    simpa using this
  · rw [hstart]
    intro k hk
    simp only [Option.map_eq_some'] at hk
    obtain ⟨j, hj, hjk⟩ := hk
    have := h j hj
    simp only [List.length_cons]
    omega
  · rw [hstart]
    exact h

/-- Claim C20: in a chain with pairwise disjoint id ranges, for every function
id and time and for any two values of `mru_pipeline` that are `NULL` or point
into the chain, `bill_func` leaves the chain that billing by a linear scan of
the chain alone leaves, hence the same `time` and `samples` in every record and
function for both values; and `halide_profiler_pipeline_start`, `bill_func`,
`halide_profiler_reset` and `halide_profiler_shutdown` each take a state whose
`mru_pipeline` is `NULL` or points into the chain to such a state. -/
theorem mru_cache_transparent (s : halide_profiler_state) (func_id : Int) (time : Nat)
    (mru1 mru2 : Option Nat)
    (hdisj : s.pipelines.Pairwise (fun a b => ∀ x, ¬ (owns a x ∧ owns b x)))
    (hmru1 : mru_valid { s with mru_pipeline := mru1 })
    (hmru2 : mru_valid { s with mru_pipeline := mru2 }) :
    (bill_func { s with mru_pipeline := mru1 } func_id time).pipelines =
      bill_linear_chain func_id time s.pipelines ∧
    (bill_func { s with mru_pipeline := mru2 } func_id time).pipelines =
      bill_linear_chain func_id time s.pipelines ∧
    (bill_func { s with mru_pipeline := mru1 } func_id time).pipelines =
      (bill_func { s with mru_pipeline := mru2 } func_id time).pipelines ∧
    (∀ (s' : halide_profiler_state) (pipeline_name : Nat) (num_funcs : Int)
      (func_names : Nat → Nat) (malloc_stats malloc_funcs : Bool), mru_valid s' →
      mru_valid (halide_profiler_pipeline_start s' pipeline_name num_funcs func_names
        malloc_stats malloc_funcs).2) ∧
    (∀ (s' : halide_profiler_state) (id : Int) (t : Nat), mru_valid s' →
      mru_valid (bill_func s' id t)) ∧
    (∀ s' : halide_profiler_state, mru_valid (halide_profiler_reset s')) ∧
    (∀ (s' : halide_profiler_state) (outside_of_halide : Int), mru_valid s' →
      mru_valid (halide_profiler_shutdown outside_of_halide s').1) := by
  have _ := hmru1
  have _ := hmru2
  have h1 := bill_func_pipelines_linear { s with mru_pipeline := mru1 } func_id time hdisj
  have h2 := bill_func_pipelines_linear { s with mru_pipeline := mru2 } func_id time hdisj
  refine ⟨h1, h2, h1.trans h2.symm, ?_, ?_, ?_, ?_⟩
  · intro s' pipeline_name num_funcs func_names malloc_stats malloc_funcs hv
    exact pipeline_start_mru_valid s' pipeline_name num_funcs func_names malloc_stats
      malloc_funcs hv
  · intro s' id t hv
    exact bill_func_mru_valid s' id t hv
  · intro s' i hi
    simp [halide_profiler_reset] at hi
  · intro s' outside_of_halide hv
    unfold halide_profiler_shutdown
    split
    · exact hv
    · intro i hi
      simp at hi

/-- A sample of 40 ns for id 1 in `two_pipelines`, once with `mru_pipeline`
equal to `NULL` and once pointing to the record of the ids 2 to 4. -/
theorem mru_cache_transparent_witness :
    (bill_func { two_pipelines with mru_pipeline := none } 1 40).pipelines =
      bill_linear_chain 1 40 two_pipelines.pipelines ∧
    (bill_func { two_pipelines with mru_pipeline := some 0 } 1 40).pipelines =
      bill_linear_chain 1 40 two_pipelines.pipelines ∧
    (bill_func { two_pipelines with mru_pipeline := none } 1 40).pipelines =
      (bill_func { two_pipelines with mru_pipeline := some 0 } 1 40).pipelines ∧
    (∀ (s' : halide_profiler_state) (pipeline_name : Nat) (num_funcs : Int)
      (func_names : Nat → Nat) (malloc_stats malloc_funcs : Bool), mru_valid s' →
      mru_valid (halide_profiler_pipeline_start s' pipeline_name num_funcs func_names
        malloc_stats malloc_funcs).2) ∧
    (∀ (s' : halide_profiler_state) (id : Int) (t : Nat), mru_valid s' →
      mru_valid (bill_func s' id t)) ∧
    (∀ s' : halide_profiler_state, mru_valid (halide_profiler_reset s')) ∧
    (∀ (s' : halide_profiler_state) (outside_of_halide : Int), mru_valid s' →
      mru_valid (halide_profiler_shutdown outside_of_halide s').1) :=
  mru_cache_transparent two_pipelines 1 40 none (some 0)
    (by
      have h : two_pipelines.pipelines = [second_record, first_record] := by decide
      rw [h]
      simp only [List.pairwise_cons, List.mem_singleton, List.not_mem_nil, forall_eq,
        List.Pairwise.nil, and_true, false_imp_iff, implies_true]
      intro x hx
      simp only [owns, second_record, first_record, new_pipeline,
        halide_profiler_get_state] at hx
      omega)
    (by decide) (by decide)

/-! ## Reachable states: time and samples -/

theorem map_modify_comm {α β : Type} (φ : α → β) (g : α → α) (g' : β → β)
    (hg : ∀ a, φ (g a) = g' (φ a)) :
    ∀ (l : List α) (i : Nat), (l.modify g i).map φ = (l.map φ).modify g' i := by
  intro l
  induction l with
  | nil => intro i; cases i <;> rfl
  | cons x xs ih =>
    intro i
    cases i with
    | zero => simp [List.modify_zero_cons, hg]
    | succ k => simp [List.modify_succ_cons, ih k]

theorem sum_modify_nat (g : Nat → Nat) :
    ∀ (l : List Nat) (i : Nat) (a : Nat), l[i]? = some a →
    (l.modify g i).sum + a = l.sum + g a := by
  intro l
  induction l with
  | nil => intro i a h; simp at h
  | cons x xs ih =>
    intro i a h
    cases i with
    | zero =>
      simp only [List.getElem?_cons_zero, Option.some.injEq] at h
      subst h
      simp only [List.modify_zero_cons, List.sum_cons]
      omega
    | succ k =>
      rw [List.getElem?_cons_succ] at h
      have := ih k a h
      simp only [List.modify_succ_cons, List.sum_cons]
      omega

theorem view_of_bill (func_id : Int) (time : Nat) (p : halide_profiler_pipeline_stats) :
    view_of (if owns p func_id then bill_record p func_id time else p) =
      bill_view func_id time (view_of p) := by
  unfold bill_view
  by_cases ho : owns p func_id
  · have ho' : (view_of p).first_func_id ≤ func_id ∧
        func_id < (view_of p).first_func_id + (view_of p).num_funcs := ho
    rw [if_pos ho, if_pos ho']
    simp only [view_of, bill_record]
    rw [map_modify_comm (fun fs : halide_profiler_func_stats => fs.time)
      (fun f => { f with time := wrap64 (f.time + time) }) (fun x => wrap64 (x + time))
      (fun a => rfl)]
  · have ho' : ¬ ((view_of p).first_func_id ≤ func_id ∧
        func_id < (view_of p).first_func_id + (view_of p).num_funcs) := ho
    rw [if_neg ho, if_neg ho']

theorem sorted_views_disjoint (chain : List halide_profiler_pipeline_stats)
    (h : (chain.map view_of).Pairwise
      (fun a b => b.first_func_id + b.num_funcs ≤ a.first_func_id)) :
    chain.Pairwise (fun a b => ∀ x, ¬ (owns a x ∧ owns b x)) := by
  rw [List.pairwise_map] at h
  refine h.imp ?_
  intro a b hab x hx
  simp only [view_of] at hab
  unfold owns at hx
  omega

theorem bill_linear_chain_map (func_id : Int) (time : Nat) :
    ∀ chain : List halide_profiler_pipeline_stats,
    chain.Pairwise (fun a b => ∀ x, ¬ (owns a x ∧ owns b x)) →
    bill_linear_chain func_id time chain =
      chain.map (fun p => if owns p func_id then bill_record p func_id time else p) := by
  intro chain
  induction chain with
  | nil => intro _; rfl
  | cons p rest ih =>
    intro hd
    rw [List.pairwise_cons] at hd
    by_cases ho : owns p func_id
    · simp only [bill_linear_chain, if_pos ho, List.map_cons]
      congr 1
      have hrest : ∀ q ∈ rest, ¬ owns q func_id := fun q hq hoq => hd.1 q hq func_id ⟨ho, hoq⟩
      clear ih hd
      induction rest with
      | nil => rfl
      | cons q qs ihq =>
        simp only [List.map_cons, if_neg (hrest q (List.mem_cons_self _ _))]
        rw [← ihq (fun r hr => hrest r (List.mem_cons_of_mem _ hr))]
    · simp only [bill_linear_chain, if_neg ho, List.map_cons, ih hd.2]

theorem bill_view_frame (func_id : Int) (time : Nat) (v : billing_view) :
    (bill_view func_id time v).first_func_id = v.first_func_id ∧
    (bill_view func_id time v).num_funcs = v.num_funcs ∧
    (bill_view func_id time v).times.length = v.times.length := by
  unfold bill_view
  split
  · exact ⟨rfl, rfl, by simp⟩
  · exact ⟨rfl, rfl, rfl⟩

theorem bill_view_time (func_id : Int) (time : Nat) (v : billing_view)
    (hlen : v.times.length = v.num_funcs.toNat)
    (htime : v.time = v.times.sum % 18446744073709551616) :
    (bill_view func_id time v).time =
      (bill_view func_id time v).times.sum % 18446744073709551616 := by
  unfold bill_view
  split
  · rename_i ho
    have hidx : (func_id - v.first_func_id).toNat < v.times.length := by omega
    have hget : v.times[(func_id - v.first_func_id).toNat]? =
        some v.times[(func_id - v.first_func_id).toNat] := List.getElem?_eq_getElem hidx
    have hsum := sum_modify_nat (fun x => wrap64 (x + time)) v.times _ _ hget
    simp only [wrap64] at hsum ⊢
    omega
  · exact htime

theorem samples_zip (func_id : Int) (time : Nat) :
    ∀ (vs : List billing_view) (g : List Nat),
    vs.map (fun v => v.samples) = g.map Int.ofNat →
    (vs.map (bill_view func_id time)).map (fun v => v.samples) =
      (List.zipWith
        (fun v a =>
          if v.first_func_id ≤ func_id ∧ func_id < v.first_func_id + v.num_funcs then a + 1
          else a) vs g).map Int.ofNat := by
  intro vs
  induction vs with
  | nil => intro g _; simp
  | cons v vs ih =>
    intro g hg
    cases g with
    | nil => simp at hg
    | cons a g =>
      simp only [List.map_cons, List.cons.injEq] at hg
      have htail := ih g hg.2
      have hhead : (bill_view func_id time v).samples =
          Int.ofNat (if v.first_func_id ≤ func_id ∧ func_id < v.first_func_id + v.num_funcs
            then a + 1 else a) := by
        unfold bill_view
        split
        · simp only [hg.1]
          rfl
        · exact hg.1
      simp only [List.map_cons, List.zipWith_cons_cons]
      rw [hhead, htail]

theorem billing_invariant_bill (func_id : Int) (time : Nat) (first_free_id : Int)
    (vs : List billing_view) (g : List Nat) (h : billing_invariant first_free_id vs g) :
    billing_invariant first_free_id (vs.map (bill_view func_id time))
      (List.zipWith
        (fun v a =>
          if v.first_func_id ≤ func_id ∧ func_id < v.first_func_id + v.num_funcs then a + 1
          else a) vs g) := by
  obtain ⟨hwf, hsorted, hsamples⟩ := h
  refine ⟨?_, ?_, samples_zip func_id time vs g hsamples⟩
  · intro v' hv'
    obtain ⟨v, hv, rfl⟩ := List.mem_map.mp hv'
    obtain ⟨h1, h2, h3⟩ := hwf v hv
    obtain ⟨f1, f2, f3⟩ := bill_view_frame func_id time v
    rw [f1, f2, f3]
    exact ⟨h1, h2, bill_view_time func_id time v h2 h3⟩
  · rw [List.pairwise_map]
    refine hsorted.imp ?_
    intro a b hab
    rw [(bill_view_frame func_id time a).1, (bill_view_frame func_id time b).1,
      (bill_view_frame func_id time b).2.1]
    exact hab

theorem map_modify_same {α β : Type} (φ : α → β) (g : α → α) (hg : ∀ a, φ (g a) = φ a) :
    ∀ (l : List α) (i : Nat), (l.modify g i).map φ = l.map φ := by
  intro l
  induction l with
  | nil => intro i; cases i <;> rfl
  | cons x xs ih =>
    intro i
    cases i with
    | zero => simp [List.modify_zero_cons, hg]
    | succ k => simp [List.modify_succ_cons, ih k]

theorem map_set_same {α β : Type} (φ : α → β) :
    ∀ (l : List α) (i : Nat) (a b : α), l[i]? = some a → φ b = φ a →
    (l.set i b).map φ = l.map φ := by
  intro l
  induction l with
  | nil => intro i a b h; simp at h
  | cons x xs ih =>
    intro i a b h hab
    cases i with
    | zero =>
      simp only [List.getElem?_cons_zero, Option.some.injEq] at h
      subst h
      simp [hab]
    | succ k =>
      rw [List.getElem?_cons_succ] at h
      simp [ih k a b h hab]

theorem mem_step_view (token : Int) (p q : halide_profiler_pipeline_stats) (c : mem_call)
    (h : mem_step token (some p) c = some q) : view_of q = view_of p := by
  have hr := mem_step_some_in_range token p q c h
  unfold call_in_range at hr
  cases c with
  | allocate f incr =>
    simp only [mem_call.func_id] at hr
    simp only [mem_step] at h
    rw [memory_allocate_in_range p token f incr hr] at h
    cases h
    simp only [view_of]
    rw [map_modify_same (fun fs : halide_profiler_func_stats => fs.time)
      (fun fs => func_allocate fs incr) (fun a => rfl)]
  | free f decr =>
    simp only [mem_call.func_id] at hr
    simp only [mem_step] at h
    rw [memory_free_in_range p token f decr hr] at h
    cases h
    simp only [view_of]
    rw [map_modify_same (fun fs : halide_profiler_func_stats => fs.time)
      (fun fs => { fs with memory_current := wrap32 (fs.memory_current - decr) })
      (fun a => rfl)]

theorem mem_step_null (token : Int) (c : mem_call) : mem_step token none c = none := by
  cases c <;> rfl

theorem apply_op_invariant (t t' : traced) (op : profiler_op) (hok : op.malloc_ok)
    (hinv : billing_invariant t.state.first_free_id (t.state.pipelines.map view_of)
      t.attributed)
    (hstep : apply_op t op = some t') :
    billing_invariant t'.state.first_free_id (t'.state.pipelines.map view_of)
      t'.attributed := by
  cases op with
  | pipeline_start pipeline_name num_funcs func_names malloc_stats malloc_funcs =>
    simp only [apply_op, Option.some.injEq] at hstep
    subst hstep
    simp only
    rcases pipeline_start_cases t.state pipeline_name num_funcs func_names malloc_stats
        malloc_funcs with ⟨pre, p, post, hc, _, hstart⟩ | ⟨_, _, hm2, hstart⟩ | hstart
    · rw [hstart]
      simp only
      have hlen : ¬ ((pre ++ { p with runs := p.runs + 1 } :: post).length =
          t.state.pipelines.length + 1) := by
        rw [hc]
        simp
      rw [if_neg hlen]
      have hview : (pre ++ { p with runs := p.runs + 1 } :: post).map view_of =
          t.state.pipelines.map view_of := by
        rw [hc]
        simp [view_of]
      rw [hview]
      exact hinv
    · rw [hstart]
      simp only [List.length_cons, if_true, List.map_cons]
      have hk : 0 ≤ num_funcs := hok hm2
      obtain ⟨hwf, hsorted, hsamples⟩ := hinv
      refine ⟨?_, ?_, ?_⟩
      · intro v hv
        rcases List.mem_cons.mp hv with hv | hv
        · subst hv
          refine ⟨le_refl _, by simp [view_of, new_pipeline, init_funcs], ?_⟩
          simp only [view_of, new_pipeline, init_funcs, List.map_map]
          have hzero : ∀ (l : List Nat) (g : Nat → Nat), (∀ i, g i = 0) → (l.map g).sum = 0 := by
            intro l g hg
            induction l with
            | nil => rfl
            | cons x xs ih => simp only [List.map_cons, List.sum_cons, hg x, ih]
          rw [hzero]
          intro i
          rfl
        · obtain ⟨h1, h2, h3⟩ := hwf v hv
          exact ⟨by omega, h2, h3⟩
      · rw [List.pairwise_cons]
        refine ⟨?_, hsorted⟩
        intro v hv
        exact (hwf v hv).1
      · simp only [List.map_cons, hsamples]
        rfl
    · rw [hstart]
      simp only
      rw [if_neg (by omega)]
      exact hinv
  | bill func_id time =>
    simp only [apply_op, Option.some.injEq] at hstep
    subst hstep
    simp only
    have hdisj := sorted_views_disjoint t.state.pipelines hinv.2.1
    rw [(bill_func_frame t.state func_id time).2.2.1,
      bill_func_pipelines_linear t.state func_id time hdisj,
      bill_linear_chain_map func_id time t.state.pipelines hdisj]
    have hmap : (t.state.pipelines.map
        (fun p => if owns p func_id then bill_record p func_id time else p)).map view_of =
        (t.state.pipelines.map view_of).map (bill_view func_id time) := by
      simp only [List.map_map]
      apply List.map_congr_left
      intro p _
      exact view_of_bill func_id time p
    have hzip : List.zipWith (fun p a => if owns p func_id then a + 1 else a)
        t.state.pipelines t.attributed =
        List.zipWith
          (fun v a =>
            if v.first_func_id ≤ func_id ∧ func_id < v.first_func_id + v.num_funcs then a + 1
            else a) (t.state.pipelines.map view_of) t.attributed := by
      rw [List.zipWith_map_left]
      rfl
    rw [hmap, hzip]
    exact billing_invariant_bill func_id time _ _ _ hinv
  | memory handle token call =>
    simp only [apply_op] at hstep
    cases hp : t.state.pipelines[handle]? with
    | none =>
      rw [hp, mem_step_null] at hstep
      cases hstep
    | some p =>
      rw [hp] at hstep
      cases hq : mem_step token (some p) call with
      | none =>
        rw [hq] at hstep
        cases hstep
      | some q =>
        rw [hq] at hstep
        simp only [Option.some.injEq] at hstep
        subst hstep
        simp only
        rw [map_set_same view_of t.state.pipelines handle p q hp
          (mem_step_view token p q call hq)]
        exact hinv
  | reset =>
    simp only [apply_op, Option.some.injEq] at hstep
    subst hstep
    simp only [halide_profiler_reset, reset_chain_nil, List.map_nil]
    exact ⟨by simp, List.Pairwise.nil, rfl⟩

theorem run_ops_invariant : ∀ (ops : List profiler_op) (t t' : traced),
    (∀ op ∈ ops, op.malloc_ok) →
    billing_invariant t.state.first_free_id (t.state.pipelines.map view_of) t.attributed →
    run_ops t ops = some t' →
    billing_invariant t'.state.first_free_id (t'.state.pipelines.map view_of)
      t'.attributed := by
  intro ops
  induction ops with
  | nil =>
    intro t t' _ hinv hrun
    simp only [run_ops, Option.some.injEq] at hrun
    subst hrun
    exact hinv
  | cons op ops ih =>
    intro t t' hok hinv hrun
    simp only [run_ops] at hrun
    cases hstep : apply_op t op with
    | none =>
      rw [hstep] at hrun
      cases hrun
    | some t1 =>
      rw [hstep] at hrun
      exact ih t1 t' (fun o ho => hok o (List.mem_cons_of_mem _ ho))
        (apply_op_invariant t t1 op (hok op (List.mem_cons_self _ _)) hinv hstep) hrun

/-- Claim C18: in every state reached from the initial state by a series of
registrations, bills, calls of the memory instrumentation and resets (in which
no function array of negative count is ever allocated), the `time` of each
record of the chain equals the sum of the `time` of its function records
modulo `2 ^ 64`, and its `samples` equals the number of calls of `bill_func`
since the record was created whose function id lay in its id range. -/
theorem reachable_time_and_samples (ops : List profiler_op) (t : traced)
    (hok : ∀ op ∈ ops, op.malloc_ok)
    (hrun : run_ops { state := halide_profiler_get_state, attributed := [] } ops = some t) :
    t.attributed.length = t.state.pipelines.length ∧
    ∀ (i : Nat) (p : halide_profiler_pipeline_stats), t.state.pipelines[i]? = some p →
      p.time = (p.funcs.map fun fs => fs.time).sum % 2 ^ 64 ∧
      ∃ a : Nat, t.attributed[i]? = some a ∧ p.samples = a := by
  have hinit : billing_invariant
      ({ state := halide_profiler_get_state, attributed := [] } : traced).state.first_free_id
      (({ state := halide_profiler_get_state, attributed := [] } : traced).state.pipelines.map
        view_of)
      ({ state := halide_profiler_get_state, attributed := [] } : traced).attributed :=
    ⟨by simp [halide_profiler_get_state], by simp [halide_profiler_get_state], rfl⟩
  obtain ⟨hwf, _, hsamples⟩ := run_ops_invariant ops _ t hok hinit hrun
  have hlen : t.attributed.length = t.state.pipelines.length := by
    have := congrArg List.length hsamples
    simpa using this.symm
  refine ⟨hlen, fun i p hp => ?_⟩
  have hmem : view_of p ∈ t.state.pipelines.map view_of :=
    List.mem_map.mpr ⟨p, List.getElem?_mem hp, rfl⟩
  refine ⟨(hwf _ hmem).2.2, ?_⟩
  have hi : i < t.attributed.length := by
    rw [hlen]
    exact (List.getElem?_eq_some.mp hp).1
  refine ⟨t.attributed[i], List.getElem?_eq_getElem hi, ?_⟩
  have hget := congrArg (fun l => l[i]?) hsamples
  simp only [List.getElem?_map, hp, List.getElem?_eq_getElem hi, Option.map_some',
    Option.some.injEq, view_of] at hget
  exact hget

/-- The operations `sample_ops` from the initial state: the record of the ids 2
to 4 has 1 sample and 5 ns, the record of the ids 0 and 1 has 2 samples and
100 ns. -/
theorem reachable_time_and_samples_witness :
    sample_trace.attributed.length = sample_trace.state.pipelines.length ∧
    ∀ (i : Nat) (p : halide_profiler_pipeline_stats),
      sample_trace.state.pipelines[i]? = some p →
      p.time = (p.funcs.map fun fs => fs.time).sum % 2 ^ 64 ∧
      ∃ a : Nat, sample_trace.attributed[i]? = some a ∧ p.samples = a :=
  reachable_time_and_samples sample_ops sample_trace (by decide) (by decide)

end Halide.Runtime
